import Mathlib

/-!
Verification of the backup/clone template-generation engine of the
azure-iot-ops-cli-extension repository
(`src/azext_edge/edge/providers/orchestration/backup.py`).

The Python module is shallowly embedded: JSON-like records become an
inductive `JValue` with insertion-ordered association lists for objects
(Python `dict` semantics: assignment replaces the value of the first
matching key in place, otherwise appends), fallible operations return
`Except String`, and the in-place mutation performed by the render
methods is made explicit by returning the updated container next to the
rendered block.

Helpers that the module imports from parts of the repository that are
not available (`chunk_list`, `parse_resource_id`, the extension
constants of `.common`, `REGISTRY_API_VERSION`, `CLI_VERSION`,
`get_fc_name`) are modelled from the specification; each is marked in
its doc comment.
-/

namespace Backup

/-- Embedding of a Python JSON-like value as produced by the collaborator
queries. Objects are insertion-ordered association lists. -/
inductive JValue where
  | null
  | bool (b : Bool)
  | num (n : Int)
  | str (s : String)
  | arr (elems : List JValue)
  | obj (fields : List (String × JValue))

/-- Insertion-ordered JSON object, the embedding of a Python `dict`. -/
abbrev JObj := List (String × JValue)

/-- Lookup of the value at the first occurrence of a key, the embedding of
Python `d[k]` / `d.get(k)` on a dict (which never has duplicate keys). -/
def lookupEntry {κ α : Type} [DecidableEq κ] : List (κ × α) → κ → Option α
  | [], _ => none
  | (k, v) :: rest, key => if k = key then some v else lookupEntry rest key

/-- Embedding of Python `d[k] = v` on a dict: replace the value at the first
occurrence of the key keeping its position, otherwise append. -/
def setEntry {κ α : Type} [DecidableEq κ] : List (κ × α) → κ → α → List (κ × α)
  | [], key, v => [(key, v)]
  | (k, w) :: rest, key, v =>
      if k = key then (k, v) :: rest else (k, w) :: setEntry rest key v

/-- Embedding of Python `{**a, **b}` / `a.update(b)`: fold assignment of the
entries of `b` over `a`. -/
def updateObj {κ α : Type} [DecidableEq κ] (a b : List (κ × α)) : List (κ × α) :=
  b.foldl (fun acc kv => setEntry acc kv.1 kv.2) a

/-- Keys of an association list. -/
def entryKeys {κ α : Type} (o : List (κ × α)) : List κ := o.map Prod.fst

/-- Well-formedness of an embedded dict: Python dicts never carry duplicate
keys. -/
abbrev KeysNodup {κ α : Type} (o : List (κ × α)) : Prop := (entryKeys o).Nodup

/-- Python truthiness of a JSON-like value (`if x:`). -/
def jTruthy : JValue → Bool
  | .null => false
  | .bool b => b
  | .num n => n != 0
  | .str s => !s.data.isEmpty
  | .arr xs => !xs.isEmpty
  | .obj o => !o.isEmpty

/-- Lifting of an optional value into `Except`, embedding Python operations
that raise when a value is missing. -/
def okOr {α : Type} (o : Option α) (msg : String) : Except String α :=
  match o with
  | some a => .ok a
  | none => .error msg

/-- Embedding of `d[k]`, raising `KeyError` when the key is absent. -/
def getKeyE (o : JObj) (k : String) : Except String JValue :=
  okOr (lookupEntry o k) ("KeyError: " ++ k)

/-- Coercion of a value to an object, raising where Python would raise a
`TypeError` on indexing a non-dict. -/
def asObjE : JValue → Except String JObj
  | .obj o => .ok o
  | _ => .error "TypeError: value is not an object"

/-- Coercion of a value to a string, raising where Python would raise on a
non-string. -/
def asStrE : JValue → Except String String
  | .str s => .ok s
  | _ => .error "TypeError: value is not a string"

/-- Split of a character list at a separator, used to embed `str.split` and
`str.partition` over `"/"`. -/
def splitChars (sep : Char) : List Char → List (List Char)
  | [] => [[]]
  | c :: rest =>
    let r := splitChars sep rest
    if c = sep then [] :: r
    else
      match r with
      | [] => [[c]]
      | g :: gs => (c :: g) :: gs

/-- ASCII lowering of one character; resource types and extended-location
ids in scope are ASCII, so this embeds Python `str.lower`. -/
def lowerChar (c : Char) : Char :=
  match c with
  | 'A' => 'a' | 'B' => 'b' | 'C' => 'c' | 'D' => 'd' | 'E' => 'e' | 'F' => 'f'
  | 'G' => 'g' | 'H' => 'h' | 'I' => 'i' | 'J' => 'j' | 'K' => 'k' | 'L' => 'l'
  | 'M' => 'm' | 'N' => 'n' | 'O' => 'o' | 'P' => 'p' | 'Q' => 'q' | 'R' => 'r'
  | 'S' => 's' | 'T' => 't' | 'U' => 'u' | 'V' => 'v' | 'W' => 'w' | 'X' => 'x'
  | 'Y' => 'y' | 'Z' => 'z' | c => c

/-- Embedding of Python `str.lower` for the ASCII strings in scope. -/
def strLower (s : String) : String := String.mk (s.data.map lowerChar)

/-- Digit character of a value below ten. -/
def digitChar : Nat → Char
  | 0 => '0' | 1 => '1' | 2 => '2' | 3 => '3' | 4 => '4'
  | 5 => '5' | 6 => '6' | 7 => '7' | 8 => '8' | _ => '9'

/-- Base-ten digit expansion with explicit fuel, so that the definition is
structural and evaluates in the kernel. -/
def natCharsFuel : Nat → Nat → List Char
  | 0, _ => []
  | fuel + 1, n =>
      if n < 10 then [digitChar n]
      else natCharsFuel fuel (n / 10) ++ [digitChar (n % 10)]

/-- Embedding of Python `str(n)` for a natural number (as produced by
f-string interpolation of a counter). -/
def natStr (n : Nat) : String := String.mk (natCharsFuel (n + 1) n)

/-- Enumeration `StateResourceKey` of backup.py. -/
inductive StateResourceKey where
  | CL | INSTANCE | BROKER | LISTENER | AUTHN | AUTHZ | PROFILE | ENDPOINT
  | DATAFLOW | ASSET | ASSET_ENDPOINT_PROFILE | SSC_SPC | SSC_SECRETSYNC
  | ROLE_ASSIGNMENT | FEDERATE
  deriving DecidableEq, Repr

/-- Values of the `StateResourceKey` enumeration. -/
def StateResourceKey.value : StateResourceKey → String
  | .CL => "customLocation"
  | .INSTANCE => "instance"
  | .BROKER => "broker"
  | .LISTENER => "listener"
  | .AUTHN => "authn"
  | .AUTHZ => "authz"
  | .PROFILE => "dataflowProfile"
  | .ENDPOINT => "dataflowEndpoint"
  | .DATAFLOW => "dataflow"
  | .ASSET => "asset"
  | .ASSET_ENDPOINT_PROFILE => "assetEndpointProfile"
  | .SSC_SPC => "secretProviderClass"
  | .SSC_SECRETSYNC => "secretSync"
  | .ROLE_ASSIGNMENT => "roleAssignment"
  | .FEDERATE => "identityFederation"

/-- Entry `instanceName` of `TEMPLATE_EXPRESSION_MAP`. -/
def instanceNameExpr : String := "[parameters('instanceName')]"

/-- Entry `instanceNestedName` of `TEMPLATE_EXPRESSION_MAP`, applied to the
suffix filled in by `str.format`. -/
def instanceNestedNameExpr (suffix : String) : String :=
  "[concat(parameters('instanceName'), '" ++ suffix ++ "')]"

/-- Entry `clusterName` of `TEMPLATE_EXPRESSION_MAP`. -/
def clusterNameExpr : String := "[parameters('clusterName')]"

/-- Entry `clusterId` of `TEMPLATE_EXPRESSION_MAP`. -/
def clusterIdExpr : String :=
  "[resourceId('Microsoft.Kubernetes/connectedClusters', parameters('clusterName'))]"

/-- Entry `customLocationName` of `TEMPLATE_EXPRESSION_MAP`. -/
def customLocationNameExpr : String := "[parameters('customLocationName')]"

/-- Entry `customLocationId` of `TEMPLATE_EXPRESSION_MAP`. -/
def customLocationIdExpr : String :=
  "[resourceId('Microsoft.ExtendedLocation/customLocations', parameters('customLocationName'))]"

/-- Entry `extensionId` of `TEMPLATE_EXPRESSION_MAP`, applied to the fragment
filled in by `str.format` (the source template ends in a bare `)]`, kept
verbatim). -/
def extensionIdExpr (frag : String) : String :=
  "[concat(resourceId('Microsoft.Kubernetes/connectedClusters', parameters('clusterName')), " ++
    "'/providers/Microsoft.KubernetesConfiguration/extensions/" ++ frag ++ ")]"

/-- Entry `schemaRegistryId` of `TEMPLATE_EXPRESSION_MAP`. -/
def schemaRegistryIdExpr : String := "[parameters('schemaRegistryId')]"

/-- Modelled from the spec: structured view of an ARM resource id produced by
`parse_resource_id` of `azext_edge.edge.util.id_tools`, whose source is not
available. Spec 4.1: subscription, resource group, provider namespace,
top-level type and name, and zero or more nested `(child_type, child_name)`
pairs, with `last_child_num = children.length` and `child_name_i` the second
component of `children[i - 1]`. -/
structure ParsedResourceId where
  subscription : String
  resource_group : String
  ns : String
  type : String
  name : String
  children : List (String × String)
  deriving Repr, DecidableEq

/-- Pairing of the trailing segments of a resource id into
`(child_type, child_name)` pairs; an odd remainder is a parse failure. -/
def parsePairs : List String → Option (List (String × String))
  | [] => some []
  | [_] => none
  | t :: n :: rest => (parsePairs rest).map (fun l => (t, n) :: l)

/-- Modelled from the spec: `parse_resource_id` of
`azext_edge.edge.util.id_tools` (source not available). Spec 4.1: split on
`/`; expect the keywords `subscriptions`, `resourceGroups`, `providers`,
then the namespace and repeating `(type, name)` pairs for the root resource
and each nested child; fail when a keyword is missing or the segment count
after the namespace is odd. -/
def parse_resource_id (rid : String) : Option ParsedResourceId :=
  match ((splitChars '/' rid.data).map String.mk).filter (fun s => !s.data.isEmpty) with
  | "subscriptions" :: sub :: "resourceGroups" :: rg :: "providers" :: nsp :: ty :: nm :: rest =>
      (parsePairs rest).map (fun children =>
        { subscription := sub, resource_group := rg, ns := nsp,
          type := ty, name := nm, children := children })
  | _ => none

/-- Slash-joined nested name built by `_apply_nested_name` from a parsed id:
the top-level name followed by every `child_name_i`. -/
def slashJoinedName (p : ParsedResourceId) : String :=
  p.children.foldl (fun acc c => acc ++ "/" ++ c.2) p.name

/-- Embedding of the local `__extract_suffix` of `_apply_nested_name`:
`"/" + path.partition("/")[2]`. -/
def extract_suffix (path : String) : String :=
  "/" ++
    (match splitChars '/' path.data with
     | [] => ""
     | [_] => ""
     | _ :: rest => String.mk (List.intercalate ['/'] rest))

/-- Filter of `_prune_resource_keys`: keep the entries whose key is not in
the filter set, preserving order. -/
def pruneKeys (filter_keys : List String) (resource : JObj) : JObj :=
  resource.filter (fun kv => !(decide (kv.1 ∈ filter_keys)))

/-- Embedding of the `ResourceContainer` class: one captured resource record
plus api version, normalized dependency list and config flags. -/
structure ResourceContainer where
  api_version : String
  resource_state : JObj
  depends_on : Option (List String)
  config : JObj

/-- Reading of `config.get("apply_nested_name", True)` followed by Python
truthiness. -/
def configApplyNestedName (c : JObj) : Bool :=
  match lookupEntry c "apply_nested_name" with
  | some v => jTruthy v
  | none => true

/-- Embedding of `ResourceContainer._apply_nested_name`: parse the record id,
replace `name` with the slash-joined path, and for the `instances` type
replace it further with the instance-name template expression. -/
def applyNestedName (state : JObj) : Except String JObj := do
  let idv ← getKeyE state "id"
  let ids ← asStrE idv
  let test ← okOr (parse_resource_id ids) "MalformedResourceId"
  let target_name := slashJoinedName test
  let state := setEntry state "name" (.str target_name)
  if strLower test.type = "instances" then
    let suffix := extract_suffix target_name
    if suffix = "/" then
      return setEntry state "name" (.str instanceNameExpr)
    else
      return setEntry state "name" (.str (instanceNestedNameExpr suffix))
  else
    return state

/-- Embedding of `ResourceContainer._apply_cl_ref`: when the record carries an
`extendedLocation`, rewrite its `name` to the custom-location id expression. -/
def applyClRef (state : JObj) : Except String JObj :=
  match lookupEntry state "extendedLocation" with
  | none => .ok state
  | some (.obj el) =>
      .ok (setEntry state "extendedLocation" (.obj (setEntry el "name" (.str customLocationIdExpr))))
  | some _ => .error "TypeError: extendedLocation is not an object"

/-- Embedding of `ResourceContainer._prune_identity`: when the record carries
an `identity`, drop `principalId` from it. -/
def pruneIdentity (state : JObj) : Except String JObj :=
  match lookupEntry state "identity" with
  | none => .ok state
  | some (.obj idn) =>
      .ok (setEntry state "identity" (.obj (pruneKeys ["principalId"] idn)))
  | some _ => .error "TypeError: identity is not an object"

/-- Embedding of `ResourceContainer._prune_resource`: drop `id` and
`systemData` at the top level, then drop the volatile keys from
`properties` (`KeyError` when `properties` is absent, as in the source). -/
def pruneResource (state : JObj) : Except String JObj := do
  let state := pruneKeys ["id", "systemData"] state
  let props ← getKeyE state "properties"
  let propso ← asObjE props
  return setEntry state "properties"
    (.obj (pruneKeys ["provisioningState", "currentVersion", "statuses", "status"] propso))

/-- Guarded nested-name rewrite of `ResourceContainer.get`: the source skips
`_apply_nested_name` when the config flag is falsy. -/
def applyNestedNameCond (config : JObj) (state : JObj) : Except String JObj :=
  if configApplyNestedName config then applyNestedName state else pure state

/-- Embedding of `ResourceContainer.get`: the render operation. The source
mutates `self.resource_state` in place through the four normalization steps
and then merges `apiVersion` and `dependsOn` into a fresh dict; the mutation
is made explicit by returning the updated container next to the rendered
block. -/
def ResourceContainer.get (rc : ResourceContainer) :
    Except String (JObj × ResourceContainer) := do
  let state := rc.resource_state
  let state ← applyNestedNameCond rc.config state
  let state ← applyClRef state
  let state ← pruneIdentity state
  let state ← pruneResource state
  let result := updateObj [("apiVersion", .str rc.api_version)] state
  let result :=
    match rc.depends_on with
    | some l => if l.isEmpty then result else setEntry result "dependsOn" (.arr (l.map .str))
    | none => result
  return (result, { rc with resource_state := state })

/-- Element of an iterable passed to `process_depends_on`: a string, a
`StateResourceKey`, or a value of any other type (dropped by the source). -/
inductive DependsOnItem where
  | str (s : String)
  | key (k : StateResourceKey)
  | other
  deriving Repr

/-- Argument of `process_depends_on`: a single string, a single
`StateResourceKey`, or an iterable of items (`Option` embeds `None`). -/
inductive DependsOnInput where
  | str (s : String)
  | key (k : StateResourceKey)
  | list (items : List DependsOnItem)
  deriving Repr

/-- Python falsiness of a `process_depends_on` argument (`if not depends_on`):
`None`, the empty string and the empty iterable are falsy. -/
def dependsOnFalsy : Option DependsOnInput → Bool
  | none => true
  | some (.str s) => s.data.isEmpty
  | some (.key _) => false
  | some (.list items) => items.isEmpty

/-- String form of one iterable element: a `StateResourceKey` contributes its
value, a string itself, anything else is dropped. -/
def dependsOnItemStr : DependsOnItem → Option String
  | .str s => some s
  | .key k => some k.value
  | .other => none

/-- Embedding of the module-level `process_depends_on`. -/
def process_depends_on (d : Option DependsOnInput) : Option (List String) :=
  if dependsOnFalsy d then none
  else
    match d with
    | none => none
    | some (.key k) => some [k.value]
    | some (.str s) => some [s]
    | some (.list items) => some (items.filterMap dependsOnItemStr)

/-- Argument of kind `Union[Iterable[str], str]`, as taken by the
`DeploymentContainer` constructor. -/
inductive StrOrList where
  | str (s : String)
  | list (l : List String)
  deriving Repr

/-- Normalization performed by the `DeploymentContainer` constructor: a bare
string is wrapped into a singleton collection. -/
def initDependsOn : Option StrOrList → Option (List String)
  | none => none
  | some (.str s) => some [s]
  | some (.list l) => some l

/-- Argument of kind `Union[StateResourceKey, str]` as taken by
`add_resources` and `_add_resource`, converted to its string form first. -/
inductive KeyOrStr where
  | key (k : StateResourceKey)
  | str (s : String)
  deriving Repr

/-- String form of a `Union[StateResourceKey, str]` argument. -/
def KeyOrStr.toStr : KeyOrStr → String
  | .key k => k.value
  | .str s => s

/-- Embedding of the `DeploymentContainer` class: a nested ARM deployment
wrapping a named, ordered batch of resource containers. -/
structure DeploymentContainer where
  name : String
  api_version : String
  parameters : Option JObj
  depends_on : Option (List String)
  rcontainer_map : List (String × ResourceContainer)

/-- Construction of a `DeploymentContainer` as in the source constructor
(`api_version` defaults to `2022-09-01`, a bare dependency string is wrapped). -/
def DeploymentContainer.make (name : String) (parameters : Option JObj)
    (depends_on : Option StrOrList) : DeploymentContainer :=
  { name := name
    api_version := "2022-09-01"
    parameters := parameters
    depends_on := initDependsOn depends_on
    rcontainer_map := [] }

/-- Loop body of `DeploymentContainer.add_resources`: register one record
under the category key with a 1-based occurrence suffix (no suffix for the
first), threading the enumeration counter. -/
def addResourcesStep (keyStr : String) (api_version : String)
    (dep : Option (List String)) (config : JObj)
    (acc : Nat × List (String × ResourceContainer)) (resource : JObj) :
    Nat × List (String × ResourceContainer) :=
  let count := acc.1 + 1
  let suffix := if count ≤ 1 then "" else "_" ++ natStr count
  let target_key := keyStr ++ suffix
  (count, setEntry acc.2 target_key
    { api_version := api_version, resource_state := resource,
      depends_on := dep, config := config })

/-- Embedding of `DeploymentContainer.add_resources`: wrap each record of the
batch in a `ResourceContainer` registered under the category key with a
1-based occurrence suffix. -/
def DeploymentContainer.add_resources (dc : DeploymentContainer) (key : KeyOrStr)
    (api_version : String) (data_iter : List JObj)
    (depends_on : Option DependsOnInput) (config : JObj) : DeploymentContainer :=
  { dc with rcontainer_map :=
      (data_iter.foldl
        (addResourcesStep key.toStr api_version (process_depends_on depends_on) config)
        (0, dc.rcontainer_map)).2 }

/-- Rendering of the inner resource containers of a deployment in order,
carrying the in-place mutation of each container. -/
def renderInner :
    List (String × ResourceContainer) →
      Except String (List JObj × List (String × ResourceContainer))
  | [] => .ok ([], [])
  | (k, rc) :: rest => do
      let (r, rc2) ← rc.get
      let (rs, rest2) ← renderInner rest
      return (r :: rs, (k, rc2) :: rest2)

/-- Embedding of `DeploymentContainer.get`: the nested-deployment render.
The pass-through parameter block and the dependency list are attached only
when truthy, exactly as in the source; the source mutates the inner
containers, made explicit in the returned container. -/
def DeploymentContainer.get (dc : DeploymentContainer) :
    Except String (JObj × DeploymentContainer) := do
  let (inner, rmap2) ← renderInner dc.rcontainer_map
  let templateFields : JObj :=
    [("$schema", .str "https://schema.management.azure.com/schemas/2019-04-01/deploymentTemplate.json#"),
     ("contentVersion", .str "1.0.0.0"),
     ("resources", .arr (inner.map .obj))] ++
    (match dc.parameters with
     | some params => if params.isEmpty then [] else [("parameters", .obj params)]
     | none => [])
  let propFields : JObj :=
    [("mode", .str "Incremental"),
     ("template", .obj templateFields)] ++
    (match dc.parameters with
     | some params =>
         if params.isEmpty then []
         else
           [("parameters",
             .obj (params.map (fun kv =>
               (kv.1, .obj [("value", .str ("[parameters('" ++ kv.1 ++ "')]"))]))))]
     | none => [])
  let result : JObj :=
    [("type", .str "Microsoft.Resources/deployments"),
     ("apiVersion", .str dc.api_version),
     ("name", .str dc.name),
     ("properties", .obj propFields)]
  let result :=
    match dc.depends_on with
    | some l => if l.isEmpty then result else setEntry result "dependsOn" (.arr (l.map .str))
    | none => result
  return (result, { dc with rcontainer_map := rmap2 })

/-- Entry of the orchestrator state map: a plain resource container or a
nested deployment container. -/
inductive Container where
  | res (rc : ResourceContainer)
  | dep (dc : DeploymentContainer)

/-- Render dispatch over the two container kinds. -/
def Container.get : Container → Except String (JObj × Container)
  | .res rc => (rc.get).map (fun p => (p.1, .res p.2))
  | .dep dc => (dc.get).map (fun p => (p.1, .dep p.2))

/-- Modelled from the spec: `chunk_list` of `azext_edge.edge.util` (source
not available). Spec 4.4 step 4 and 8: split a record list into consecutive
chunks of at most `chunk_size` records preserving order. Fuel keeps the
recursion structural; `length xs` steps always suffice for a positive
chunk size. -/
def chunkFuel {α : Type} : Nat → List α → Nat → List (List α)
  | 0, _, _ => []
  | _ + 1, [], _ => []
  | fuel + 1, xs, n => xs.take n :: chunkFuel fuel (xs.drop n) n

/-- Modelled from the spec: `chunk_list` splits into ceiling-many chunks of
at most `n` records each, preserving order. -/
def chunk_list {α : Type} (xs : List α) (n : Nat) : List (List α) :=
  chunkFuel xs.length xs n

/-- Embedding of `get_resource_id_expr`: build a `resourceId` template
expression from a resource id, substituting the instance-name parameter for
the root segment. -/
def get_resource_id_expr (rtype : String) (resource_id : String)
    (for_instance : Bool := true) : Except String String := do
  let id_meta ← okOr (parse_resource_id resource_id) "MalformedResourceId"
  let initial_seg := if for_instance then "parameters('instanceName')" else id_meta.name
  let target_name := "'" ++ initial_seg ++ "'"
  let target_name := if for_instance then "parameters('instanceName')" else target_name
  let target_name :=
    id_meta.children.foldl (fun acc c => acc ++ ", '" ++ c.2 ++ "'") target_name
  return "[resourceId('" ++ rtype ++ "', " ++ target_name ++ ")]"

/-- Test whether a list starts with a pattern, used to embed the Python
substring test. -/
def startsWithChars : List Char → List Char → Bool
  | [], _ => true
  | _ :: _, [] => false
  | p :: ps, x :: xs => p = x && startsWithChars ps xs

/-- Embedding of the Python substring test `pat in s` over character lists. -/
def containsSub (pat : List Char) : List Char → Bool
  | [] => startsWithChars pat []
  | x :: xs => startsWithChars pat (x :: xs) || containsSub pat xs

/-- Index of the first occurrence of a character, as computed by the Python
`str.index`. -/
def firstIdx (c : Char) : List Char → Option Nat
  | [] => none
  | x :: xs => if x = c then some 0 else (firstIdx c xs).map (· + 1)

/-- Embedding of the local `_rem_first_last` of `get_resource_id_by_parts`:
remove the first and last occurrence of a character when they differ. -/
def remFirstLast (s : String) (c : Char) : String :=
  let cs := s.data
  match firstIdx c cs, firstIdx c cs.reverse with
  | some first, some lastRev =>
      let last := cs.length - 1 - lastRev
      if first = last then s
      else
        String.mk (cs.take first ++ (cs.drop (first + 1)).take (last - first - 1) ++
          cs.drop (last + 1))
  | _, _ => s

/-- Embedding of `get_resource_id_by_parts`: quote and join the name parts,
stripping the outer quotes when a `concat(` expression is among them. -/
def get_resource_id_by_parts (rtype : String) (args : List String) : String :=
  let name_parts := args.foldl (fun acc arg => acc ++ ", '" ++ arg ++ "'") ""
  let name_parts :=
    if containsSub ("concat(".data) name_parts.data then remFirstLast name_parts '\''
    else name_parts
  "[resourceId('" ++ rtype ++ "'" ++ name_parts ++ ")]"

/-- Embedding of `get_resource_id_by_param`. -/
def get_resource_id_by_param (rtype : String) (param : String) : String :=
  "[resourceId('" ++ rtype ++ "', parameters('" ++ param ++ "'))]"

/-- Modelled from the spec: `CUSTOM_LOCATIONS_API_VERSION` of `.common`
(source not available); an opaque api-version literal. -/
def CUSTOM_LOCATIONS_API_VERSION : String := "2021-08-31-preview"

/-- Modelled from the spec: `REGISTRY_API_VERSION` of `util.az_client`
(constant not present in the available sources); an opaque api-version
literal. -/
def REGISTRY_API_VERSION : String := "2024-11-01"

/-- Modelled from the spec: `CONTRIBUTOR_ROLE_ID` of `.common` (source not
available); an opaque role-definition guid literal. -/
def CONTRIBUTOR_ROLE_ID : String := "b24988ac-6180-42a0-ab88-20f7382dd24c"

/-- Modelled from the spec: `VERSION` of the package constants (source not
available); an opaque CLI version literal. -/
def CLI_VERSION : String := "1.0.0"

/-- Modelled from the spec: the extension type constants and
`EXTENSION_TYPE_TO_MONIKER_MAP` of `.common` (source not available); spec
4.4 step 2 names the platform, secret-store, container-storage,
service-mesh and ops extensions. -/
def EXTENSION_TYPE_PLATFORM : String := "microsoft.iotoperations.platform"

/-- Modelled from the spec: the open-service-mesh extension type. -/
def EXTENSION_TYPE_OSM : String := "microsoft.openservicemesh"

/-- Modelled from the spec: the container-storage extension type. -/
def EXTENSION_TYPE_ACS : String := "microsoft.arc.containerstorage"

/-- Modelled from the spec: the secret-store extension type. -/
def EXTENSION_TYPE_SSC : String := "microsoft.azure.secretstore"

/-- Modelled from the spec: the ops extension type. -/
def EXTENSION_TYPE_OPS : String := "microsoft.iotoperations"

/-- Modelled from the spec: the extension type to moniker table. -/
def EXTENSION_TYPE_TO_MONIKER_MAP : List (String × String) :=
  [(EXTENSION_TYPE_PLATFORM, "platform"),
   (EXTENSION_TYPE_OSM, "openServiceMesh"),
   (EXTENSION_TYPE_SSC, "secretStore"),
   (EXTENSION_TYPE_ACS, "containerStorage"),
   (EXTENSION_TYPE_OPS, "iotOperations")]

/-- Modelled from the spec: `OPS_EXTENSION_DEPS`, the prerequisite extension
types of the ops extension. -/
def OPS_EXTENSION_DEPS : List String :=
  [EXTENSION_TYPE_PLATFORM, EXTENSION_TYPE_OSM, EXTENSION_TYPE_SSC, EXTENSION_TYPE_ACS]

/-- Embedding of the module-level `build_parameter`. -/
def build_parameter (name : String) (type : String := "string")
    (metadata : Option JObj := none) (default : Option JValue := none) : JObj :=
  let inner : JObj := [("type", .str type)]
  let inner :=
    match metadata with
    | some m => if m.isEmpty then inner else inner ++ [("metadata", .obj m)]
    | none => inner
  let inner :=
    match default with
    | some d => if jTruthy d then inner ++ [("defaultValue", d)] else inner
    | none => inner
  [(name, .obj inner)]

/-- Embedding of the module-level `get_role_assignment`. -/
def get_role_assignment : JObj :=
  [("type", .str "Microsoft.Authorization/roleAssignments"),
   ("name", .str ("[guid(parameters('schemaRegistryId'), " ++
      "parameters('clusterName'), resourceGroup().id)]")),
   ("scope", .str "[parameters('schemaRegistryId')]"),
   ("properties", .obj
     [("roleDefinitionId", .str ("[subscriptionResourceId('Microsoft.Authorization/roleDefinitions', '" ++
         CONTRIBUTOR_ROLE_ID ++ "')]")),
      ("principalId", .str ("[reference('iotOperations', " ++
         "'2023-05-01', 'Full').identity.principalId]")),
      ("principalType", .str "ServicePrincipal")])]

/-- Tag of one `_analyze_*` phase of `BackupManager.analyze_cluster`, in the
order the phases appear in the source. -/
inductive AnalyzePhase where
  | extensions
  | instanceMain
  | instanceIdentity
  | instanceResources
  | secretSync
  | assets
  deriving DecidableEq, Repr

/-- Embedding of the mutable state of a `BackupManager` (the constructor
initializes the maps empty and `chunk_size = 800`; `instance_record` is the
owned copy of the fetched instance, mutated by the instance phase;
`trace` records the invocation order of the `_analyze_*` phases and
`fc_created` the federated-credential side effects). -/
structure BackupState where
  rcontainer_map : List (String × Container)
  parameter_map : JObj
  variable_map : JObj
  metadata_map : JObj
  instance_identities : List String
  active_deployment : List (StateResourceKey × List String)
  chunk_size : Nat
  instance_record : JObj
  trace : List AnalyzePhase
  fc_created : List (String × JObj)

/-- Symbolic name generated by `add_deployment_by_key`:
`f"{key.value}s_{n}"`. -/
def symbolicName (key : StateResourceKey) (n : Nat) : String :=
  key.value ++ "s_" ++ natStr n

/-- Deployment name generated by `add_deployment_by_key`:
`f"concat(parameters('resourceSlug'), '_{symbolic_name}')"`. -/
def deploymentNameStr (key : StateResourceKey) (n : Nat) : String :=
  "concat(parameters('resourceSlug'), '_" ++ symbolicName key n ++ "')"

/-- Embedding of `BackupManager.add_deployment_by_key`: register the next
deployment name for a category and return the symbolic and deployment
names. -/
def add_deployment_by_key (st : BackupState) (key : StateResourceKey) :
    String × String × BackupState :=
  let deployments_by_key := (lookupEntry st.active_deployment key).getD []
  let symbolic_name := symbolicName key (deployments_by_key.length + 1)
  let deployment_name := deploymentNameStr key (deployments_by_key.length + 1)
  (symbolic_name, deployment_name,
    { st with active_deployment :=
        setEntry st.active_deployment key (deployments_by_key ++ [deployment_name]) })

/-- Loop body of `BackupManager._add_deployment` over the chunked record
list. -/
def add_deployment_chunks (key : StateResourceKey) (api_version : String)
    (depends_on : Option StrOrList) (parameters : Option JObj) :
    List (List JObj) → BackupState → BackupState
  | [], st => st
  | chunk :: rest, st =>
      let named := add_deployment_by_key st key
      let dc := (DeploymentContainer.make ("[" ++ named.2.1 ++ "]") parameters
          depends_on).add_resources (.key key) api_version chunk none []
      let st2 := { named.2.2 with
        rcontainer_map := setEntry named.2.2.rcontainer_map named.1 (.dep dc) }
      add_deployment_chunks key api_version depends_on parameters rest st2

/-- Embedding of `BackupManager._add_deployment`: an empty record list
registers nothing; otherwise every chunk becomes one deployment container
registered under the next symbolic name of the category. -/
def add_deployment (st : BackupState) (key : StateResourceKey) (api_version : String)
    (data_iter : List JObj) (depends_on : Option StrOrList)
    (parameters : Option JObj) : BackupState :=
  if data_iter.isEmpty then st
  else add_deployment_chunks key api_version depends_on parameters
    (chunk_list data_iter st.chunk_size) st

/-- Embedding of `BackupManager._add_resource`. -/
def add_resource (st : BackupState) (key : KeyOrStr) (api_version : String)
    (data : JObj) (depends_on : Option DependsOnInput) (config : JObj) : BackupState :=
  let rc : ResourceContainer :=
    { api_version := api_version, resource_state := data,
      depends_on := process_depends_on depends_on, config := config }
  { st with rcontainer_map := setEntry st.rcontainer_map key.toStr (.res rc) }

/-- Collaborator results consumed by one backup invocation (spec 6): the
fetched instance and custom-location records, the api versions of the
management clients, and the listing results per category. Listing results
keyed by an argument (dataflows per profile, identities per client-id set,
federated credentials per identity) are functions. -/
structure BackupEnv where
  oidc_issuer : Option String
  instance_record : JObj
  custom_location : JObj
  extensions_api_version : String
  iotops_api_version : String
  ssc_api_version : String
  extension_map : List (String × JObj)
  brokers : List JObj
  broker_authentications : List JObj
  broker_authorizations : List JObj
  broker_listeners : List JObj
  dataflow_endpoints : List JObj
  dataflow_profiles : List JObj
  dataflows_by_profile : String → List JObj
  asset_endpoints : List JObj
  assets : List JObj
  ssc_spcs : List JObj
  ssc_secretsyncs : List JObj
  identities_by_client_id : List String → List JObj
  federated_credentials : String → String → List JObj

/-- State of a freshly constructed `BackupManager` (empty maps,
`chunk_size = 800`, the owned instance record). -/
def init_state (env : BackupEnv) : BackupState :=
  { rcontainer_map := [], parameter_map := [], variable_map := [],
    metadata_map := [], instance_identities := [], active_deployment := [],
    chunk_size := 800, instance_record := env.instance_record, trace := [],
    fc_created := [] }

/-- Recording of the invocation of one `_analyze_*` phase. -/
def logPhase (st : BackupState) (p : AnalyzePhase) : BackupState :=
  { st with trace := st.trace ++ [p] }

/-- Embedding of `BackupManager._build_parameters`. -/
def build_parameters (st : BackupState) : Except String BackupState := do
  let pm := updateObj st.parameter_map (build_parameter "clusterName" "string" none none)
  let pm := updateObj pm (build_parameter "instanceName" "string" none none)
  let pm := updateObj pm (build_parameter "resourceSlug" "string" none
    (some (.str ("[take(uniqueString(resourceGroup().id, " ++
      "parameters('clusterName'), parameters('instanceName')), 5)]"))))
  let pm := updateObj pm (build_parameter "customLocationName" "string" none
    (some (.str "[format('location-{0}', parameters('resourceSlug'))]")))
  let props ← asObjE (← getKeyE st.instance_record "properties")
  let sref ← asObjE (← getKeyE props "schemaRegistryRef")
  let srid ← getKeyE sref "resourceId"
  let pm := updateObj pm (build_parameter "schemaRegistryId" "string" none (some srid))
  return { st with parameter_map := pm }

/-- Embedding of `BackupManager._build_variables`. -/
def build_variables (st : BackupState) : BackupState :=
  let vm := setEntry st.variable_map "aioExtName"
    (.str "[format('azure-iot-operations-{0}', parameters('resourceSlug'))]")
  { st with variable_map := vm }

/-- Embedding of `BackupManager._build_metadata`. -/
def build_metadata (st : BackupState) : Except String BackupState := do
  let mm := setEntry st.metadata_map "opsCliVersion" (.str CLI_VERSION)
  let iid ← getKeyE st.instance_record "id"
  return { st with metadata_map := setEntry mm "clonedInstanceId" iid }

/-- Moniker lookup `EXTENSION_TYPE_TO_MONIKER_MAP[ext_type]`, raising
`KeyError` for an unknown extension type as Python indexing does. -/
def monikerOf (ext_type : String) : Except String String :=
  match lookupEntry EXTENSION_TYPE_TO_MONIKER_MAP ext_type with
  | some m => .ok m
  | none => .error ("KeyError: " ++ ext_type)

/-- Embedding of `BackupManager._analyze_extensions`. Names are formatted
with `f"{...}"` in the source; non-string names are out of scope and
modelled as type errors. -/
def analyze_extensions (env : BackupEnv) (st : BackupState) :
    Except String BackupState := do
  let st := logPhase st .extensions
  let platformM ← monikerOf EXTENSION_TYPE_PLATFORM
  let osmM ← monikerOf EXTENSION_TYPE_OSM
  let opsM ← monikerOf EXTENSION_TYPE_OPS
  let opsDeps ← OPS_EXTENSION_DEPS.mapM monikerOf
  let depends_on_map : List (String × List String) :=
    [(EXTENSION_TYPE_SSC, [platformM]),
     (EXTENSION_TYPE_ACS, [platformM, osmM]),
     (EXTENSION_TYPE_OPS, opsDeps)]
  let api_version := env.extensions_api_version
  env.extension_map.foldlM (fun st ext => do
    let extension_moniker ← monikerOf ext.1
    let depends_on := lookupEntry depends_on_map ext.1
    let record := setEntry ext.2 "scope" (.str clusterIdExpr)
    let record :=
      if extension_moniker = opsM then
        setEntry record "name" (.str "[variables('aioExtName')]")
      else record
    return add_resource st (.str extension_moniker) api_version record
      (depends_on.map (fun l => DependsOnInput.list (l.map DependsOnItem.str)))
      [("apply_nested_name", .bool false)]) st

/-- Embedding of `BackupManager._analyze_instance`. -/
def analyze_instance (env : BackupEnv) (st : BackupState) :
    Except String BackupState := do
  let st := logPhase st .instanceMain
  let api_version := env.iotops_api_version
  let custom_location := env.custom_location
  let clProps ← asObjE (← getKeyE custom_location "properties")
  let clProps := setEntry clProps "hostResourceId" (.str clusterIdExpr)
  let custom_location := setEntry custom_location "properties" (.obj clProps)
  let custom_location := setEntry custom_location "name" (.str customLocationNameExpr)
  let platformM ← monikerOf EXTENSION_TYPE_PLATFORM
  let sscM ← monikerOf EXTENSION_TYPE_SSC
  let opsM ← monikerOf EXTENSION_TYPE_OPS
  let cl_monikers := [platformM, sscM, opsM]
  let cl_extension_ids ← cl_monikers.mapM (fun m => do
    if m = opsM then
      return extensionIdExpr "', variables('aioExtName')"
    else
      match lookupEntry st.rcontainer_map m with
      | some (.res ext_resource) => do
          let nm ← asStrE (← getKeyE ext_resource.resource_state "name")
          return extensionIdExpr (nm ++ "'")
      | some (.dep _) => Except.error "AttributeError: no resource_state"
      | none => Except.error "AttributeError: NoneType has no resource_state")
  let clProps2 ← asObjE (← getKeyE custom_location "properties")
  let clProps2 := setEntry clProps2 "clusterExtensionIds" (.arr (cl_extension_ids.map .str))
  let clProps2 := setEntry clProps2 "displayName" (.str "[parameters('customLocationName')]")
  let custom_location := setEntry custom_location "properties" (.obj clProps2)
  let st := add_resource st (.key .CL) CUSTOM_LOCATIONS_API_VERSION custom_location
    (some (.list (cl_monikers.map DependsOnItem.str))) [("apply_nested_name", .bool false)]
  let iProps ← asObjE (← getKeyE st.instance_record "properties")
  let sref ← asObjE (← getKeyE iProps "schemaRegistryRef")
  let sref := setEntry sref "resourceId" (.str schemaRegistryIdExpr)
  let iProps := setEntry iProps "schemaRegistryRef" (.obj sref)
  let instance_record := setEntry st.instance_record "properties" (.obj iProps)
  let st := { st with instance_record := instance_record }
  let st := add_resource st (.key .INSTANCE) api_version instance_record
    (some (.key .CL)) []
  let st := add_resource st (.key .ROLE_ASSIGNMENT) "2022-04-01" get_role_assignment
    (some (.str opsM)) [("apply_nested_name", .bool false)]
  return st

/-- Modelled from the spec: `get_fc_name` of `.resources.instances` (not
present in the available sources); a deterministic federated-credential
name derived from its arguments. -/
def get_fc_name (cluster_name : String) (oidc_issuer : String) (subject : String) :
    String :=
  cluster_name ++ "-" ++ oidc_issuer ++ "-" ++ subject

/-- Embedding of `BackupManager._analyze_instance_identity`: the one
side-effecting phase; each surviving credential creation is recorded in
`fc_created`. -/
def uamiOf (rec : JObj) : Except String JObj :=
  match lookupEntry rec "identity" with
  | none => Except.ok ([] : JObj)
  | some (.obj o) =>
      match lookupEntry o "userAssignedIdentities" with
      | none => Except.ok ([] : JObj)
      | some (.obj u) => Except.ok u
      | some _ => Except.error "AttributeError: no keys method"
  | some _ => Except.error "AttributeError: no get method"

def analyze_instance_identity (env : BackupEnv) (st : BackupState) :
    Except String BackupState := do
  let st := logPhase st .instanceIdentity
  match env.oidc_issuer with
  | none => return st
  | some oidc_issuer => do
    let identity ← uamiOf st.instance_record
    let uami_ids := entryKeys identity
    if uami_ids.isEmpty then return st
    else
      uami_ids.foldlM (fun st uid => do
        let resource_id ← okOr (parse_resource_id uid) "MalformedResourceId"
        let credentials := env.federated_credentials resource_id.resource_group resource_id.name
        let filtered_creds ← credentials.foldlM (fun acc cred => do
          let props ← asObjE (← getKeyE cred "properties")
          let issuer ← getKeyE props "issuer"
          let differs :=
            match issuer with
            | .str s => decide (s ≠ oidc_issuer)
            | _ => true
          return if differs then acc ++ [cred] else acc) ([] : List JObj)
        filtered_creds.foldlM (fun st cred => do
          let props ← asObjE (← getKeyE cred "properties")
          let subject ← asStrE (← getKeyE props "subject")
          if !containsSub ":aio-".data subject.data then
            return st
          else do
            let audiences ← getKeyE props "audiences"
            let fcName := get_fc_name oidc_issuer oidc_issuer subject
            let params : JObj :=
              [("properties", .obj
                [("subject", .str subject), ("audiences", audiences),
                 ("issuer", .str oidc_issuer)])]
            return { st with fc_created := st.fc_created ++ [(fcName, params)] }) st) st

/-- Loop body of the `listener_depends_on` accumulation of
`_analyze_instance_resources`: for the authn and authz categories take the
last active deployment name and turn it into a deployment `resourceId`
expression. -/
def listener_dep_step (acc : List String) (kv : StateResourceKey × List String) :
    Except String (List String) :=
  if kv.1 = StateResourceKey.AUTHN ∨ kv.1 = StateResourceKey.AUTHZ then
    match kv.2.getLast? with
    | some last =>
        Except.ok (acc ++ [get_resource_id_by_parts "Microsoft.Resources/deployments" [last]])
    | none => Except.error "IndexError: list index out of range"
  else Except.ok acc

/-- Embedding of `BackupManager._analyze_instance_resources`. -/
def analyze_instance_resources (env : BackupEnv) (st : BackupState) :
    Except String BackupState := do
  let st := logPhase st .instanceResources
  let api_version := env.iotops_api_version
  let default_broker ← okOr env.brokers.head? "IndexError: list index out of range"
  let st := add_resource st (.key .BROKER) api_version default_broker
    (some (.key .INSTANCE)) []
  let nested_params := updateObj (build_parameter "customLocationName" "string" none none)
    (build_parameter "instanceName" "string" none none)
  let btype ← asStrE (← getKeyE default_broker "type")
  let bid ← asStrE (← getKeyE default_broker "id")
  let broker_resource_id_expr ← get_resource_id_expr btype bid true
  let _broker_name ← getKeyE default_broker "name"
  let st := add_deployment st .AUTHN api_version env.broker_authentications
    (some (.str broker_resource_id_expr)) (some nested_params)
  let st := add_deployment st .AUTHZ api_version env.broker_authorizations
    (some (.str broker_resource_id_expr)) (some nested_params)
  let listener_depends_on ← st.active_deployment.foldlM listener_dep_step ([] : List String)
  let st := add_deployment st .LISTENER api_version env.broker_listeners
    (some (.list listener_depends_on)) (some nested_params)
  let instance_resource_id_expr :=
    get_resource_id_by_param "microsoft.iotoperations/instances" "instanceName"
  let st := add_deployment st .ENDPOINT api_version env.dataflow_endpoints
    (some (.str instance_resource_id_expr)) (some nested_params)
  let profile_iter := env.dataflow_profiles
  let st := add_deployment st .PROFILE api_version profile_iter
    (some (.str instance_resource_id_expr)) (some nested_params)
  if profile_iter.isEmpty then
    return st
  else do
    let dataflows ← profile_iter.foldlM (fun acc profile => do
      let pname ← asStrE (← getKeyE profile "name")
      return acc ++ env.dataflows_by_profile pname) ([] : List JObj)
    let profNames ← okOr (lookupEntry st.active_deployment StateResourceKey.PROFILE)
      "KeyError: StateResourceKey.PROFILE"
    let lastProf ← okOr profNames.getLast? "IndexError: list index out of range"
    return add_deployment st .DATAFLOW api_version dataflows
      (some (.str (get_resource_id_by_parts "Microsoft.Resources/deployments" [lastProf])))
      (some nested_params)

/-- Embedding of `BackupManager._analyze_assets`. -/
def analyze_assets (env : BackupEnv) (st : BackupState) :
    Except String BackupState := do
  let st := logPhase st .assets
  let nested_params := updateObj (build_parameter "customLocationName" "string" none none)
    (build_parameter "instanceName" "string" none none)
  let instance_resource_id_expr :=
    get_resource_id_by_param "microsoft.iotoperations/instances" "instanceName"
  let asset_endpoints := env.asset_endpoints
  let st := add_deployment st .ASSET_ENDPOINT_PROFILE REGISTRY_API_VERSION asset_endpoints
    (some (.str instance_resource_id_expr)) (some nested_params)
  let assets := env.assets
  if !assets.isEmpty && !asset_endpoints.isEmpty then do
    let names ← okOr (lookupEntry st.active_deployment StateResourceKey.ASSET_ENDPOINT_PROFILE)
      "KeyError: StateResourceKey.ASSET_ENDPOINT_PROFILE"
    let last ← okOr names.getLast? "IndexError: list index out of range"
    return add_deployment st .ASSET REGISTRY_API_VERSION assets
      (some (.str (get_resource_id_by_parts "Microsoft.Resources/deployments" [last])))
      (some nested_params)
  else
    return st

/-- Lowered extended-location id of the instance record, as read by
`_analyze_secretsync` (`self.instance_record["extendedLocation"]["name"].lower()`). -/
def extLocIdOf (record : JObj) : Except String String := do
  let el ← asObjE (← getKeyE record "extendedLocation")
  let elName ← asStrE (← getKeyE el "name")
  return strLower elName

/-- Ids of the resolved managed identities
(`[mid["id"] for mid in self.get_identities_by_client_id(client_ids)]`). -/
def recordIds : List JObj → Except String (List String)
  | [] => .ok []
  | mid :: rest => do
      let i ← asStrE (← getKeyE mid "id")
      let others ← recordIds rest
      return i :: others

/-- Filtering of secret-sync records to those whose extended location matches
the instance, as performed by the two list comprehensions of
`_analyze_secretsync`. -/
def extLocFilter (ext_loc_id : String) (records : List JObj) :
    Except String (List JObj) :=
  records.foldlM (fun acc r => do
    let el ← asObjE (← getKeyE r "extendedLocation")
    let nm ← asStrE (← getKeyE el "name")
    return if strLower nm = ext_loc_id then acc ++ [r] else acc) []

/-- Collection of the `clientId` values of the filtered secret provider
classes; a non-string value is rejected where the Python `join` would
raise. -/
def spcClientIds (spcs : List JObj) : Except String (List String) :=
  spcs.foldlM (fun acc spc => do
    let props ← asObjE (← getKeyE spc "properties")
    match lookupEntry props "clientId" with
    | none => return acc
    | some (.str cid) => return acc ++ [cid]
    | some _ => Except.error "TypeError: clientId is not a string") []

/-- Embedding of `BackupManager._analyze_secretsync`. -/
def analyze_secretsync (env : BackupEnv) (st : BackupState) :
    Except String BackupState := do
  let st := logPhase st .secretSync
  let nested_params := updateObj (build_parameter "customLocationName" "string" none none)
    (build_parameter "instanceName" "string" none none)
  let ssc_api_version := env.ssc_api_version
  let instance_resource_id_expr :=
    get_resource_id_by_param "microsoft.iotoperations/instances" "instanceName"
  let ext_loc_id ← extLocIdOf st.instance_record
  let ssc_spcs ← extLocFilter ext_loc_id env.ssc_spcs
  let client_ids ← spcClientIds ssc_spcs
  let new_ids ← recordIds (env.identities_by_client_id client_ids)
  let st := { st with instance_identities := st.instance_identities ++ new_ids }
  let st := add_deployment st .SSC_SPC ssc_api_version ssc_spcs
    (some (.str instance_resource_id_expr)) (some nested_params)
  let ssc_secretsyncs ← extLocFilter ext_loc_id env.ssc_secretsyncs
  if !ssc_secretsyncs.isEmpty && !ssc_spcs.isEmpty then do
    let names ← okOr (lookupEntry st.active_deployment StateResourceKey.SSC_SPC)
      "KeyError: StateResourceKey.SSC_SPC"
    let last ← okOr names.getLast? "IndexError: list index out of range"
    return add_deployment st .SSC_SECRETSYNC ssc_api_version ssc_secretsyncs
      (some (.str (get_resource_id_by_parts "Microsoft.Resources/deployments" [last])))
      (some nested_params)
  else
    return st

/-- Embedding of `BackupManager.analyze_cluster`: the fixed phase sequence of
the source, in source order. -/
def analyze_cluster (env : BackupEnv) : Except String BackupState := do
  let st := init_state env
  let st ← build_parameters st
  let st := build_variables st
  let st ← build_metadata st
  let st ← analyze_extensions env st
  let st ← analyze_instance env st
  let st ← analyze_instance_identity env st
  let st ← analyze_instance_resources env st
  let st ← analyze_secretsync env st
  let st ← analyze_assets env st
  return st

/-- Embedding of the `TemplateGen` class. -/
structure TemplateGen where
  rcontainer_map : List (String × Container)
  parameter_map : JObj
  variable_map : JObj
  metadata_map : JObj

/-- Embedding of `TemplateGen.get_base_format`. -/
def get_base_format : JObj :=
  [("$schema", .str "https://schema.management.azure.com/schemas/2019-04-01/deploymentTemplate.json#"),
   ("languageVersion", .str "2.0"),
   ("contentVersion", .str "1.0.0.0"),
   ("metadata", .obj []),
   ("apiProfile", .str ""),
   ("definitions", .obj []),
   ("parameters", .obj []),
   ("variables", .obj []),
   ("functions", .arr []),
   ("resources", .obj []),
   ("outputs", .obj [])]

/-- Embedding of `TemplateGen._prune_template_keys`: keep the keys whose
value is truthy. -/
def prune_template_keys (template : JObj) : JObj :=
  template.filter (fun kv => jTruthy kv.2)

/-- Update of the object stored under one key of the template skeleton
(`template[k].update(m)`). -/
def updateObjKey (t : JObj) (k : String) (m : JObj) : Except String JObj :=
  match lookupEntry t k with
  | some (.obj cur) => .ok (setEntry t k (.obj (updateObj cur m)))
  | some _ => .error "TypeError: value is not an object"
  | none => .error ("KeyError: " ++ k)

/-- Assembly steps of `TemplateGen._build_contents` before pruning: the base
skeleton with rendered resources and the merged parameter, variable and
metadata maps. -/
def TemplateGen.assemble (tg : TemplateGen) : Except String JObj := do
  let template := get_base_format
  let resources ← tg.rcontainer_map.foldlM (fun acc kv => do
    let r ← kv.2.get
    return setEntry acc kv.1 (.obj r.1)) ([] : JObj)
  let template := setEntry template "resources" (.obj resources)
  let template ← updateObjKey template "parameters" tg.parameter_map
  let template ← updateObjKey template "variables" tg.variable_map
  let template ← updateObjKey template "metadata" tg.metadata_map
  return template

/-- Embedding of `TemplateGen._build_contents` up to JSON serialization: the
assembled template with empty top-level keys dropped. -/
def TemplateGen.build_template (tg : TemplateGen) : Except String JObj := do
  let t ← tg.assemble
  return prune_template_keys t

/-- The resources loop of `TemplateGen._build_contents` with the source's
in-place mutation of each rendered container made explicit: the accumulated
resources object together with the updated container map. -/
def renderResourcesAcc (acc : JObj) :
    List (String × Container) → Except String (JObj × List (String × Container))
  | [] => .ok (acc, [])
  | (k, c) :: rest => do
      let (r, c2) ← c.get
      let (out, rest2) ← renderResourcesAcc (setEntry acc k (.obj r)) rest
      return (out, (k, c2) :: rest2)

/-- `TemplateGen._build_contents` as a render of the generator: the same
assembly as `build_template`, additionally returning the generator whose
containers carry the mutations the source's `.get()` calls perform in
place. -/
def TemplateGen.get (tg : TemplateGen) : Except String (JObj × TemplateGen) := do
  let template := get_base_format
  let (resources, rmap2) ← renderResourcesAcc [] tg.rcontainer_map
  let template := setEntry template "resources" (.obj resources)
  let template ← updateObjKey template "parameters" tg.parameter_map
  let template ← updateObjKey template "variables" tg.variable_map
  let template ← updateObjKey template "metadata" tg.metadata_map
  return (prune_template_keys template, { tg with rcontainer_map := rmap2 })

/-- The nested-name rewrite is disabled for a container: directly for a
resource container, and for every inner resource of a deployment
container. -/
def containerRewriteDisabled : Container → Prop
  | .res rc => configApplyNestedName rc.config = false
  | .dep dc => ∀ kv ∈ dc.rcontainer_map, configApplyNestedName kv.2.config = false

/-! Association-list lemmas for the embedded dict operations. -/

theorem lookupEntry_setEntry_self {κ α : Type} [DecidableEq κ]
    (o : List (κ × α)) (k : κ) (v : α) :
    lookupEntry (setEntry o k v) k = some v := by
  induction o with
  | nil => simp [setEntry, lookupEntry]
  | cons hd tl ih =>
      by_cases h : hd.1 = k
      · simp [setEntry, h, lookupEntry]
      · simp [setEntry, h, lookupEntry, ih]

theorem lookupEntry_setEntry_ne {κ α : Type} [DecidableEq κ]
    (o : List (κ × α)) (k k' : κ) (v : α) (h : k' ≠ k) :
    lookupEntry (setEntry o k v) k' = lookupEntry o k' := by
  induction o with
  | nil => simp [setEntry, lookupEntry, Ne.symm h]
  | cons hd tl ih =>
      by_cases hk : hd.1 = k
      · subst hk
        simp [setEntry, lookupEntry, Ne.symm h]
      · simp only [setEntry, if_neg hk]
        by_cases hk' : hd.1 = k'
        · simp [lookupEntry, hk']
        · simp [lookupEntry, hk', ih]

theorem setEntry_of_lookup_self {κ α : Type} [DecidableEq κ]
    (o : List (κ × α)) (k : κ) (v : α) (h : lookupEntry o k = some v) :
    setEntry o k v = o := by
  induction o with
  | nil => simp [lookupEntry] at h
  | cons hd tl ih =>
      by_cases hk : hd.1 = k
      · obtain ⟨k1, v1⟩ := hd
        simp only [lookupEntry, if_pos hk] at h
        cases h
        simp [setEntry, if_pos hk]
      · simp only [lookupEntry, if_neg hk] at h
        simp [setEntry, if_neg hk, ih h]

theorem setEntry_setEntry_same {κ α : Type} [DecidableEq κ]
    (o : List (κ × α)) (k : κ) (v w : α) :
    setEntry (setEntry o k v) k w = setEntry o k w := by
  induction o with
  | nil => simp [setEntry]
  | cons hd tl ih =>
      by_cases hk : hd.1 = k
      · simp [setEntry, hk]
      · simp [setEntry, hk, ih]

theorem lookupEntry_append {κ α : Type} [DecidableEq κ]
    (a b : List (κ × α)) (k : κ) :
    lookupEntry (a ++ b) k = (lookupEntry a k).or (lookupEntry b k) := by
  induction a with
  | nil => simp [lookupEntry]
  | cons hd tl ih =>
      by_cases hk : hd.1 = k
      · simp [lookupEntry, hk]
      · simp [lookupEntry, hk, ih]

theorem setEntry_append_of_lookup_none {κ α : Type} [DecidableEq κ]
    (o : List (κ × α)) (k : κ) (v : α) (h : lookupEntry o k = none) :
    setEntry o k v = o ++ [(k, v)] := by
  induction o with
  | nil => simp [setEntry]
  | cons hd tl ih =>
      by_cases hk : hd.1 = k
      · simp [lookupEntry, hk] at h
      · simp only [lookupEntry, if_neg hk] at h
        simp [setEntry, if_neg hk, ih h]

theorem lookupEntry_eq_none_of_not_mem_keys {κ α : Type} [DecidableEq κ]
    (o : List (κ × α)) (k : κ) (h : k ∉ entryKeys o) : lookupEntry o k = none := by
  induction o with
  | nil => simp [lookupEntry]
  | cons hd tl ih =>
      simp only [entryKeys, List.map_cons, List.mem_cons, not_or] at h
      simp only [lookupEntry, if_neg (fun he : hd.1 = k => h.1 he.symm)]
      exact ih h.2

theorem lookupEntry_pruneKeys_mem (fk : List String) (o : JObj) (k : String)
    (h : k ∈ fk) : lookupEntry (pruneKeys fk o) k = none := by
  induction o with
  | nil => simp [pruneKeys, lookupEntry]
  | cons hd tl ih =>
      simp only [pruneKeys, List.filter_cons] at ih ⊢
      by_cases hc : hd.1 ∈ fk
      · simpa [hc] using ih
      · have hne : hd.1 ≠ k := fun he => hc (he ▸ h)
        simpa [hc, lookupEntry, hne] using ih

theorem lookupEntry_pruneKeys_not_mem (fk : List String) (o : JObj) (k : String)
    (h : k ∉ fk) : lookupEntry (pruneKeys fk o) k = lookupEntry o k := by
  induction o with
  | nil => simp [pruneKeys, lookupEntry]
  | cons hd tl ih =>
      simp only [pruneKeys, List.filter_cons] at ih ⊢
      by_cases hc : hd.1 ∈ fk
      · have hne : hd.1 ≠ k := fun he => h (he ▸ hc)
        simpa [hc, lookupEntry, hne] using ih
      · by_cases hk : hd.1 = k
        · subst hk
          simp [hc, lookupEntry]
        · simpa [hc, lookupEntry, hk] using ih

theorem lookupEntry_updateObj_of_none {κ α : Type} [DecidableEq κ]
    (b : List (κ × α)) :
    ∀ (a : List (κ × α)) (k : κ), lookupEntry b k = none →
      lookupEntry (updateObj a b) k = lookupEntry a k := by
  induction b with
  | nil => intro a k _; simp [updateObj]
  | cons hd tl ih =>
      intro a k h
      by_cases hk : hd.1 = k
      · simp [lookupEntry, hk] at h
      · simp only [lookupEntry, if_neg hk] at h
        simp only [updateObj, List.foldl_cons] at ih ⊢
        rw [ih _ k h, lookupEntry_setEntry_ne _ _ _ _ (fun he => hk he.symm)]

theorem lookupEntry_updateObj_of_some {κ α : Type} [DecidableEq κ]
    (b : List (κ × α)) :
    ∀ (a : List (κ × α)) (k : κ) (v : α), KeysNodup b → lookupEntry b k = some v →
      lookupEntry (updateObj a b) k = some v := by
  induction b with
  | nil => intro a k v _ h; simp [lookupEntry] at h
  | cons hd tl ih =>
      intro a k v hnd h
      simp only [KeysNodup, entryKeys, List.map_cons, List.nodup_cons] at hnd
      by_cases hk : hd.1 = k
      · subst hk
        simp only [lookupEntry, if_pos rfl] at h
        cases h
        have htl : lookupEntry tl hd.1 = none :=
          lookupEntry_eq_none_of_not_mem_keys tl hd.1 hnd.1
        simp only [updateObj, List.foldl_cons]
        rw [show List.foldl (fun acc kv => setEntry acc kv.1 kv.2) (setEntry a hd.1 hd.2) tl
            = updateObj (setEntry a hd.1 hd.2) tl from rfl]
        rw [lookupEntry_updateObj_of_none tl _ hd.1 htl]
        exact lookupEntry_setEntry_self a hd.1 hd.2
      · simp only [lookupEntry, if_neg hk] at h
        simp only [updateObj, List.foldl_cons] at ih ⊢
        exact ih _ k v hnd.2 h

theorem lookupEntry_isSome_of_mem_keys {κ α : Type} [DecidableEq κ]
    (o : List (κ × α)) (k : κ) (h : k ∈ entryKeys o) :
    (lookupEntry o k).isSome = true := by
  induction o with
  | nil => simp [entryKeys] at h
  | cons hd tl ih =>
      simp only [entryKeys, List.map_cons, List.mem_cons] at h
      by_cases hk : hd.1 = k
      · simp [lookupEntry, hk]
      · simp only [lookupEntry, if_neg hk]
        exact ih (h.resolve_left (fun he => hk he.symm))

theorem map_fst_setEntry_of_lookup_some {κ α : Type} [DecidableEq κ]
    (o : List (κ × α)) (k : κ) (v w : α) (ho : lookupEntry o k = some w) :
    List.map Prod.fst (setEntry o k v) = List.map Prod.fst o := by
  induction o with
  | nil => simp [lookupEntry] at ho
  | cons hd tl ih =>
      by_cases hk : hd.1 = k
      · simp [setEntry, hk]
      · simp only [lookupEntry, if_neg hk] at ho
        simp [setEntry, hk, ih ho]

theorem keysNodup_setEntry {κ α : Type} [DecidableEq κ]
    (o : List (κ × α)) (k : κ) (v : α) (h : KeysNodup o) :
    KeysNodup (setEntry o k v) := by
  match ho : lookupEntry o k with
  | some w =>
      rw [KeysNodup, entryKeys, map_fst_setEntry_of_lookup_some o k v w ho]
      exact h
  | none =>
      rw [setEntry_append_of_lookup_none o k v ho]
      have hnm : k ∉ entryKeys o := by
        intro hm
        have := lookupEntry_isSome_of_mem_keys o k hm
        rw [ho] at this
        simp at this
      simp only [KeysNodup, entryKeys, List.map_append, List.map_cons, List.map_nil]
      rw [List.nodup_append]
      refine ⟨h, List.nodup_singleton k, ?_⟩
      intro a ha hb
      rw [List.mem_singleton] at hb
      exact hnm (hb ▸ ha)

theorem keysNodup_pruneKeys (fk : List String) (o : JObj) (h : KeysNodup o) :
    KeysNodup (pruneKeys fk o) :=
  ((List.filter_sublist o).map Prod.fst).nodup h

theorem keysNodup_updateObj {κ α : Type} [DecidableEq κ]
    (b : List (κ × α)) :
    ∀ (a : List (κ × α)), KeysNodup a → KeysNodup (updateObj a b) := by
  induction b with
  | nil => intro a h; simpa [updateObj] using h
  | cons hd tl ih =>
      intro a h
      simp only [updateObj, List.foldl_cons] at ih ⊢
      exact ih _ (keysNodup_setEntry a hd.1 hd.2 h)

/-! Injectivity of the generated symbolic and deployment names. -/

/-- Numeric value of a digit character, the inverse of `digitChar`. -/
def digitVal (c : Char) : Nat :=
  match c with
  | '0' => 0 | '1' => 1 | '2' => 2 | '3' => 3 | '4' => 4
  | '5' => 5 | '6' => 6 | '7' => 7 | '8' => 8 | '9' => 9 | _ => 0

/-- Base-ten decoding of a digit string, the inverse of the digit
expansion. -/
def decodeChars (cs : List Char) : Nat :=
  cs.foldl (fun acc c => acc * 10 + digitVal c) 0

theorem digitVal_digitChar : ∀ d, d < 10 → digitVal (digitChar d) = d := by decide

theorem decodeChars_append_singleton (xs : List Char) (c : Char) :
    decodeChars (xs ++ [c]) = decodeChars xs * 10 + digitVal c := by
  simp [decodeChars, List.foldl_append]

theorem decodeChars_natCharsFuel :
    ∀ (fuel n : Nat), n < fuel → decodeChars (natCharsFuel fuel n) = n := by
  intro fuel
  induction fuel with
  | zero => intro n h; omega
  | succ fuel ih =>
      intro n h
      by_cases h10 : n < 10
      · simp [natCharsFuel, h10, decodeChars, digitVal_digitChar n h10]
      · have hdiv : n / 10 < n := Nat.div_lt_self (by omega) (by omega)
        have hfuel : n / 10 < fuel := by omega
        simp only [natCharsFuel, if_neg h10]
        rw [decodeChars_append_singleton, ih _ hfuel,
          digitVal_digitChar _ (Nat.mod_lt n (by omega))]
        omega

theorem natStr_inj {a b : Nat} (h : natStr a = natStr b) : a = b := by
  have hd : natCharsFuel (a + 1) a = natCharsFuel (b + 1) b := by
    injection h
  have := congrArg decodeChars hd
  rwa [decodeChars_natCharsFuel _ _ (Nat.lt_succ_self a),
    decodeChars_natCharsFuel _ _ (Nat.lt_succ_self b)] at this

theorem string_eq_of_data_eq {s t : String} (h : s.data = t.data) : s = t := by
  cases s
  cases t
  exact congrArg String.mk h

theorem string_append_assoc (a b c : String) : a ++ b ++ c = a ++ (b ++ c) := by
  apply string_eq_of_data_eq
  simp [String.data_append, List.append_assoc]

theorem string_append_left_cancel {p x y : String} (h : p ++ x = p ++ y) : x = y := by
  have hd := congrArg String.data h
  simp only [String.data_append] at hd
  exact string_eq_of_data_eq (List.append_cancel_left hd)

theorem string_append_right_cancel {x y s : String} (h : x ++ s = y ++ s) : x = y := by
  have hd := congrArg String.data h
  simp only [String.data_append] at hd
  exact string_eq_of_data_eq (List.append_inj' hd rfl).1

theorem string_append_prefix_eq {p q x y : String}
    (h : p ++ x = q ++ y) (hl : p.data.length = q.data.length) : p = q := by
  have hd := congrArg String.data h
  simp only [String.data_append] at hd
  exact string_eq_of_data_eq (List.append_inj hd hl).1

theorem symbolicName_inj_n (key : StateResourceKey) {a b : Nat}
    (h : symbolicName key a = symbolicName key b) : a = b := by
  unfold symbolicName at h
  rw [string_append_assoc, string_append_assoc] at h
  exact natStr_inj (string_append_left_cancel (string_append_left_cancel h))

theorem deploymentNameStr_inj_n (key : StateResourceKey) {a b : Nat}
    (h : deploymentNameStr key a = deploymentNameStr key b) : a = b := by
  unfold deploymentNameStr at h
  exact symbolicName_inj_n key
    (string_append_left_cancel (string_append_right_cancel h))

theorem symbolicName_ne_cross {k1 k2 : StateResourceKey} (a b : Nat)
    (p q r1 r2 : String) (h1 : k1.value = p ++ r1) (h2 : k2.value = q ++ r2)
    (hl : p.data.length = q.data.length) (hpq : p ≠ q) :
    symbolicName k1 a ≠ symbolicName k2 b := by
  intro h
  unfold symbolicName at h
  rw [h1, h2, string_append_assoc p r1 "s_", string_append_assoc q r2 "s_",
    string_append_assoc p (r1 ++ "s_") (natStr a),
    string_append_assoc q (r2 ++ "s_") (natStr b)] at h
  exact hpq (string_append_prefix_eq h hl)

theorem deploymentNameStr_ne_cross {k1 k2 : StateResourceKey} (a b : Nat)
    (p q r1 r2 : String) (h1 : k1.value = p ++ r1) (h2 : k2.value = q ++ r2)
    (hl : p.data.length = q.data.length) (hpq : p ≠ q) :
    deploymentNameStr k1 a ≠ deploymentNameStr k2 b := by
  intro h
  unfold deploymentNameStr at h
  exact symbolicName_ne_cross a b p q r1 r2 h1 h2 hl hpq
    (string_append_left_cancel (string_append_right_cancel h))

/-! Destructuring of successful `Except` computations. -/

theorem except_ok_bind {α β : Type} (a : α) (f : α → Except String β) :
    (Except.ok a >>= f) = f a := rfl

theorem except_bind_ok {α β : Type} {x : Except String α} {f : α → Except String β}
    {b : β} (h : (x >>= f) = .ok b) : ∃ a, x = .ok a ∧ f a = .ok b := by
  cases x with
  | error e => simp [Bind.bind, Except.bind] at h
  | ok a => exact ⟨a, rfl, by simpa [Bind.bind, Except.bind] using h⟩

theorem okOr_ok {α : Type} {o : Option α} {msg : String} {a : α}
    (h : okOr o msg = .ok a) : o = some a := by
  cases o with
  | none => simp [okOr] at h
  | some x =>
      simp only [okOr, Except.ok.injEq] at h
      rw [h]

theorem getKeyE_ok {o : JObj} {k : String} {v : JValue} (h : getKeyE o k = .ok v) :
    lookupEntry o k = some v := okOr_ok h

theorem asObjE_ok {v : JValue} {o : JObj} (h : asObjE v = .ok o) : v = .obj o := by
  cases v <;> simp [asObjE] at h
  rw [h]

theorem asStrE_ok {v : JValue} {s : String} (h : asStrE v = .ok s) : v = .str s := by
  cases v <;> simp [asStrE] at h
  rw [h]

/-! Lemmas about the four normalization steps of `ResourceContainer.get`. -/

theorem applyNestedName_shape {s s' : JObj} (h : applyNestedName s = .ok s') :
    ∃ nm : String, s' = setEntry s "name" (.str nm) := by
  unfold applyNestedName at h
  obtain ⟨idv, hidv, h⟩ := except_bind_ok h
  obtain ⟨ids, hids, h⟩ := except_bind_ok h
  obtain ⟨test, htest, h⟩ := except_bind_ok h
  simp only [pure, Except.pure] at h
  by_cases hinst : strLower test.type = "instances"
  · rw [if_pos hinst] at h
    by_cases hsuf : extract_suffix (slashJoinedName test) = "/"
    · rw [if_pos hsuf] at h
      cases h
      exact ⟨instanceNameExpr,
        setEntry_setEntry_same s "name" (.str (slashJoinedName test)) _⟩
    · rw [if_neg hsuf] at h
      cases h
      exact ⟨instanceNestedNameExpr (extract_suffix (slashJoinedName test)),
        setEntry_setEntry_same s "name" (.str (slashJoinedName test)) _⟩
  · rw [if_neg hinst] at h
    cases h
    exact ⟨slashJoinedName test, rfl⟩

theorem applyNestedName_lookup_ne {s s' : JObj} (h : applyNestedName s = .ok s')
    (k : String) (hk : k ≠ "name") : lookupEntry s' k = lookupEntry s k := by
  obtain ⟨nm, rfl⟩ := applyNestedName_shape h
  exact lookupEntry_setEntry_ne s "name" k _ hk

theorem applyNestedName_keysNodup {s s' : JObj} (h : applyNestedName s = .ok s')
    (hnd : KeysNodup s) : KeysNodup s' := by
  obtain ⟨nm, rfl⟩ := applyNestedName_shape h
  exact keysNodup_setEntry s "name" _ hnd

theorem applyClRef_shape {s s' : JObj} (h : applyClRef s = .ok s') :
    (lookupEntry s "extendedLocation" = none ∧ s' = s) ∨
    ∃ el : JObj, lookupEntry s "extendedLocation" = some (.obj el) ∧
      s' = setEntry s "extendedLocation" (.obj (setEntry el "name" (.str customLocationIdExpr))) := by
  unfold applyClRef at h
  cases hel : lookupEntry s "extendedLocation" with
  | none => rw [hel] at h; cases h; exact Or.inl ⟨rfl, rfl⟩
  | some v =>
      rw [hel] at h
      cases v <;> simp at h
      exact Or.inr ⟨_, rfl, h.symm⟩

theorem applyClRef_lookup_ne {s s' : JObj} (h : applyClRef s = .ok s')
    (k : String) (hk : k ≠ "extendedLocation") : lookupEntry s' k = lookupEntry s k := by
  rcases applyClRef_shape h with ⟨_, rfl⟩ | ⟨el, _, rfl⟩
  · rfl
  · exact lookupEntry_setEntry_ne s "extendedLocation" k _ hk

theorem applyClRef_keysNodup {s s' : JObj} (h : applyClRef s = .ok s')
    (hnd : KeysNodup s) : KeysNodup s' := by
  rcases applyClRef_shape h with ⟨_, rfl⟩ | ⟨el, _, rfl⟩
  · exact hnd
  · exact keysNodup_setEntry s "extendedLocation" _ hnd

theorem pruneIdentity_shape {s s' : JObj} (h : pruneIdentity s = .ok s') :
    (lookupEntry s "identity" = none ∧ s' = s) ∨
    ∃ idn : JObj, lookupEntry s "identity" = some (.obj idn) ∧
      s' = setEntry s "identity" (.obj (pruneKeys ["principalId"] idn)) := by
  unfold pruneIdentity at h
  cases hid : lookupEntry s "identity" with
  | none => rw [hid] at h; cases h; exact Or.inl ⟨rfl, rfl⟩
  | some v =>
      rw [hid] at h
      cases v <;> simp at h
      exact Or.inr ⟨_, rfl, h.symm⟩

theorem pruneIdentity_lookup_ne {s s' : JObj} (h : pruneIdentity s = .ok s')
    (k : String) (hk : k ≠ "identity") : lookupEntry s' k = lookupEntry s k := by
  rcases pruneIdentity_shape h with ⟨_, rfl⟩ | ⟨idn, _, rfl⟩
  · rfl
  · exact lookupEntry_setEntry_ne s "identity" k _ hk

theorem pruneIdentity_keysNodup {s s' : JObj} (h : pruneIdentity s = .ok s')
    (hnd : KeysNodup s) : KeysNodup s' := by
  rcases pruneIdentity_shape h with ⟨_, rfl⟩ | ⟨idn, _, rfl⟩
  · exact hnd
  · exact keysNodup_setEntry s "identity" _ hnd

theorem pruneIdentity_lookup_identity {s s' : JObj} (h : pruneIdentity s = .ok s') :
    lookupEntry s' "identity" = none ∨
    ∃ io : JObj, lookupEntry s' "identity" = some (.obj io) ∧
      lookupEntry io "principalId" = none := by
  rcases pruneIdentity_shape h with ⟨hid, rfl⟩ | ⟨idn, _, rfl⟩
  · exact Or.inl hid
  · refine Or.inr ⟨pruneKeys ["principalId"] idn, ?_, ?_⟩
    · exact lookupEntry_setEntry_self s "identity" _
    · exact lookupEntry_pruneKeys_mem _ idn _ (by simp)

theorem pruneResource_shape {s s' : JObj} (h : pruneResource s = .ok s') :
    ∃ po : JObj,
      lookupEntry (pruneKeys ["id", "systemData"] s) "properties" = some (.obj po) ∧
      s' = setEntry (pruneKeys ["id", "systemData"] s) "properties"
        (.obj (pruneKeys ["provisioningState", "currentVersion", "statuses", "status"] po)) := by
  unfold pruneResource at h
  obtain ⟨props, hprops, h⟩ := except_bind_ok h
  obtain ⟨po, hpo, h⟩ := except_bind_ok h
  simp only [pure, Except.pure, Except.ok.injEq] at h
  exact ⟨po, (asObjE_ok hpo) ▸ getKeyE_ok hprops, h.symm⟩

theorem pruneResource_keysNodup {s s' : JObj} (h : pruneResource s = .ok s')
    (hnd : KeysNodup s) : KeysNodup s' := by
  obtain ⟨po, _, rfl⟩ := pruneResource_shape h
  exact keysNodup_setEntry _ "properties" _ (keysNodup_pruneKeys _ s hnd)

/-- Rendered block of `ResourceContainer.get` before the dependency step. -/
def renderedCore (rc : ResourceContainer) (s4 : JObj) : JObj :=
  updateObj [("apiVersion", JValue.str rc.api_version)] s4

/-- Rendered block of `ResourceContainer.get`: the core with the dependency
list attached when truthy. -/
def renderedFull (rc : ResourceContainer) (s4 : JObj) : JObj :=
  match rc.depends_on with
  | some l =>
      if l.isEmpty then renderedCore rc s4
      else setEntry (renderedCore rc s4) "dependsOn" (.arr (l.map .str))
  | none => renderedCore rc s4

theorem resourceContainer_get_shape {rc : ResourceContainer} {res : JObj}
    {rc2 : ResourceContainer} (h : rc.get = Except.ok (res, rc2)) :
    ∃ s1 s2 s3 s4 : JObj,
      applyNestedNameCond rc.config rc.resource_state = Except.ok s1 ∧
      applyClRef s1 = Except.ok s2 ∧
      pruneIdentity s2 = Except.ok s3 ∧
      pruneResource s3 = Except.ok s4 ∧
      rc2 = { rc with resource_state := s4 } ∧
      res = renderedFull rc s4 := by
  unfold ResourceContainer.get at h
  obtain ⟨s1, hs1, h⟩ := except_bind_ok h
  obtain ⟨s2, hs2, h⟩ := except_bind_ok h
  obtain ⟨s3, hs3, h⟩ := except_bind_ok h
  obtain ⟨s4, hs4, h⟩ := except_bind_ok h
  simp only [pure, Except.pure, Except.ok.injEq, Prod.mk.injEq] at h
  exact ⟨s1, s2, s3, s4, hs1, hs2, hs3, hs4, h.2.symm, by rw [← h.1]; rfl⟩

theorem renderedFull_lookup_ne {rc : ResourceContainer} {s4 : JObj} (k : String)
    (hk : k ≠ "dependsOn") :
    lookupEntry (renderedFull rc s4) k = lookupEntry (renderedCore rc s4) k := by
  unfold renderedFull
  cases rc.depends_on with
  | none => rfl
  | some l =>
      by_cases he : l.isEmpty
      · simp [he]
      · simp only [he, if_false, Bool.false_eq_true]
        exact lookupEntry_setEntry_ne _ "dependsOn" k _ hk

/-- Scrub completeness (claim C3): the keys dropped by the pruning steps are
absent from the rendered block. First a reusable core fact. -/
theorem rendered_scrubbed {rc : ResourceContainer} {res : JObj}
    {rc2 : ResourceContainer} (hnd : KeysNodup rc.resource_state)
    (h : rc.get = Except.ok (res, rc2)) :
    lookupEntry res "id" = none ∧
    lookupEntry res "systemData" = none ∧
    (∃ p : JObj, lookupEntry res "properties" = some (JValue.obj p) ∧
      lookupEntry p "provisioningState" = none ∧
      lookupEntry p "currentVersion" = none ∧
      lookupEntry p "statuses" = none ∧
      lookupEntry p "status" = none) ∧
    (∀ v : JValue, lookupEntry res "identity" = some v →
      ∃ io : JObj, v = JValue.obj io ∧ lookupEntry io "principalId" = none) := by
  obtain ⟨s1, s2, s3, s4, hs1, hs2, hs3, hs4, hrc2, hres⟩ := resourceContainer_get_shape h
  have hnd1 : KeysNodup s1 := by
    unfold applyNestedNameCond at hs1
    by_cases hc : configApplyNestedName rc.config
    · rw [if_pos hc] at hs1
      exact applyNestedName_keysNodup hs1 hnd
    · rw [if_neg hc] at hs1
      cases hs1
      exact hnd
  have hnd2 : KeysNodup s2 := applyClRef_keysNodup hs2 hnd1
  have hnd3 : KeysNodup s3 := pruneIdentity_keysNodup hs3 hnd2
  have hnd4 : KeysNodup s4 := pruneResource_keysNodup hs4 hnd3
  obtain ⟨po, hpo, hs4eq⟩ := pruneResource_shape hs4
  subst hres
  have hid4 : lookupEntry s4 "id" = none := by
    rw [hs4eq, lookupEntry_setEntry_ne _ _ _ _ (by decide)]
    exact lookupEntry_pruneKeys_mem _ s3 "id" (by decide)
  have hsys4 : lookupEntry s4 "systemData" = none := by
    rw [hs4eq, lookupEntry_setEntry_ne _ _ _ _ (by decide)]
    exact lookupEntry_pruneKeys_mem _ s3 "systemData" (by decide)
  have hprop4 : lookupEntry s4 "properties" = some (JValue.obj
      (pruneKeys ["provisioningState", "currentVersion", "statuses", "status"] po)) := by
    rw [hs4eq]
    exact lookupEntry_setEntry_self _ "properties" _
  have hident4 : lookupEntry s4 "identity" = lookupEntry s3 "identity" := by
    rw [hs4eq, lookupEntry_setEntry_ne _ _ _ _ (by decide)]
    exact lookupEntry_pruneKeys_not_mem _ s3 "identity" (by decide)
  refine ⟨?_, ?_, ?_, ?_⟩
  · rw [renderedFull_lookup_ne "id" (by decide)]
    unfold renderedCore
    rw [lookupEntry_updateObj_of_none _ _ "id" hid4]
    rfl
  · rw [renderedFull_lookup_ne "systemData" (by decide)]
    unfold renderedCore
    rw [lookupEntry_updateObj_of_none _ _ "systemData" hsys4]
    rfl
  · refine ⟨pruneKeys ["provisioningState", "currentVersion", "statuses", "status"] po,
      ?_, ?_, ?_, ?_, ?_⟩
    · rw [renderedFull_lookup_ne "properties" (by decide)]
      unfold renderedCore
      exact lookupEntry_updateObj_of_some _ _ "properties" _ hnd4 hprop4
    · exact lookupEntry_pruneKeys_mem _ po _ (by decide)
    · exact lookupEntry_pruneKeys_mem _ po _ (by decide)
    · exact lookupEntry_pruneKeys_mem _ po _ (by decide)
    · exact lookupEntry_pruneKeys_mem _ po _ (by decide)
  · intro v hv
    rw [renderedFull_lookup_ne "identity" (by decide)] at hv
    unfold renderedCore at hv
    rcases pruneIdentity_lookup_identity hs3 with h3 | ⟨io, h3, hpid⟩
    · rw [lookupEntry_updateObj_of_none _ _ "identity" (hident4.trans h3)] at hv
      simp [lookupEntry] at hv
    · rw [lookupEntry_updateObj_of_some _ _ "identity" _ hnd4 (hident4.trans h3)] at hv
      cases hv
      exact ⟨io, rfl, hpid⟩

/-- Scrub completeness (claim C3): for every captured record with the keys of
a Python dict, a successful render never contains `id` or `systemData` at
the top level, nor the volatile keys under `properties`, nor `principalId`
under `identity`. -/
theorem scrub_completeness (rc : ResourceContainer) (res : JObj)
    (rc2 : ResourceContainer) (hnd : KeysNodup rc.resource_state)
    (h : rc.get = Except.ok (res, rc2)) :
    lookupEntry res "id" = none ∧
    lookupEntry res "systemData" = none ∧
    (∃ p : JObj, lookupEntry res "properties" = some (JValue.obj p) ∧
      lookupEntry p "provisioningState" = none ∧
      lookupEntry p "currentVersion" = none ∧
      lookupEntry p "statuses" = none ∧
      lookupEntry p "status" = none) ∧
    (∀ v : JValue, lookupEntry res "identity" = some v →
      ∃ io : JObj, v = JValue.obj io ∧ lookupEntry io "principalId" = none) :=
  rendered_scrubbed hnd h

/-- Record used to instantiate the scrub-completeness theorem. -/
def c3_rc : ResourceContainer :=
  { api_version := "2024-07-01"
    resource_state :=
      [("id", .str "/subscriptions/sub1/resourceGroups/rg1/providers/Microsoft.IoTOperations/instances/inst1"),
       ("name", .str "inst1"),
       ("type", .str "Microsoft.IoTOperations/instances"),
       ("systemData", .obj [("createdBy", .str "x")]),
       ("properties", .obj [("provisioningState", .str "Succeeded"), ("description", .str "d")]),
       ("identity", .obj [("principalId", .str "pid"), ("type", .str "SystemAssigned")])]
    depends_on := some ["[resourceId('Microsoft.ExtendedLocation/customLocations', parameters('customLocationName'))]"]
    config := [] }

/-- Output of rendering the scrub-completeness instance. -/
def c3_out : JObj × ResourceContainer :=
  match c3_rc.get with
  | .ok p => p
  | .error _ => ([], c3_rc)

/-- Witness for claim C3: the scrub-completeness theorem instantiated at a
concrete captured record. -/
theorem scrub_completeness_witness :
    c3_rc.get = Except.ok (c3_out.1, c3_out.2) ∧
    (lookupEntry c3_out.1 "id" = none ∧
     lookupEntry c3_out.1 "systemData" = none ∧
     (∃ p : JObj, lookupEntry c3_out.1 "properties" = some (JValue.obj p) ∧
       lookupEntry p "provisioningState" = none ∧
       lookupEntry p "currentVersion" = none ∧
       lookupEntry p "statuses" = none ∧
       lookupEntry p "status" = none) ∧
     (∀ v : JValue, lookupEntry c3_out.1 "identity" = some v →
       ∃ io : JObj, v = JValue.obj io ∧ lookupEntry io "principalId" = none)) :=
  ⟨rfl, scrub_completeness c3_rc c3_out.1 c3_out.2 (by decide) rfl⟩

/-! Machinery for the round-trip naming claim (C2). -/

theorem applyNestedName_spec {s s' : JObj} (h : applyNestedName s = .ok s') :
    ∃ (rid : String) (pid : ParsedResourceId),
      lookupEntry s "id" = some (.str rid) ∧
      parse_resource_id rid = some pid ∧
      ((strLower pid.type ≠ "instances" →
          s' = setEntry s "name" (.str (slashJoinedName pid))) ∧
       (strLower pid.type = "instances" → extract_suffix (slashJoinedName pid) = "/" →
          s' = setEntry s "name" (.str instanceNameExpr)) ∧
       (strLower pid.type = "instances" → extract_suffix (slashJoinedName pid) ≠ "/" →
          s' = setEntry s "name"
            (.str (instanceNestedNameExpr (extract_suffix (slashJoinedName pid)))))) := by
  unfold applyNestedName at h
  obtain ⟨idv, hidv, h⟩ := except_bind_ok h
  obtain ⟨ids, hids, h⟩ := except_bind_ok h
  obtain ⟨test, htest, h⟩ := except_bind_ok h
  simp only [pure, Except.pure] at h
  refine ⟨ids, test, (asStrE_ok hids) ▸ getKeyE_ok hidv, okOr_ok htest, ?_, ?_, ?_⟩
  · intro hne
    rw [if_neg hne] at h
    cases h
    rfl
  · intro hinst hsuf
    rw [if_pos hinst, if_pos hsuf] at h
    cases h
    exact setEntry_setEntry_same s "name" _ _
  · intro hinst hsuf
    rw [if_pos hinst, if_neg hsuf] at h
    cases h
    exact setEntry_setEntry_same s "name" _ _

theorem pruneResource_lookup_ne {s s' : JObj} (h : pruneResource s = .ok s')
    (k : String) (hk1 : k ≠ "id") (hk2 : k ≠ "systemData") (hk3 : k ≠ "properties") :
    lookupEntry s' k = lookupEntry s k := by
  obtain ⟨po, hpo, rfl⟩ := pruneResource_shape h
  rw [lookupEntry_setEntry_ne _ _ _ _ hk3]
  exact lookupEntry_pruneKeys_not_mem _ s k (by simp [hk1, hk2])

theorem renderedCore_lookup {rc : ResourceContainer} {s4 : JObj}
    (hnd4 : KeysNodup s4) (k : String) (hk : k ≠ "apiVersion") :
    lookupEntry (renderedCore rc s4) k = lookupEntry s4 k := by
  unfold renderedCore
  cases h4 : lookupEntry s4 k with
  | some v => exact lookupEntry_updateObj_of_some _ _ k v hnd4 h4
  | none =>
      rw [lookupEntry_updateObj_of_none _ _ k h4]
      have hne : "apiVersion" ≠ k := fun he => hk he.symm
      simp [lookupEntry, hne]

theorem get_nodup_chain {rc : ResourceContainer} {s1 s2 s3 s4 : JObj}
    (hnd : KeysNodup rc.resource_state)
    (hs1 : applyNestedNameCond rc.config rc.resource_state = Except.ok s1)
    (hs2 : applyClRef s1 = Except.ok s2)
    (hs3 : pruneIdentity s2 = Except.ok s3)
    (hs4 : pruneResource s3 = Except.ok s4) :
    KeysNodup s1 ∧ KeysNodup s2 ∧ KeysNodup s3 ∧ KeysNodup s4 := by
  have hnd1 : KeysNodup s1 := by
    unfold applyNestedNameCond at hs1
    by_cases hc : configApplyNestedName rc.config
    · rw [if_pos hc] at hs1
      exact applyNestedName_keysNodup hs1 hnd
    · rw [if_neg hc] at hs1
      cases hs1
      exact hnd
  have hnd2 : KeysNodup s2 := applyClRef_keysNodup hs2 hnd1
  have hnd3 : KeysNodup s3 := pruneIdentity_keysNodup hs3 hnd2
  exact ⟨hnd1, hnd2, hnd3, pruneResource_keysNodup hs4 hnd3⟩

/-- Round-trip naming (claim C2, amended): when the nested-name rewrite is
enabled, a successfully rendered record of parsed top-level type `instances`
gets the instance-name parameter expression as its name when the slash-joined
path has no child suffix and the concat expression with the suffix otherwise;
for every other parsed top-level type the name becomes the literal
slash-joined path; when the rewrite is disabled by config the name is left
exactly as captured. -/
theorem round_trip_naming_amended (rc : ResourceContainer) (res : JObj)
    (rc2 : ResourceContainer) (hnd : KeysNodup rc.resource_state)
    (h : rc.get = Except.ok (res, rc2)) :
    (configApplyNestedName rc.config = false →
      lookupEntry res "name" = lookupEntry rc.resource_state "name") ∧
    (configApplyNestedName rc.config = true →
      ∃ (rid : String) (pid : ParsedResourceId),
        lookupEntry rc.resource_state "id" = some (.str rid) ∧
        parse_resource_id rid = some pid ∧
        ((strLower pid.type ≠ "instances" →
           lookupEntry res "name" = some (.str (slashJoinedName pid))) ∧
         (strLower pid.type = "instances" → extract_suffix (slashJoinedName pid) = "/" →
           lookupEntry res "name" = some (.str instanceNameExpr)) ∧
         (strLower pid.type = "instances" → extract_suffix (slashJoinedName pid) ≠ "/" →
           lookupEntry res "name" =
             some (.str (instanceNestedNameExpr (extract_suffix (slashJoinedName pid))))))) := by
  obtain ⟨s1, s2, s3, s4, hs1, hs2, hs3, hs4, hrc2, hres⟩ := resourceContainer_get_shape h
  obtain ⟨hnd1, hnd2, hnd3, hnd4⟩ := get_nodup_chain hnd hs1 hs2 hs3 hs4
  have hname : lookupEntry res "name" = lookupEntry s1 "name" := by
    subst hres
    rw [renderedFull_lookup_ne "name" (by decide), renderedCore_lookup hnd4 "name" (by decide),
      pruneResource_lookup_ne hs4 "name" (by decide) (by decide) (by decide),
      pruneIdentity_lookup_ne hs3 "name" (by decide),
      applyClRef_lookup_ne hs2 "name" (by decide)]
  unfold applyNestedNameCond at hs1
  constructor
  · intro hc
    rw [hc] at hs1
    simp only [Bool.false_eq_true, if_false] at hs1
    cases hs1
    exact hname
  · intro hc
    rw [hc, if_pos rfl] at hs1
    obtain ⟨rid, pid, hid, hparse, hcase1, hcase2, hcase3⟩ := applyNestedName_spec hs1
    refine ⟨rid, pid, hid, hparse, ?_, ?_, ?_⟩
    · intro hne
      rw [hname, hcase1 hne]
      exact lookupEntry_setEntry_self _ "name" _
    · intro hinst hsuf
      rw [hname, hcase2 hinst hsuf]
      exact lookupEntry_setEntry_self _ "name" _
    · intro hinst hsuf
      rw [hname, hcase3 hinst hsuf]
      exact lookupEntry_setEntry_self _ "name" _

/-- Record refuting the literal reading of claim C2: the nested-name rewrite
is disabled and the captured name is not the slash-joined path of the id. -/
def c2_rc : ResourceContainer :=
  { api_version := "2024-07-01"
    resource_state :=
      [("id", .str "/subscriptions/sub1/resourceGroups/rg1/providers/Microsoft.Kubernetes/connectedClusters/cc1"),
       ("name", .str "[variables('aioExtName')]"),
       ("properties", .obj [])]
    depends_on := none
    config := [("apply_nested_name", .bool false)] }

/-- Output of rendering the C2 counterexample record. -/
def c2_out : JObj × ResourceContainer :=
  match c2_rc.get with
  | .ok p => p
  | .error _ => ([], c2_rc)

/-- Counterexample to claim C2 as stated: with `apply_nested_name = false`
the rendered name is the captured name, not the literal slash-joined path
(`cc1`) built from the id. -/
theorem round_trip_naming_counterexample :
    c2_rc.get = Except.ok (c2_out.1, c2_out.2) ∧
    lookupEntry c2_out.1 "name" = some (JValue.str "[variables('aioExtName')]") ∧
    lookupEntry c2_out.1 "name" ≠ some (JValue.str "cc1") := by
  refine ⟨rfl, rfl, ?_⟩
  rw [show lookupEntry c2_out.1 "name" = some (JValue.str "[variables('aioExtName')]") from rfl]
  simp

/-- Record exercising the nested-suffix branch of the amended C2 theorem. -/
def c2w_rc : ResourceContainer :=
  { api_version := "2024-07-01"
    resource_state :=
      [("id", .str "/subscriptions/sub1/resourceGroups/rg1/providers/Microsoft.IoTOperations/instances/inst1/brokers/b1"),
       ("name", .str "inst1/b1"),
       ("properties", .obj [])]
    depends_on := none
    config := [] }

/-- Output of rendering the amended C2 witness record. -/
def c2w_out : JObj × ResourceContainer :=
  match c2w_rc.get with
  | .ok p => p
  | .error _ => ([], c2w_rc)

theorem pruneKeys_pruneKeys (fk : List String) (o : JObj) :
    pruneKeys fk (pruneKeys fk o) = pruneKeys fk o := by
  induction o with
  | nil => rfl
  | cons hd tl ih =>
      simp only [pruneKeys, List.filter_cons] at ih ⊢
      by_cases hc : hd.1 ∈ fk
      · have hb : (!decide (hd.1 ∈ fk)) = false := by simp [hc]
        simp only [hb, Bool.false_eq_true, if_false]
        exact ih
      · have hb : (!decide (hd.1 ∈ fk)) = true := by simp [hc]
        simp only [hb, if_true, List.filter_cons, hb]
        exact congrArg ((hd.1, hd.2) :: ·) ih

theorem pruneKeys_setEntry_not_mem (fk : List String) (o : JObj) (k : String)
    (v : JValue) (hk : k ∉ fk) :
    pruneKeys fk (setEntry o k v) = setEntry (pruneKeys fk o) k v := by
  induction o with
  | nil => simp [setEntry, pruneKeys, hk]
  | cons hd tl ih =>
      by_cases heq : hd.1 = k
      · subst heq
        simp [setEntry, pruneKeys, List.filter_cons, hk]
      · by_cases hc : hd.1 ∈ fk
        · have hb : (!decide (hd.1 ∈ fk)) = false := by simp [hc]
          simp only [setEntry, if_neg heq, pruneKeys, List.filter_cons, hb,
            Bool.false_eq_true, if_false]
          exact ih
        · have hb : (!decide (hd.1 ∈ fk)) = true := by simp [hc]
          simp only [setEntry, if_neg heq, pruneKeys, List.filter_cons, hb, if_true]
          exact congrArg ((hd.1, hd.2) :: ·) ih

/-- Witness for the amended claim C2: the theorem instantiated at a concrete
nested child resource. -/
theorem round_trip_naming_amended_witness :
    c2w_rc.get = Except.ok (c2w_out.1, c2w_out.2) ∧
    ((configApplyNestedName c2w_rc.config = false →
      lookupEntry c2w_out.1 "name" = lookupEntry c2w_rc.resource_state "name") ∧
    (configApplyNestedName c2w_rc.config = true →
      ∃ (rid : String) (pid : ParsedResourceId),
        lookupEntry c2w_rc.resource_state "id" = some (.str rid) ∧
        parse_resource_id rid = some pid ∧
        ((strLower pid.type ≠ "instances" →
           lookupEntry c2w_out.1 "name" = some (.str (slashJoinedName pid))) ∧
         (strLower pid.type = "instances" → extract_suffix (slashJoinedName pid) = "/" →
           lookupEntry c2w_out.1 "name" = some (.str instanceNameExpr)) ∧
         (strLower pid.type = "instances" → extract_suffix (slashJoinedName pid) ≠ "/" →
           lookupEntry c2w_out.1 "name" =
             some (.str (instanceNestedNameExpr (extract_suffix (slashJoinedName pid)))))))) :=
  ⟨rfl, round_trip_naming_amended c2w_rc c2w_out.1 c2w_out.2 (by decide) rfl⟩

/-! Machinery for the render-idempotence claim (C5). -/

theorem resourceContainer_get_build {rc : ResourceContainer} {s4 : JObj}
    (h1 : applyNestedNameCond rc.config rc.resource_state = Except.ok s4)
    (h2 : applyClRef s4 = Except.ok s4) (h3 : pruneIdentity s4 = Except.ok s4)
    (h4 : pruneResource s4 = Except.ok s4) :
    rc.get = Except.ok (renderedFull rc s4, { rc with resource_state := s4 }) := by
  simp only [ResourceContainer.get, Bind.bind, Except.bind, h1, h2, h3, h4]
  rfl

/-- Re-render of a resource container whose nested-name rewrite is disabled:
the second render of the updated container reproduces the first result. -/
theorem resourceContainer_get_idempotent (rc : ResourceContainer) (res : JObj)
    (rc2 : ResourceContainer) (hcfg : configApplyNestedName rc.config = false)
    (h : rc.get = Except.ok (res, rc2)) :
    rc2.get = Except.ok (res, rc2) := by
  obtain ⟨s1, s2, s3, s4, hs1, hs2, hs3, hs4, hrc2, hres⟩ := resourceContainer_get_shape h
  obtain ⟨po, hpo, hs4eq⟩ := pruneResource_shape hs4
  have hextLoc : lookupEntry s4 "extendedLocation" = lookupEntry s2 "extendedLocation" := by
    rw [hs4eq, lookupEntry_setEntry_ne _ _ _ _ (by decide),
      lookupEntry_pruneKeys_not_mem _ s3 _ (by decide)]
    exact pruneIdentity_lookup_ne hs3 "extendedLocation" (by decide)
  have hfix2 : applyClRef s4 = Except.ok s4 := by
    rcases applyClRef_shape hs2 with ⟨hnone, rfl⟩ | ⟨el, hel, hs2eq⟩
    · unfold applyClRef
      rw [hextLoc, hnone]
    · have hlk2 : lookupEntry s2 "extendedLocation"
          = some (.obj (setEntry el "name" (.str customLocationIdExpr))) := by
        rw [hs2eq]
        exact lookupEntry_setEntry_self _ _ _
      unfold applyClRef
      rw [hextLoc, hlk2]
      show Except.ok (setEntry s4 "extendedLocation"
        (JValue.obj (setEntry (setEntry el "name" (JValue.str customLocationIdExpr))
          "name" (JValue.str customLocationIdExpr)))) = Except.ok s4
      rw [setEntry_setEntry_same, setEntry_of_lookup_self s4 _ _ (hextLoc.trans hlk2)]
  have hident : lookupEntry s4 "identity" = lookupEntry s3 "identity" := by
    rw [hs4eq, lookupEntry_setEntry_ne _ _ _ _ (by decide)]
    exact lookupEntry_pruneKeys_not_mem _ s3 _ (by decide)
  have hfix3 : pruneIdentity s4 = Except.ok s4 := by
    rcases pruneIdentity_shape hs3 with ⟨hnone, rfl⟩ | ⟨idn, hidn, hs3eq⟩
    · unfold pruneIdentity
      rw [hident, hnone]
    · have hlk3 : lookupEntry s3 "identity"
          = some (.obj (pruneKeys ["principalId"] idn)) := by
        rw [hs3eq]
        exact lookupEntry_setEntry_self _ _ _
      unfold pruneIdentity
      rw [hident, hlk3]
      show Except.ok (setEntry s4 "identity"
        (JValue.obj (pruneKeys ["principalId"] (pruneKeys ["principalId"] idn)))) = Except.ok s4
      rw [pruneKeys_pruneKeys, setEntry_of_lookup_self s4 _ _ (hident.trans hlk3)]
  have hfix4 : pruneResource s4 = Except.ok s4 := by
    have hp : pruneKeys ["id", "systemData"] s4 = s4 := by
      rw [hs4eq, pruneKeys_setEntry_not_mem _ _ _ _ (by decide), pruneKeys_pruneKeys]
    have hlk4 : lookupEntry s4 "properties" = some (.obj
        (pruneKeys ["provisioningState", "currentVersion", "statuses", "status"] po)) := by
      rw [hs4eq]
      exact lookupEntry_setEntry_self _ _ _
    have hget : getKeyE s4 "properties" = Except.ok (.obj
        (pruneKeys ["provisioningState", "currentVersion", "statuses", "status"] po)) := by
      unfold getKeyE
      rw [hlk4]
      rfl
    simp only [pruneResource, Bind.bind, Except.bind, hp, hget, asObjE]
    rw [pruneKeys_pruneKeys]
    simp only [pure, Except.pure, Except.ok.injEq]
    exact setEntry_of_lookup_self s4 _ _ hlk4
  have hfix1 : applyNestedNameCond rc.config s4 = Except.ok s4 := by
    unfold applyNestedNameCond
    rw [hcfg]
    simp [pure, Except.pure]
  subst hres
  subst hrc2
  exact resourceContainer_get_build hfix1 hfix2 hfix3 hfix4

/-- Re-render of the inner containers of a deployment, all with the rewrite
disabled: the second pass reproduces the rendered blocks and leaves the
containers fixed. -/
theorem renderInner_idempotent :
    ∀ (l : List (String × ResourceContainer)) (rs : List JObj)
      (l2 : List (String × ResourceContainer)),
      (∀ kv ∈ l, configApplyNestedName kv.2.config = false) →
      renderInner l = Except.ok (rs, l2) → renderInner l2 = Except.ok (rs, l2) := by
  intro l
  induction l with
  | nil =>
      intro rs l2 _ h
      simp only [renderInner, Except.ok.injEq, Prod.mk.injEq] at h
      obtain ⟨h1, h2⟩ := h
      subst h1
      subst h2
      rfl
  | cons hd rest ih =>
      intro rs l2 hdis h
      obtain ⟨k, rc⟩ := hd
      simp only [renderInner] at h
      obtain ⟨p, hp, h⟩ := except_bind_ok h
      obtain ⟨r, rc2⟩ := p
      dsimp only [] at h
      obtain ⟨q, hq, h⟩ := except_bind_ok h
      obtain ⟨rs2, rest2⟩ := q
      dsimp only [] at h
      simp only [pure, Except.pure, Except.ok.injEq, Prod.mk.injEq] at h
      obtain ⟨h1, h2⟩ := h
      subst h1
      subst h2
      have hrc2 := resourceContainer_get_idempotent rc r rc2
        (hdis (k, rc) (List.mem_cons_self _ _)) hp
      have hrest := ih rs2 rest2 (fun kv hkv => hdis kv (List.mem_cons_of_mem _ hkv)) hq
      simp [renderInner, Bind.bind, Except.bind, hrc2, hrest, pure, Except.pure]

/-- Re-render of a deployment container all of whose inner resources have
the rewrite disabled: the second render reproduces the nested deployment
block and the container. -/
theorem deploymentContainer_get_idempotent (dc : DeploymentContainer) (res : JObj)
    (dc2 : DeploymentContainer)
    (hcfg : ∀ kv ∈ dc.rcontainer_map, configApplyNestedName kv.2.config = false)
    (h : dc.get = Except.ok (res, dc2)) : dc2.get = Except.ok (res, dc2) := by
  unfold DeploymentContainer.get at h
  obtain ⟨p, hp, h⟩ := except_bind_ok h
  obtain ⟨inner, rmap2⟩ := p
  dsimp only [] at h
  simp only [pure, Except.pure, Except.ok.injEq, Prod.mk.injEq] at h
  obtain ⟨hres, hdc2⟩ := h
  subst hres
  subst hdc2
  have hidem := renderInner_idempotent dc.rcontainer_map inner rmap2 hcfg hp
  unfold DeploymentContainer.get
  rw [show ({ dc with rcontainer_map := rmap2 } : DeploymentContainer).rcontainer_map
      = rmap2 from rfl, hidem]
  rfl

/-- Re-render dispatch over the two container kinds. -/
theorem container_get_idempotent (c : Container) (r : JObj) (c2 : Container)
    (hdis : containerRewriteDisabled c) (h : c.get = Except.ok (r, c2)) :
    c2.get = Except.ok (r, c2) := by
  cases c with
  | res rc =>
      simp only [containerRewriteDisabled] at hdis
      simp only [Container.get] at h
      cases hrc : rc.get with
      | error e =>
          rw [hrc] at h
          simp [Except.map] at h
      | ok p =>
          obtain ⟨a, b⟩ := p
          rw [hrc] at h
          simp only [Except.map, Except.ok.injEq, Prod.mk.injEq] at h
          obtain ⟨h1, h2⟩ := h
          subst h1
          subst h2
          have hb := resourceContainer_get_idempotent rc a b hdis hrc
          simp [Container.get, hb, Except.map]
  | dep dc =>
      simp only [containerRewriteDisabled] at hdis
      simp only [Container.get] at h
      cases hdc : dc.get with
      | error e =>
          rw [hdc] at h
          simp [Except.map] at h
      | ok p =>
          obtain ⟨a, b⟩ := p
          rw [hdc] at h
          simp only [Except.map, Except.ok.injEq, Prod.mk.injEq] at h
          obtain ⟨h1, h2⟩ := h
          subst h1
          subst h2
          have hb := deploymentContainer_get_idempotent dc a b hdis hdc
          simp [Container.get, hb, Except.map]

/-- Re-render of the resources loop of the template generator. -/
theorem renderResourcesAcc_idempotent :
    ∀ (l : List (String × Container)) (acc out : JObj)
      (l2 : List (String × Container)),
      (∀ kv ∈ l, containerRewriteDisabled kv.2) →
      renderResourcesAcc acc l = Except.ok (out, l2) →
      renderResourcesAcc acc l2 = Except.ok (out, l2) := by
  intro l
  induction l with
  | nil =>
      intro acc out l2 _ h
      simp only [renderResourcesAcc, Except.ok.injEq, Prod.mk.injEq] at h
      obtain ⟨h1, h2⟩ := h
      subst h1
      subst h2
      rfl
  | cons hd rest ih =>
      intro acc out l2 hdis h
      obtain ⟨k, c⟩ := hd
      simp only [renderResourcesAcc] at h
      obtain ⟨p, hp, h⟩ := except_bind_ok h
      obtain ⟨r, c2⟩ := p
      dsimp only [] at h
      obtain ⟨q, hq, h⟩ := except_bind_ok h
      obtain ⟨out2, rest2⟩ := q
      dsimp only [] at h
      simp only [pure, Except.pure, Except.ok.injEq, Prod.mk.injEq] at h
      obtain ⟨h1, h2⟩ := h
      subst h1
      subst h2
      have hc2 := container_get_idempotent c r c2 (hdis (k, c) (List.mem_cons_self _ _)) hp
      have hrest := ih (setEntry acc k (.obj r)) out2 rest2
        (fun kv hkv => hdis kv (List.mem_cons_of_mem _ hkv)) hq
      simp [renderResourcesAcc, Bind.bind, Except.bind, hc2, hrest, pure, Except.pure]

/-- Re-render of the template generator when every held container has the
rewrite disabled. -/
theorem templateGen_get_idempotent (tg : TemplateGen) (t : JObj) (tg2 : TemplateGen)
    (hcfg : ∀ kv ∈ tg.rcontainer_map, containerRewriteDisabled kv.2)
    (h : tg.get = Except.ok (t, tg2)) : tg2.get = Except.ok (t, tg2) := by
  unfold TemplateGen.get at h
  obtain ⟨p, hp, h⟩ := except_bind_ok h
  obtain ⟨resources, rmap2⟩ := p
  dsimp only [] at h
  obtain ⟨t1, ht1, h⟩ := except_bind_ok h
  obtain ⟨t2, ht2, h⟩ := except_bind_ok h
  obtain ⟨t3, ht3, h⟩ := except_bind_ok h
  simp only [pure, Except.pure, Except.ok.injEq, Prod.mk.injEq] at h
  obtain ⟨ht, htg2⟩ := h
  subst ht
  subst htg2
  have hidem := renderResourcesAcc_idempotent tg.rcontainer_map [] resources rmap2 hcfg hp
  unfold TemplateGen.get
  rw [show ({ tg with rcontainer_map := rmap2 } : TemplateGen).rcontainer_map
      = rmap2 from rfl, hidem]
  simp only [except_ok_bind]
  rw [ht1]
  simp only [except_ok_bind]
  rw [ht2]
  simp only [except_ok_bind]
  rw [ht3]
  rfl

/-- Render idempotence (claim C5, amended): a second render is
byte-identical exactly when the nested-name rewrite is disabled for the
rendered resources: for a `ResourceContainer` with `apply_nested_name`
false, for a `DeploymentContainer` all of whose inner resources have it
false, and for a `TemplateGen` all of whose containers have it false, the
second render of the updated object succeeds and returns the identical
output; the counterexample below shows the default config refutes the
unconditional claim. -/
theorem render_idempotent_amended :
    (∀ (rc : ResourceContainer) (res : JObj) (rc2 : ResourceContainer),
      configApplyNestedName rc.config = false →
      rc.get = Except.ok (res, rc2) → rc2.get = Except.ok (res, rc2)) ∧
    (∀ (dc : DeploymentContainer) (res : JObj) (dc2 : DeploymentContainer),
      (∀ kv ∈ dc.rcontainer_map, configApplyNestedName kv.2.config = false) →
      dc.get = Except.ok (res, dc2) → dc2.get = Except.ok (res, dc2)) ∧
    (∀ (tg : TemplateGen) (t : JObj) (tg2 : TemplateGen),
      (∀ kv ∈ tg.rcontainer_map, containerRewriteDisabled kv.2) →
      tg.get = Except.ok (t, tg2) → tg2.get = Except.ok (t, tg2)) :=
  ⟨fun rc res rc2 hcfg h => resourceContainer_get_idempotent rc res rc2 hcfg h,
   fun dc res dc2 hcfg h => deploymentContainer_get_idempotent dc res dc2 hcfg h,
   fun tg t tg2 hcfg h => templateGen_get_idempotent tg t tg2 hcfg h⟩

/-- Record refuting claim C5 as stated: the default config keeps the
nested-name rewrite on, and the first render prunes the `id` the rewrite
reads, so the second render raises instead of reproducing the output. -/
def c5_rc : ResourceContainer :=
  { api_version := "2024-07-01"
    resource_state :=
      [("id", .str "/subscriptions/sub1/resourceGroups/rg1/providers/Microsoft.IoTOperations/instances/inst1"),
       ("name", .str "inst1"),
       ("properties", .obj [])]
    depends_on := none
    config := [] }

/-- Output of the first render of the C5 counterexample record. -/
def c5_out : JObj × ResourceContainer :=
  match c5_rc.get with
  | .ok p => p
  | .error _ => ([], c5_rc)

/-- Counterexample to claim C5 as stated: the first render succeeds but the
second raises a `KeyError` on the pruned `id`, so render is not idempotent
for a container with the default config. -/
theorem render_idempotent_counterexample :
    c5_rc.get = Except.ok (c5_out.1, c5_out.2) ∧
    c5_out.2.get = Except.error "KeyError: id" :=
  ⟨rfl, rfl⟩

/-- Record exercising the amended C5 theorem: nested-name rewrite disabled,
with an extended location and identity present. -/
def c5w_rc : ResourceContainer :=
  { api_version := "2024-07-01"
    resource_state :=
      [("name", .str "ext1"),
       ("extendedLocation", .obj [("name", .str "/x/y"), ("type", .str "CustomLocation")]),
       ("identity", .obj [("principalId", .str "p")]),
       ("properties", .obj [("provisioningState", .str "Succeeded")])]
    depends_on := some ["dep1"]
    config := [("apply_nested_name", .bool false)] }

/-- Output of the first render of the amended C5 witness record. -/
def c5w_out : JObj × ResourceContainer :=
  match c5w_rc.get with
  | .ok p => p
  | .error _ => ([], c5w_rc)

/-- Deployment container exercising the amended C5 theorem: one inner
resource with the rewrite disabled, a parameter block and dependencies. -/
def c5w_dc : DeploymentContainer :=
  { name := "[concat(parameters('resourceSlug'), '_x')]"
    api_version := "2022-09-01"
    parameters := some [("instanceName", .obj [("type", .str "string")])]
    depends_on := some ["depX"]
    rcontainer_map := [("inner", c5w_rc)] }

/-- Output of the first render of the C5 deployment-container witness. -/
def c5w_dc_out : JObj × DeploymentContainer :=
  match c5w_dc.get with
  | .ok p => p
  | .error _ => ([], c5w_dc)

/-- Template generator exercising the amended C5 theorem: a plain resource
and a nested deployment, both with the rewrite disabled. -/
def c5w_tg : TemplateGen :=
  { rcontainer_map := [("r1", .res c5w_rc), ("d1", .dep c5w_dc)]
    parameter_map := [("p", .obj [("type", .str "string")])]
    variable_map := []
    metadata_map := [("m", .str "1")] }

/-- Output of the first render of the C5 template-generator witness. -/
def c5w_tg_out : JObj × TemplateGen :=
  match c5w_tg.get with
  | .ok p => p
  | .error _ => ([], c5w_tg)

/-- Witness for the amended claim C5: with the rewrite disabled, the second
render of the updated resource container, deployment container and template
generator reproduces the first result exactly. -/
theorem render_idempotent_amended_witness :
    (c5w_rc.get = Except.ok (c5w_out.1, c5w_out.2) ∧
     c5w_out.2.get = Except.ok (c5w_out.1, c5w_out.2)) ∧
    (c5w_dc.get = Except.ok (c5w_dc_out.1, c5w_dc_out.2) ∧
     c5w_dc_out.2.get = Except.ok (c5w_dc_out.1, c5w_dc_out.2)) ∧
    (c5w_tg.get = Except.ok (c5w_tg_out.1, c5w_tg_out.2) ∧
     c5w_tg_out.2.get = Except.ok (c5w_tg_out.1, c5w_tg_out.2)) :=
  ⟨⟨rfl, render_idempotent_amended.1 c5w_rc c5w_out.1 c5w_out.2 (by decide) rfl⟩,
   ⟨rfl, render_idempotent_amended.2.1 c5w_dc c5w_dc_out.1 c5w_dc_out.2 (by decide) rfl⟩,
   ⟨rfl, render_idempotent_amended.2.2 c5w_tg c5w_tg_out.1 c5w_tg_out.2
      (by
        intro kv hkv
        rcases List.mem_cons.mp hkv with h | h
        · subst h
          show containerRewriteDisabled (.res c5w_rc)
          simp only [containerRewriteDisabled]
          decide
        · have h2 := List.mem_singleton.mp h
          subst h2
          show containerRewriteDisabled (.dep c5w_dc)
          simp only [containerRewriteDisabled]
          decide)
      rfl⟩⟩

/-- Dependency-list normalization (claim C10): a falsy argument (`None`, the
empty string, the empty iterable) yields `None`; a single non-empty string
or a `StateResourceKey` yields the singleton of its string form; and an
iterable keeps exactly its string and key elements, silently dropping
everything else. -/
theorem depends_on_normalization :
    process_depends_on none = none ∧
    process_depends_on (some (.list [])) = none ∧
    process_depends_on (some (.str "")) = none ∧
    (∀ s : String, s ≠ "" → process_depends_on (some (.str s)) = some [s]) ∧
    (∀ k : StateResourceKey, process_depends_on (some (.key k)) = some [k.value]) ∧
    (∀ items : List DependsOnItem, items ≠ [] →
      process_depends_on (some (.list items)) = some (items.filterMap dependsOnItemStr)) := by
  refine ⟨rfl, rfl, rfl, ?_, ?_, ?_⟩
  · intro s hs
    have hne : s.data.isEmpty = false := by
      rw [List.isEmpty_eq_false]
      intro hd
      exact hs (string_eq_of_data_eq (by simp [hd]))
    simp [process_depends_on, dependsOnFalsy, hne]
  · intro k
    rfl
  · intro items hi
    have hne : items.isEmpty = false := by
      rw [List.isEmpty_eq_false]
      exact hi
    simp [process_depends_on, dependsOnFalsy, hne]

/-- Witness for claim C10: the normalization theorem instantiated at a
non-empty string and at an iterable mixing a string, a foreign element and
a key. -/
theorem depends_on_normalization_witness :
    process_depends_on (some (.str "x")) = some ["x"] ∧
    process_depends_on (some (.list [.str "a", .other, .key .CL])) =
      some ["a", "customLocation"] :=
  ⟨depends_on_normalization.2.2.2.1 "x" (by decide),
   (depends_on_normalization.2.2.2.2.2 [.str "a", .other, .key .CL]
     (List.cons_ne_nil _ _)).trans rfl⟩

/-- Missing broker is fatal (claim C8): when the broker listing returns zero
records, the instance-resources phase raises (the `[0]` lookup on the empty
list) instead of continuing. -/
theorem missing_broker_fatal (env : BackupEnv) (st : BackupState)
    (h : env.brokers = []) :
    analyze_instance_resources env st =
      Except.error "IndexError: list index out of range" := by
  simp [analyze_instance_resources, h, okOr, Bind.bind, Except.bind]

/-- Environment with zero brokers for the C8 witness. -/
def c8_env : BackupEnv :=
  { oidc_issuer := none
    instance_record := []
    custom_location := []
    extensions_api_version := "2023-05-01"
    iotops_api_version := "2025-04-01"
    ssc_api_version := "2024-08-21-preview"
    extension_map := []
    brokers := []
    broker_authentications := []
    broker_authorizations := []
    broker_listeners := []
    dataflow_endpoints := []
    dataflow_profiles := []
    dataflows_by_profile := fun _ => []
    asset_endpoints := []
    assets := []
    ssc_spcs := []
    ssc_secretsyncs := []
    identities_by_client_id := fun _ => []
    federated_credentials := fun _ _ => [] }

/-- Witness for claim C8: zero brokers abort the phase with the index
error. -/
theorem missing_broker_fatal_witness :
    c8_env.brokers = [] ∧
    analyze_instance_resources c8_env (init_state c8_env) =
      Except.error "IndexError: list index out of range" :=
  ⟨rfl, missing_broker_fatal c8_env (init_state c8_env) rfl⟩

/-! Machinery for the template-minimization claim (C9). -/

theorem lookupEntry_prune_template_keys (t : JObj) (hnd : KeysNodup t) (k : String) :
    lookupEntry (prune_template_keys t) k =
      (lookupEntry t k).bind (fun v => if jTruthy v then some v else none) := by
  induction t with
  | nil => rfl
  | cons hd tl ih =>
      simp only [KeysNodup, entryKeys, List.map_cons, List.nodup_cons] at hnd
      by_cases hk : hd.1 = k
      · subst hk
        have htl : lookupEntry tl hd.1 = none :=
          lookupEntry_eq_none_of_not_mem_keys tl hd.1 hnd.1
        by_cases ht : jTruthy hd.2
        · simp [prune_template_keys, List.filter_cons, ht, lookupEntry]
        · simp only [prune_template_keys, List.filter_cons, ht, Bool.false_eq_true, if_false]
          rw [show List.filter (fun kv => jTruthy kv.2) tl = prune_template_keys tl from rfl,
            ih hnd.2]
          simp [lookupEntry, htl, ht]
      · by_cases ht : jTruthy hd.2
        · simp only [prune_template_keys, List.filter_cons, ht, if_true, lookupEntry,
            if_neg hk]
          rw [show List.filter (fun kv => jTruthy kv.2) tl = prune_template_keys tl from rfl,
            ih hnd.2]
        · simp only [prune_template_keys, List.filter_cons, ht, Bool.false_eq_true, if_false,
            lookupEntry, if_neg hk]
          rw [show List.filter (fun kv => jTruthy kv.2) tl = prune_template_keys tl from rfl,
            ih hnd.2]

theorem updateObjKey_keysNodup {t : JObj} {k : String} {m : JObj} {t2 : JObj}
    (h : updateObjKey t k m = .ok t2) (hnd : KeysNodup t) : KeysNodup t2 := by
  unfold updateObjKey at h
  cases hl : lookupEntry t k with
  | none => rw [hl] at h; simp at h
  | some v =>
      rw [hl] at h
      cases v <;> simp at h
      rw [← h]
      exact keysNodup_setEntry t k _ hnd

theorem assemble_keysNodup {tg : TemplateGen} {a : JObj}
    (h : tg.assemble = Except.ok a) : KeysNodup a := by
  unfold TemplateGen.assemble at h
  obtain ⟨resources, hres, h⟩ := except_bind_ok h
  obtain ⟨t1, ht1, h⟩ := except_bind_ok h
  obtain ⟨t2, ht2, h⟩ := except_bind_ok h
  obtain ⟨t3, ht3, h⟩ := except_bind_ok h
  simp only [pure, Except.pure, Except.ok.injEq] at h
  subst h
  have hbase : KeysNodup (setEntry get_base_format "resources" (.obj resources)) :=
    keysNodup_setEntry _ _ _ (by decide)
  exact updateObjKey_keysNodup ht3
    (updateObjKey_keysNodup ht2 (updateObjKey_keysNodup ht1 hbase))

/-- Template minimization (claim C9): the built template is exactly the
assembled skeleton with every top-level key whose value is Python-falsy
dropped; truthy keys keep their value unchanged, falsy or absent keys are
absent. -/
theorem template_minimization (tg : TemplateGen) (t : JObj)
    (h : tg.build_template = Except.ok t) :
    ∃ a : JObj, tg.assemble = Except.ok a ∧
      (∀ (k : String) (v : JValue), lookupEntry a k = some v → jTruthy v = true →
        lookupEntry t k = some v) ∧
      (∀ (k : String) (v : JValue), lookupEntry a k = some v → jTruthy v = false →
        lookupEntry t k = none) ∧
      (∀ k : String, lookupEntry a k = none → lookupEntry t k = none) := by
  unfold TemplateGen.build_template at h
  obtain ⟨a, ha, h⟩ := except_bind_ok h
  simp only [pure, Except.pure, Except.ok.injEq] at h
  subst h
  have hnd := assemble_keysNodup ha
  refine ⟨a, ha, ?_, ?_, ?_⟩
  · intro k v hv ht
    rw [lookupEntry_prune_template_keys a hnd k, hv]
    simp [ht]
  · intro k v hv ht
    rw [lookupEntry_prune_template_keys a hnd k, hv]
    simp [ht]
  · intro k hv
    rw [lookupEntry_prune_template_keys a hnd k, hv]
    rfl

/-- Template generator used to instantiate the minimization theorem: one
rendered resource, no parameters, no variables, one metadata entry. -/
def c9_tg : TemplateGen :=
  { rcontainer_map :=
      [("broker", .res
        { api_version := "2025-04-01"
          resource_state :=
            [("id", .str "/subscriptions/s1/resourceGroups/r1/providers/Microsoft.IoTOperations/instances/i1/brokers/b1"),
             ("name", .str "i1/b1"),
             ("properties", .obj [("memoryProfile", .str "Medium")])]
          depends_on := none
          config := [] })]
    parameter_map := []
    variable_map := []
    metadata_map := [("opsCliVersion", .str "1.0.0")] }

/-- Built template of the C9 witness generator. -/
def c9_t : JObj :=
  match c9_tg.build_template with
  | .ok t => t
  | .error _ => []

/-- Witness for claim C9: the minimization theorem instantiated at a concrete
generator. -/
theorem template_minimization_witness :
    c9_tg.build_template = Except.ok c9_t ∧
    (∃ a : JObj, c9_tg.assemble = Except.ok a ∧
      (∀ (k : String) (v : JValue), lookupEntry a k = some v → jTruthy v = true →
        lookupEntry c9_t k = some v) ∧
      (∀ (k : String) (v : JValue), lookupEntry a k = some v → jTruthy v = false →
        lookupEntry c9_t k = none) ∧
      (∀ k : String, lookupEntry a k = none → lookupEntry c9_t k = none)) :=
  ⟨rfl, template_minimization c9_tg c9_t rfl⟩

/-! Machinery for the chunking claim (C4) and the dependency-sequencing
claim (C1): characterization of `_add_deployment`. -/

theorem chunkFuel_length {α : Type} (n : Nat) (hn : 1 ≤ n) :
    ∀ (fuel : Nat) (xs : List α), xs.length ≤ fuel →
      (chunkFuel fuel xs n).length = (xs.length + n - 1) / n := by
  intro fuel
  induction fuel with
  | zero =>
      intro xs h
      have hx : xs = [] := List.eq_nil_of_length_eq_zero (Nat.le_zero.mp h)
      subst hx
      simp only [chunkFuel, List.length_nil]
      rw [Nat.div_eq_of_lt (by omega)]
  | succ fuel ih =>
      intro xs h
      cases xs with
      | nil =>
          simp only [chunkFuel, List.length_nil]
          rw [Nat.div_eq_of_lt (by omega)]
      | cons x rest =>
          simp only [chunkFuel, List.length_cons]
          rw [ih ((x :: rest).drop n)
            (by have hh := h
                simp only [List.length_cons] at hh
                simp only [List.length_drop, List.length_cons]
                omega)]
          rw [List.length_drop]
          have hn0 : 0 < n := hn
          by_cases hL : rest.length + 1 ≤ n
          · have e0 : rest.length + 1 - n = 0 := by omega
            have e1 : rest.length + 1 + n - 1 = (rest.length + 1 - 1) + n := by omega
            rw [List.length_cons, e0, e1, Nat.add_div_right _ hn0,
              Nat.div_eq_of_lt (by omega), Nat.div_eq_of_lt (by omega)]
          · have e1 : rest.length + 1 - n + n - 1 = (rest.length + 1 - n - 1) + n := by
              omega
            have e2 : rest.length + 1 + n - 1 = (rest.length + 1 - 1) + n := by omega
            have e3 : rest.length + 1 - 1 = (rest.length + 1 - n - 1) + n := by omega
            rw [List.length_cons, e1, Nat.add_div_right _ hn0, e2,
              Nat.add_div_right _ hn0, e3, Nat.add_div_right _ hn0]

theorem chunk_list_length {α : Type} (xs : List α) (n : Nat) (hn : 1 ≤ n) :
    (chunk_list xs n).length = (xs.length + n - 1) / n :=
  chunkFuel_length n hn xs.length xs (Nat.le_refl _)

theorem chunkFuel_mem_length {α : Type} (n : Nat) :
    ∀ (fuel : Nat) (xs : List α) (c : List α), c ∈ chunkFuel fuel xs n →
      c.length ≤ n := by
  intro fuel
  induction fuel with
  | zero => intro xs c hc; simp [chunkFuel] at hc
  | succ fuel ih =>
      intro xs c hc
      cases xs with
      | nil => simp [chunkFuel] at hc
      | cons x rest =>
          simp only [chunkFuel, List.mem_cons] at hc
          rcases hc with rfl | hc
          · exact List.length_take_le n (x :: rest)
          · exact ih _ c hc

theorem chunk_list_mem_length {α : Type} (xs : List α) (n : Nat) (c : List α)
    (hc : c ∈ chunk_list xs n) : c.length ≤ n :=
  chunkFuel_mem_length n xs.length xs c hc

/-- Entries that one `_add_deployment` call appends to the orchestrator map,
starting after `start` previously registered batches of the category. -/
def deploymentEntries (key : StateResourceKey) (av : String) (dep : Option StrOrList)
    (par : Option JObj) : Nat → List (List JObj) → List (String × Container)
  | _, [] => []
  | start, chunk :: rest =>
      (symbolicName key (start + 1),
        Container.dep ((DeploymentContainer.make ("[" ++ deploymentNameStr key (start + 1) ++ "]")
          par dep).add_resources (.key key) av chunk none [])) ::
      deploymentEntries key av dep par (start + 1) rest

/-- Deployment names that one `_add_deployment` call appends to the active
list of the category. -/
def deploymentNames (key : StateResourceKey) : Nat → Nat → List String
  | _, 0 => []
  | start, m + 1 => deploymentNameStr key (start + 1) :: deploymentNames key (start + 1) m

theorem deploymentNames_length (key : StateResourceKey) :
    ∀ (start m : Nat), (deploymentNames key start m).length = m := by
  intro start m
  induction m generalizing start with
  | zero => rfl
  | succ m ih => simp [deploymentNames, ih]

theorem deploymentNames_getLast (key : StateResourceKey) :
    ∀ (m start : Nat), 1 ≤ m →
      (deploymentNames key start m).getLast? = some (deploymentNameStr key (start + m)) := by
  intro m
  induction m with
  | zero => intro start h; omega
  | succ m ih =>
      intro start _
      cases m with
      | zero => rfl
      | succ m2 =>
          have hcons : deploymentNames key (start + 1) (m2 + 1)
              = deploymentNameStr key (start + 2) :: deploymentNames key (start + 2) m2 := rfl
          rw [show deploymentNames key start (m2 + 1 + 1)
              = deploymentNameStr key (start + 1) :: deploymentNames key (start + 1) (m2 + 1)
              from rfl]
          rw [hcons, List.getLast?_cons_cons, ← hcons, ih (start + 1) (by omega)]
          rw [show start + 1 + (m2 + 1) = start + (m2 + 1 + 1) from by omega]

theorem deploymentNames_mem (key : StateResourceKey) :
    ∀ (m start : Nat) (x : String), x ∈ deploymentNames key start m →
      ∃ i, 1 ≤ i ∧ i ≤ m ∧ x = deploymentNameStr key (start + i) := by
  intro m
  induction m with
  | zero => intro start x hx; simp [deploymentNames] at hx
  | succ m ih =>
      intro start x hx
      rw [show deploymentNames key start (m + 1)
          = deploymentNameStr key (start + 1) :: deploymentNames key (start + 1) m
          from rfl, List.mem_cons] at hx
      rcases hx with rfl | hx
      · exact ⟨1, by omega, by omega, rfl⟩
      · obtain ⟨i, h1, h2, rfl⟩ := ih (start + 1) x hx
        exact ⟨i + 1, by omega, by omega, by rw [show start + 1 + i = start + (i + 1) from by omega]⟩

/-- Symbolic names that one `_add_deployment` call registers, in creation
order. -/
def symbolicNames (key : StateResourceKey) : Nat → Nat → List String
  | _, 0 => []
  | start, m + 1 => symbolicName key (start + 1) :: symbolicNames key (start + 1) m

theorem deploymentEntries_length (key : StateResourceKey) (av : String)
    (dep : Option StrOrList) (par : Option JObj) :
    ∀ (chunks : List (List JObj)) (start : Nat),
      (deploymentEntries key av dep par start chunks).length = chunks.length := by
  intro chunks
  induction chunks with
  | nil => intro start; rfl
  | cons c r ih => intro start; simp [deploymentEntries, ih]

theorem entryKeys_deploymentEntries (key : StateResourceKey) (av : String)
    (dep : Option StrOrList) (par : Option JObj) :
    ∀ (chunks : List (List JObj)) (start : Nat),
      entryKeys (deploymentEntries key av dep par start chunks)
        = symbolicNames key start chunks.length := by
  intro chunks
  induction chunks with
  | nil => intro start; rfl
  | cons c r ih =>
      intro start
      simp only [deploymentEntries, entryKeys, List.map_cons, List.length_cons]
      rw [show symbolicNames key start (r.length + 1)
          = symbolicName key (start + 1) :: symbolicNames key (start + 1) r.length from rfl]
      exact congrArg _ (ih (start + 1))

theorem setEntry_length_le {κ α : Type} [DecidableEq κ]
    (o : List (κ × α)) (k : κ) (v : α) :
    (setEntry o k v).length ≤ o.length + 1 := by
  induction o with
  | nil => simp [setEntry]
  | cons hd tl ih =>
      by_cases hk : hd.1 = k
      · simp [setEntry, hk]
      · simp only [setEntry, if_neg hk, List.length_cons]
        omega

theorem foldl_addResourcesStep_length (keyStr av : String) (dep : Option (List String))
    (cfg : JObj) :
    ∀ (data : List JObj) (p : Nat × List (String × ResourceContainer)),
      ((data.foldl (addResourcesStep keyStr av dep cfg) p).2).length
        ≤ p.2.length + data.length := by
  intro data
  induction data with
  | nil => intro p; simp
  | cons d r ih =>
      intro p
      rw [List.foldl_cons]
      refine (ih _).trans ?_
      have := setEntry_length_le p.2
        (keyStr ++ (if p.1 + 1 ≤ 1 then "" else "_" ++ natStr (p.1 + 1)))
        { api_version := av, resource_state := d, depends_on := dep, config := cfg }
      simp only [addResourcesStep, List.length_cons]
      omega

theorem add_resources_length (dc : DeploymentContainer) (key : KeyOrStr)
    (av : String) (data : List JObj) (dep : Option DependsOnInput) (cfg : JObj) :
    ((dc.add_resources key av data dep cfg).rcontainer_map).length
      ≤ dc.rcontainer_map.length + data.length := by
  unfold DeploymentContainer.add_resources
  exact foldl_addResourcesStep_length _ _ _ _ data (0, dc.rcontainer_map)

theorem deploymentEntries_mem_size (key : StateResourceKey) (av : String)
    (dep : Option StrOrList) (par : Option JObj) :
    ∀ (chunks : List (List JObj)) (start : Nat) (e : String × Container),
      e ∈ deploymentEntries key av dep par start chunks →
      ∃ chunk : List JObj, chunk ∈ chunks ∧ ∃ dc : DeploymentContainer,
        e.2 = Container.dep dc ∧ dc.rcontainer_map.length ≤ chunk.length := by
  intro chunks
  induction chunks with
  | nil => intro start e he; simp [deploymentEntries] at he
  | cons c r ih =>
      intro start e he
      rw [show deploymentEntries key av dep par start (c :: r)
          = (symbolicName key (start + 1),
              Container.dep ((DeploymentContainer.make
                ("[" ++ deploymentNameStr key (start + 1) ++ "]") par dep).add_resources
                (.key key) av c none [])) ::
            deploymentEntries key av dep par (start + 1) r from rfl,
        List.mem_cons] at he
      rcases he with rfl | he
      · refine ⟨c, List.mem_cons_self _ _, _, rfl, ?_⟩
        have := add_resources_length
          (DeploymentContainer.make ("[" ++ deploymentNameStr key (start + 1) ++ "]") par dep)
          (.key key) av c none []
        simpa [DeploymentContainer.make] using this
      · obtain ⟨chunk, hm, dc, he2, hlen⟩ := ih (start + 1) e he
        exact ⟨chunk, List.mem_cons_of_mem _ hm, dc, he2, hlen⟩

theorem chunk_list_ne_nil {α : Type} (xs : List α) (h : xs ≠ []) (n : Nat) :
    chunk_list xs n ≠ [] := by
  cases xs with
  | nil => exact absurd rfl h
  | cons x r => simp [chunk_list, chunkFuel]

theorem add_deployment_chunks_spec (key : StateResourceKey) (av : String)
    (dep : Option StrOrList) (par : Option JObj) :
    ∀ (chunks : List (List JObj)) (st : BackupState) (prev : List String),
      chunks ≠ [] →
      (lookupEntry st.active_deployment key).getD [] = prev →
      (∀ n, prev.length + 1 ≤ n → lookupEntry st.rcontainer_map (symbolicName key n) = none) →
      add_deployment_chunks key av dep par chunks st
        = { st with
            rcontainer_map := st.rcontainer_map ++ deploymentEntries key av dep par prev.length chunks,
            active_deployment := setEntry st.active_deployment key
              (prev ++ deploymentNames key prev.length chunks.length) } := by
  intro chunks
  induction chunks with
  | nil => intro st prev hne; exact absurd rfl hne
  | cons chunk rest ih =>
      intro st prev _ hprev hfresh
      have hsym : lookupEntry st.rcontainer_map (symbolicName key (prev.length + 1)) = none :=
        hfresh (prev.length + 1) (Nat.le_refl _)
      rw [show add_deployment_chunks key av dep par (chunk :: rest) st
          = add_deployment_chunks key av dep par rest
              { (add_deployment_by_key st key).2.2 with
                rcontainer_map := setEntry (add_deployment_by_key st key).2.2.rcontainer_map
                  (add_deployment_by_key st key).1
                  (.dep ((DeploymentContainer.make ("[" ++ (add_deployment_by_key st key).2.1 ++ "]")
                    par dep).add_resources (.key key) av chunk none [])) }
          from rfl]
      simp only [add_deployment_by_key, hprev]
      cases rest with
      | nil =>
          rw [show add_deployment_chunks key av dep par [] _ = _ from rfl]
          rw [setEntry_append_of_lookup_none _ _ _ hsym]
          rfl
      | cons c2 r2 =>
          rw [ih _ (prev ++ [deploymentNameStr key (prev.length + 1)]) (List.cons_ne_nil _ _)
            (by simp [lookupEntry_setEntry_self])
            ?_]
          · rw [setEntry_append_of_lookup_none _ _ _ hsym]
            simp only [setEntry_setEntry_same, List.length_append, List.length_singleton,
              List.length_cons, List.append_assoc, List.singleton_append]
            rfl
          · intro n hge
            rw [show (prev ++ [deploymentNameStr key (prev.length + 1)]).length
                = prev.length + 1 from by simp] at hge
            have hnen : symbolicName key n ≠ symbolicName key (prev.length + 1) := by
              intro he
              have := symbolicName_inj_n key he
              omega
            exact (lookupEntry_setEntry_ne st.rcontainer_map
              (symbolicName key (prev.length + 1)) (symbolicName key n) _ hnen).trans
              (hfresh n (by omega))

theorem add_deployment_spec (st : BackupState) (key : StateResourceKey) (av : String)
    (data : List JObj) (dep : Option StrOrList) (par : Option JObj)
    (hne : data ≠ [])
    (hact : lookupEntry st.active_deployment key = none)
    (hfresh : ∀ n, 1 ≤ n → lookupEntry st.rcontainer_map (symbolicName key n) = none) :
    add_deployment st key av data dep par
      = { st with
          rcontainer_map := st.rcontainer_map ++
            deploymentEntries key av dep par 0 (chunk_list data st.chunk_size),
          active_deployment := setEntry st.active_deployment key
            (deploymentNames key 0 (chunk_list data st.chunk_size).length) } := by
  unfold add_deployment
  rw [if_neg (by simp [List.isEmpty_iff, hne])]
  have hspec := add_deployment_chunks_spec key av dep par (chunk_list data st.chunk_size)
    st [] (chunk_list_ne_nil data hne _) (by rw [hact]; rfl)
    (by intro n hn; exact hfresh n (by omega))
  simpa using hspec

theorem add_deployment_nil (st : BackupState) (key : StateResourceKey) (av : String)
    (dep : Option StrOrList) (par : Option JObj) :
    add_deployment st key av [] dep par = st := rfl

/-- Chunking (claim C4): given more records than the chunk size for one
category, `_add_deployment` appends ceiling-many deployment containers,
registered under the symbolic names `{category}s_1, {category}s_2, ...` in
creation order, each holding at most `chunk_size` inner resources. -/
theorem chunking (st : BackupState) (key : StateResourceKey) (av : String)
    (data : List JObj) (dep : Option StrOrList) (par : Option JObj)
    (hcs : 1 ≤ st.chunk_size) (hN : st.chunk_size < data.length)
    (hact : lookupEntry st.active_deployment key = none)
    (hfresh : ∀ n, lookupEntry st.rcontainer_map (symbolicName key n) = none) :
    (add_deployment st key av data dep par).rcontainer_map
      = st.rcontainer_map ++
        deploymentEntries key av dep par 0 (chunk_list data st.chunk_size) ∧
    (deploymentEntries key av dep par 0 (chunk_list data st.chunk_size)).length
      = (data.length + st.chunk_size - 1) / st.chunk_size ∧
    entryKeys (deploymentEntries key av dep par 0 (chunk_list data st.chunk_size))
      = symbolicNames key 0 ((data.length + st.chunk_size - 1) / st.chunk_size) ∧
    ∀ e ∈ deploymentEntries key av dep par 0 (chunk_list data st.chunk_size),
      ∃ dc : DeploymentContainer, e.2 = Container.dep dc ∧
        dc.rcontainer_map.length ≤ st.chunk_size := by
  have hne : data ≠ [] := by
    intro hd
    rw [hd] at hN
    simp at hN
  have hspec := add_deployment_spec st key av data dep par hne hact (fun n _ => hfresh n)
  have hcl := chunk_list_length data st.chunk_size hcs
  refine ⟨by rw [hspec], ?_, ?_, ?_⟩
  · rw [deploymentEntries_length, hcl]
  · rw [entryKeys_deploymentEntries, hcl]
  · intro e he
    obtain ⟨chunk, hm, dc, he2, hlen⟩ := deploymentEntries_mem_size key av dep par _ 0 e he
    exact ⟨dc, he2, hlen.trans (chunk_list_mem_length data st.chunk_size chunk hm)⟩

/-- Backup state with a small chunk size for the C4 witness. -/
def c4_st : BackupState :=
  { rcontainer_map := [], parameter_map := [], variable_map := [], metadata_map := [],
    instance_identities := [], active_deployment := [], chunk_size := 2,
    instance_record := [], trace := [], fc_created := [] }

/-- Five dataflow records for the C4 witness. -/
def c4_data : List JObj :=
  [[("name", .str "d1")], [("name", .str "d2")], [("name", .str "d3")],
   [("name", .str "d4")], [("name", .str "d5")]]

/-- Witness for claim C4: five records with chunk size two yield three
deployment containers named `dataflows_1 .. dataflows_3`. -/
theorem chunking_witness :
    (1 ≤ c4_st.chunk_size ∧ c4_st.chunk_size < c4_data.length ∧
      symbolicNames StateResourceKey.DATAFLOW 0
        ((c4_data.length + c4_st.chunk_size - 1) / c4_st.chunk_size)
        = ["dataflows_1", "dataflows_2", "dataflows_3"]) ∧
    ((add_deployment c4_st .DATAFLOW "2025-04-01" c4_data none none).rcontainer_map
      = c4_st.rcontainer_map ++
        deploymentEntries .DATAFLOW "2025-04-01" none none 0 (chunk_list c4_data c4_st.chunk_size) ∧
    (deploymentEntries .DATAFLOW "2025-04-01" none none 0 (chunk_list c4_data c4_st.chunk_size)).length
      = (c4_data.length + c4_st.chunk_size - 1) / c4_st.chunk_size ∧
    entryKeys (deploymentEntries .DATAFLOW "2025-04-01" none none 0 (chunk_list c4_data c4_st.chunk_size))
      = symbolicNames .DATAFLOW 0 ((c4_data.length + c4_st.chunk_size - 1) / c4_st.chunk_size) ∧
    ∀ e ∈ deploymentEntries .DATAFLOW "2025-04-01" none none 0 (chunk_list c4_data c4_st.chunk_size),
      ∃ dc : DeploymentContainer, e.2 = Container.dep dc ∧
        dc.rcontainer_map.length ≤ c4_st.chunk_size) :=
  ⟨⟨by decide, by decide, rfl⟩,
   chunking c4_st .DATAFLOW "2025-04-01" c4_data none none (by decide) (by decide) rfl
     (fun _ => rfl)⟩

/-! Machinery for the empty-collection-skip claim (C7). -/

theorem add_deployment_chunks_active_other (key : StateResourceKey) (av : String)
    (dep : Option StrOrList) (par : Option JObj) :
    ∀ (chunks : List (List JObj)) (st : BackupState) (key2 : StateResourceKey),
      key2 ≠ key →
      lookupEntry (add_deployment_chunks key av dep par chunks st).active_deployment key2
        = lookupEntry st.active_deployment key2 := by
  intro chunks
  induction chunks with
  | nil => intro st key2 h; rfl
  | cons c r ih =>
      intro st key2 h
      rw [show add_deployment_chunks key av dep par (c :: r) st
          = add_deployment_chunks key av dep par r
              { (add_deployment_by_key st key).2.2 with
                rcontainer_map := setEntry (add_deployment_by_key st key).2.2.rcontainer_map
                  (add_deployment_by_key st key).1
                  (.dep ((DeploymentContainer.make ("[" ++ (add_deployment_by_key st key).2.1 ++ "]")
                    par dep).add_resources (.key key) av c none [])) }
          from rfl, ih _ key2 h]
      exact lookupEntry_setEntry_ne _ _ _ _ h

theorem add_deployment_active_other (st : BackupState) (key : StateResourceKey)
    (av : String) (data : List JObj) (dep : Option StrOrList) (par : Option JObj)
    (key2 : StateResourceKey) (h : key2 ≠ key) :
    lookupEntry (add_deployment st key av data dep par).active_deployment key2
      = lookupEntry st.active_deployment key2 := by
  unfold add_deployment
  by_cases he : data.isEmpty
  · rw [if_pos he]
  · rw [if_neg he]
    exact add_deployment_chunks_active_other key av dep par _ st key2 h

theorem add_deployment_chunks_keys (key : StateResourceKey) (av : String)
    (dep : Option StrOrList) (par : Option JObj) :
    ∀ (chunks : List (List JObj)) (st : BackupState) (k : String),
      (lookupEntry (add_deployment_chunks key av dep par chunks st).rcontainer_map k).isSome →
      (lookupEntry st.rcontainer_map k).isSome ∨ ∃ n, k = symbolicName key n := by
  intro chunks
  induction chunks with
  | nil => intro st k h; exact Or.inl h
  | cons c r ih =>
      intro st k h
      rw [show add_deployment_chunks key av dep par (c :: r) st
          = add_deployment_chunks key av dep par r
              { (add_deployment_by_key st key).2.2 with
                rcontainer_map := setEntry (add_deployment_by_key st key).2.2.rcontainer_map
                  (add_deployment_by_key st key).1
                  (.dep ((DeploymentContainer.make ("[" ++ (add_deployment_by_key st key).2.1 ++ "]")
                    par dep).add_resources (.key key) av c none [])) }
          from rfl] at h
      rcases ih _ k h with h2 | h2
      · by_cases hk : k = (add_deployment_by_key st key).1
        · exact Or.inr ⟨((lookupEntry st.active_deployment key).getD []).length + 1, hk⟩
        · rw [show (add_deployment_by_key st key).2.2.rcontainer_map = st.rcontainer_map
              from rfl] at h2
          rw [lookupEntry_setEntry_ne _ _ _ _ hk] at h2
          exact Or.inl h2
      · exact Or.inr h2

theorem add_deployment_keys (st : BackupState) (key : StateResourceKey) (av : String)
    (data : List JObj) (dep : Option StrOrList) (par : Option JObj) (k : String)
    (h : (lookupEntry (add_deployment st key av data dep par).rcontainer_map k).isSome) :
    (lookupEntry st.rcontainer_map k).isSome ∨ ∃ n, k = symbolicName key n := by
  unfold add_deployment at h
  by_cases he : data.isEmpty
  · rw [if_pos he] at h
    exact Or.inl h
  · rw [if_neg he] at h
    exact add_deployment_chunks_keys key av dep par _ st k h

theorem recordIds_ok :
    ∀ (l : List JObj), (∀ m ∈ l, ∃ s : String, lookupEntry m "id" = some (JValue.str s)) →
      ∃ ids : List String, recordIds l = Except.ok ids := by
  intro l
  induction l with
  | nil => intro _; exact ⟨[], rfl⟩
  | cons m rest ih =>
      intro h
      obtain ⟨s, hs⟩ := h m (List.mem_cons_self _ _)
      obtain ⟨ids, hids⟩ := ih (fun m2 hm => h m2 (List.mem_cons_of_mem _ hm))
      refine ⟨s :: ids, ?_⟩
      simp [recordIds, Bind.bind, Except.bind, getKeyE, okOr, hs, asStrE, hids,
        pure, Except.pure]

/-- Empty-collection skip (claim C7): an empty asset collection with
non-empty endpoints registers no asset container and raises no error, and
symmetrically for secret-syncs; in both families the dependent category is
registered only when both collections are non-empty (an empty sibling also
skips it). -/
theorem empty_collection_skip :
    (∀ (env : BackupEnv) (st : BackupState), env.assets = [] ∨ env.asset_endpoints = [] →
      ∃ st' : BackupState, analyze_assets env st = Except.ok st' ∧
        lookupEntry st'.active_deployment StateResourceKey.ASSET
          = lookupEntry st.active_deployment StateResourceKey.ASSET ∧
        (∀ k : String, (lookupEntry st'.rcontainer_map k).isSome = true →
          (lookupEntry st.rcontainer_map k).isSome = true ∨
          ∃ n, k = symbolicName StateResourceKey.ASSET_ENDPOINT_PROFILE n)) ∧
    (∀ (env : BackupEnv) (st : BackupState) (eid : String) (fspcs fsyncs : List JObj)
       (cids : List String),
      extLocIdOf st.instance_record = Except.ok eid →
      extLocFilter eid env.ssc_spcs = Except.ok fspcs →
      spcClientIds fspcs = Except.ok cids →
      (∀ m ∈ env.identities_by_client_id cids,
        ∃ s : String, lookupEntry m "id" = some (JValue.str s)) →
      extLocFilter eid env.ssc_secretsyncs = Except.ok fsyncs →
      fspcs = [] ∨ fsyncs = [] →
      ∃ st' : BackupState, analyze_secretsync env st = Except.ok st' ∧
        lookupEntry st'.active_deployment StateResourceKey.SSC_SECRETSYNC
          = lookupEntry st.active_deployment StateResourceKey.SSC_SECRETSYNC ∧
        (∀ k : String, (lookupEntry st'.rcontainer_map k).isSome = true →
          (lookupEntry st.rcontainer_map k).isSome = true ∨
          ∃ n, k = symbolicName StateResourceKey.SSC_SPC n)) := by
  constructor
  · intro env st h
    have hguard : (!env.assets.isEmpty && !env.asset_endpoints.isEmpty) = false := by
      rcases h with h | h <;> simp [h]
    have hrun : analyze_assets env st = Except.ok (add_deployment (logPhase st .assets)
        StateResourceKey.ASSET_ENDPOINT_PROFILE REGISTRY_API_VERSION env.asset_endpoints
        (some (.str (get_resource_id_by_param "microsoft.iotoperations/instances" "instanceName")))
        (some (updateObj (build_parameter "customLocationName" "string" none none)
          (build_parameter "instanceName" "string" none none)))) := by
      simp only [analyze_assets, hguard, Bool.false_eq_true, if_false, pure, Except.pure]
    exact ⟨_, hrun,
      add_deployment_active_other (logPhase st .assets) _ _ _ _ _ _ (by decide),
      fun k hk => add_deployment_keys (logPhase st .assets) _ _ _ _ _ k hk⟩
  · intro env st eid fspcs fsyncs cids heid hfspcs hcids hids hfsyncs hemp
    obtain ⟨ids, hrec⟩ := recordIds_ok _ hids
    have hguard : (!fsyncs.isEmpty && !fspcs.isEmpty) = false := by
      rcases hemp with h | h <;> simp [h]
    have hrun : analyze_secretsync env st = Except.ok (add_deployment
        { logPhase st .secretSync with
          instance_identities := (logPhase st .secretSync).instance_identities ++ ids }
        StateResourceKey.SSC_SPC env.ssc_api_version fspcs
        (some (.str (get_resource_id_by_param "microsoft.iotoperations/instances" "instanceName")))
        (some (updateObj (build_parameter "customLocationName" "string" none none)
          (build_parameter "instanceName" "string" none none)))) := by
      simp only [analyze_secretsync, logPhase, heid, hfspcs, hcids, hrec, hfsyncs,
        except_ok_bind]
      simp [hguard, pure, Except.pure]
    refine ⟨_, hrun, ?_, ?_⟩
    · exact add_deployment_active_other
        { logPhase st .secretSync with
          instance_identities := (logPhase st .secretSync).instance_identities ++ ids }
        _ _ _ _ _ _ (by decide)
    · intro k hk
      exact add_deployment_keys
        { logPhase st .secretSync with
          instance_identities := (logPhase st .secretSync).instance_identities ++ ids }
        _ _ _ _ _ k hk

/-- Backup state for the C7 witness: an instance record carrying an extended
location. -/
def c7_st : BackupState :=
  { rcontainer_map := [], parameter_map := [], variable_map := [], metadata_map := [],
    instance_identities := [], active_deployment := [], chunk_size := 800,
    instance_record := [("extendedLocation", .obj [("name", .str "/X/CL1")])],
    trace := [], fc_created := [] }

/-- Secret provider class record for the C7 witness. -/
def c7_spc : JObj :=
  [("name", .str "spc1"),
   ("extendedLocation", .obj [("name", .str "/x/Cl1")]),
   ("properties", .obj [("clientId", .str "c1")])]

/-- Environment for the C7 witness: no assets but one endpoint, no
secret-syncs but one provider class. -/
def c7_env : BackupEnv :=
  { c8_env with
    asset_endpoints := [[("id", .str "/a/b"), ("name", .str "aep1")]],
    assets := [],
    ssc_spcs := [c7_spc],
    ssc_secretsyncs := [] }

/-- Secret sync record for the C7 witness, matching the instance's extended
location. -/
def c7_sync : JObj :=
  [("name", .str "sync1"),
   ("extendedLocation", .obj [("name", .str "/x/CL1")])]

/-- Environment for the C7 witness's converse secret-sync case: one
secret-sync record but no secret provider classes. -/
def c7_env2 : BackupEnv :=
  { c8_env with
    ssc_spcs := [],
    ssc_secretsyncs := [c7_sync] }

/-- Witness for claim C7: the skip theorem instantiated for empty assets
with one endpoint, for empty secret-syncs with one provider class, and for
one secret-sync with no provider classes. -/
theorem empty_collection_skip_witness :
    (∃ st' : BackupState, analyze_assets c7_env c7_st = Except.ok st' ∧
      lookupEntry st'.active_deployment StateResourceKey.ASSET
        = lookupEntry c7_st.active_deployment StateResourceKey.ASSET ∧
      (∀ k : String, (lookupEntry st'.rcontainer_map k).isSome = true →
        (lookupEntry c7_st.rcontainer_map k).isSome = true ∨
        ∃ n, k = symbolicName StateResourceKey.ASSET_ENDPOINT_PROFILE n)) ∧
    (∃ st' : BackupState, analyze_secretsync c7_env c7_st = Except.ok st' ∧
      lookupEntry st'.active_deployment StateResourceKey.SSC_SECRETSYNC
        = lookupEntry c7_st.active_deployment StateResourceKey.SSC_SECRETSYNC ∧
      (∀ k : String, (lookupEntry st'.rcontainer_map k).isSome = true →
        (lookupEntry c7_st.rcontainer_map k).isSome = true ∨
        ∃ n, k = symbolicName StateResourceKey.SSC_SPC n)) ∧
    (∃ st' : BackupState, analyze_secretsync c7_env2 c7_st = Except.ok st' ∧
      lookupEntry st'.active_deployment StateResourceKey.SSC_SECRETSYNC
        = lookupEntry c7_st.active_deployment StateResourceKey.SSC_SECRETSYNC ∧
      (∀ k : String, (lookupEntry st'.rcontainer_map k).isSome = true →
        (lookupEntry c7_st.rcontainer_map k).isSome = true ∨
        ∃ n, k = symbolicName StateResourceKey.SSC_SPC n)) :=
  ⟨empty_collection_skip.1 c7_env c7_st (Or.inl rfl),
   empty_collection_skip.2 c7_env c7_st "/x/cl1" [c7_spc] [] ["c1"] rfl rfl rfl
     (by intro m hm; simp [c7_env, c8_env] at hm) rfl (Or.inr rfl),
   empty_collection_skip.2 c7_env2 c7_st "/x/cl1" [] [c7_sync] [] rfl rfl rfl
     (by intro m hm; simp [c7_env2, c8_env] at hm) rfl (Or.inl rfl)⟩

/-! Machinery for the phase-ordering claim (C6): each phase appends exactly
its own tag to the invocation trace. -/

theorem foldlM_except_trace {α : Type} (f : BackupState → α → Except String BackupState)
    (hf : ∀ (s : BackupState) (a : α) (s2 : BackupState), f s a = .ok s2 → s2.trace = s.trace) :
    ∀ (l : List α) (s s2 : BackupState), List.foldlM f s l = .ok s2 → s2.trace = s.trace := by
  intro l
  induction l with
  | nil =>
      intro s s2 h
      simp only [List.foldlM, pure, Except.pure, Except.ok.injEq] at h
      rw [← h]
  | cons a r ih =>
      intro s s2 h
      simp only [List.foldlM] at h ih
      obtain ⟨sa, hsa, h⟩ := except_bind_ok h
      rw [ih sa s2 h, hf s a sa hsa]

theorem add_deployment_chunks_trace (key : StateResourceKey) (av : String)
    (dep : Option StrOrList) (par : Option JObj) :
    ∀ (chunks : List (List JObj)) (st : BackupState),
      (add_deployment_chunks key av dep par chunks st).trace = st.trace := by
  intro chunks
  induction chunks with
  | nil => intro st; rfl
  | cons c r ih =>
      intro st
      rw [show add_deployment_chunks key av dep par (c :: r) st
          = add_deployment_chunks key av dep par r
              { (add_deployment_by_key st key).2.2 with
                rcontainer_map := setEntry (add_deployment_by_key st key).2.2.rcontainer_map
                  (add_deployment_by_key st key).1
                  (.dep ((DeploymentContainer.make ("[" ++ (add_deployment_by_key st key).2.1 ++ "]")
                    par dep).add_resources (.key key) av c none [])) }
          from rfl, ih]
      rfl

theorem add_deployment_trace (st : BackupState) (key : StateResourceKey) (av : String)
    (data : List JObj) (dep : Option StrOrList) (par : Option JObj) :
    (add_deployment st key av data dep par).trace = st.trace := by
  unfold add_deployment
  by_cases he : data.isEmpty
  · rw [if_pos he]
  · rw [if_neg he]
    exact add_deployment_chunks_trace key av dep par _ st

theorem build_parameters_trace {st st2 : BackupState}
    (h : build_parameters st = .ok st2) : st2.trace = st.trace := by
  unfold build_parameters at h
  obtain ⟨a, _, h⟩ := except_bind_ok h
  obtain ⟨b, _, h⟩ := except_bind_ok h
  obtain ⟨c, _, h⟩ := except_bind_ok h
  obtain ⟨d, _, h⟩ := except_bind_ok h
  obtain ⟨e, _, h⟩ := except_bind_ok h
  simp only [pure, Except.pure, Except.ok.injEq] at h
  rw [← h]

theorem build_metadata_trace {st st2 : BackupState}
    (h : build_metadata st = .ok st2) : st2.trace = st.trace := by
  unfold build_metadata at h
  obtain ⟨a, _, h⟩ := except_bind_ok h
  simp only [pure, Except.pure, Except.ok.injEq] at h
  rw [← h]

theorem analyze_extensions_trace {env : BackupEnv} {st st2 : BackupState}
    (h : analyze_extensions env st = .ok st2) :
    st2.trace = st.trace ++ [AnalyzePhase.extensions] := by
  unfold analyze_extensions at h
  obtain ⟨a, _, h⟩ := except_bind_ok h
  obtain ⟨b, _, h⟩ := except_bind_ok h
  obtain ⟨c, _, h⟩ := except_bind_ok h
  obtain ⟨d, _, h⟩ := except_bind_ok h
  have := foldlM_except_trace _ ?_ env.extension_map (logPhase st .extensions) st2 h
  · exact this
  · intro s x s3 hx
    obtain ⟨m, _, hx⟩ := except_bind_ok hx
    simp only [pure, Except.pure, Except.ok.injEq] at hx
    rw [← hx]
    rfl

theorem analyze_instance_trace {env : BackupEnv} {st st2 : BackupState}
    (h : analyze_instance env st = .ok st2) :
    st2.trace = st.trace ++ [AnalyzePhase.instanceMain] := by
  unfold analyze_instance at h
  obtain ⟨a1, _, h⟩ := except_bind_ok h
  obtain ⟨a2, _, h⟩ := except_bind_ok h
  obtain ⟨a3, _, h⟩ := except_bind_ok h
  obtain ⟨a4, _, h⟩ := except_bind_ok h
  obtain ⟨a5, _, h⟩ := except_bind_ok h
  obtain ⟨a6, _, h⟩ := except_bind_ok h
  obtain ⟨a7, _, h⟩ := except_bind_ok h
  obtain ⟨a8, _, h⟩ := except_bind_ok h
  obtain ⟨a9, _, h⟩ := except_bind_ok h
  obtain ⟨a10, _, h⟩ := except_bind_ok h
  obtain ⟨a11, _, h⟩ := except_bind_ok h
  obtain ⟨a12, _, h⟩ := except_bind_ok h
  simp only [pure, Except.pure, Except.ok.injEq] at h
  rw [← h]
  rfl

theorem analyze_instance_identity_trace {env : BackupEnv} {st st2 : BackupState}
    (h : analyze_instance_identity env st = .ok st2) :
    st2.trace = st.trace ++ [AnalyzePhase.instanceIdentity] := by
  unfold analyze_instance_identity at h
  cases hoidc : env.oidc_issuer with
  | none =>
      rw [hoidc] at h
      have h2 : Except.ok (logPhase st .instanceIdentity) = Except.ok st2 := h
      cases h2
      rfl
  | some oidc =>
      rw [hoidc] at h
      obtain ⟨idn, _, h⟩ := except_bind_ok h
      by_cases hemp : (entryKeys idn).isEmpty
      · rw [if_pos hemp] at h
        simp only [pure, Except.pure, Except.ok.injEq] at h
        rw [← h]
        rfl
      · rw [if_neg hemp] at h
        have := foldlM_except_trace _ ?_ (entryKeys idn) (logPhase st .instanceIdentity) st2 h
        · exact this
        · intro s uid s3 hx
          obtain ⟨rid, _, hx⟩ := except_bind_ok hx
          obtain ⟨creds, _, hx⟩ := except_bind_ok hx
          have := foldlM_except_trace _ ?_ creds s s3 hx
          · exact this
          · intro s4 cred s5 hy
            obtain ⟨y1, _, hy⟩ := except_bind_ok hy
            obtain ⟨props, _, hy⟩ := except_bind_ok hy
            obtain ⟨y2, _, hy⟩ := except_bind_ok hy
            obtain ⟨subject, _, hy⟩ := except_bind_ok hy
            split at hy
            · simp only [pure, Except.pure, Except.ok.injEq] at hy
              rw [← hy]
            · obtain ⟨aud, _, hy⟩ := except_bind_ok hy
              simp only [pure, Except.pure, Except.ok.injEq] at hy
              rw [← hy]

theorem analyze_instance_resources_trace {env : BackupEnv} {st st2 : BackupState}
    (h : analyze_instance_resources env st = .ok st2) :
    st2.trace = st.trace ++ [AnalyzePhase.instanceResources] := by
  unfold analyze_instance_resources at h
  obtain ⟨b1, _, h⟩ := except_bind_ok h
  obtain ⟨b2, _, h⟩ := except_bind_ok h
  obtain ⟨b3, _, h⟩ := except_bind_ok h
  obtain ⟨b4, _, h⟩ := except_bind_ok h
  obtain ⟨b5, _, h⟩ := except_bind_ok h
  obtain ⟨b6, _, h⟩ := except_bind_ok h
  obtain ⟨b7, _, h⟩ := except_bind_ok h
  obtain ⟨b8, _, h⟩ := except_bind_ok h
  dsimp only [] at h
  split at h
  · simp only [pure, Except.pure, Except.ok.injEq] at h
    rw [← h]
    simp only [add_deployment_trace]
    rfl
  · obtain ⟨dfs, _, h⟩ := except_bind_ok h
    obtain ⟨pn, _, h⟩ := except_bind_ok h
    obtain ⟨lp, _, h⟩ := except_bind_ok h
    simp only [pure, Except.pure, Except.ok.injEq] at h
    rw [← h]
    simp only [add_deployment_trace]
    rfl

theorem analyze_secretsync_trace {env : BackupEnv} {st st2 : BackupState}
    (h : analyze_secretsync env st = .ok st2) :
    st2.trace = st.trace ++ [AnalyzePhase.secretSync] := by
  unfold analyze_secretsync at h
  obtain ⟨e1, _, h⟩ := except_bind_ok h
  obtain ⟨e2, _, h⟩ := except_bind_ok h
  obtain ⟨e3, _, h⟩ := except_bind_ok h
  obtain ⟨e4, _, h⟩ := except_bind_ok h
  obtain ⟨e5, _, h⟩ := except_bind_ok h
  split at h
  · obtain ⟨n1, _, h⟩ := except_bind_ok h
    obtain ⟨n2, _, h⟩ := except_bind_ok h
    simp only [pure, Except.pure, Except.ok.injEq] at h
    rw [← h]
    simp only [add_deployment_trace]
    rfl
  · simp only [pure, Except.pure, Except.ok.injEq] at h
    rw [← h]
    simp only [add_deployment_trace]
    rfl

theorem analyze_assets_trace {env : BackupEnv} {st st2 : BackupState}
    (h : analyze_assets env st = .ok st2) :
    st2.trace = st.trace ++ [AnalyzePhase.assets] := by
  unfold analyze_assets at h
  dsimp only [] at h
  split at h
  · obtain ⟨n1, _, h⟩ := except_bind_ok h
    obtain ⟨n2, _, h⟩ := except_bind_ok h
    simp only [pure, Except.pure, Except.ok.injEq] at h
    rw [← h]
    simp only [add_deployment_trace]
    rfl
  · simp only [pure, Except.pure, Except.ok.injEq] at h
    rw [← h]
    simp only [add_deployment_trace]
    rfl

/-- Phase ordering (claim C6, amended): every successful `analyze_cluster`
run invokes the `_analyze_*` phases in the fixed source order extensions,
instance, instance identity, instance resources, secret-sync, assets. The
order claimed by the spec (identity federation last and assets before
secret-sync) is refuted by the counterexample below. -/
theorem phase_order_amended (env : BackupEnv) (st2 : BackupState)
    (h : analyze_cluster env = .ok st2) :
    st2.trace = [AnalyzePhase.extensions, AnalyzePhase.instanceMain,
      AnalyzePhase.instanceIdentity, AnalyzePhase.instanceResources,
      AnalyzePhase.secretSync, AnalyzePhase.assets] := by
  unfold analyze_cluster at h
  obtain ⟨p1, hp1, h⟩ := except_bind_ok h
  obtain ⟨p2, hp2, h⟩ := except_bind_ok h
  obtain ⟨p3, hp3, h⟩ := except_bind_ok h
  obtain ⟨p4, hp4, h⟩ := except_bind_ok h
  obtain ⟨p5, hp5, h⟩ := except_bind_ok h
  obtain ⟨p6, hp6, h⟩ := except_bind_ok h
  obtain ⟨p7, hp7, h⟩ := except_bind_ok h
  obtain ⟨p8, hp8, h⟩ := except_bind_ok h
  simp only [pure, Except.pure, Except.ok.injEq] at h
  rw [← h]
  have t0 : (init_state env).trace = [] := rfl
  have t1 := build_parameters_trace hp1
  have t2 := build_metadata_trace hp2
  have t3 := analyze_extensions_trace hp3
  have t4 := analyze_instance_trace hp4
  have t5 := analyze_instance_identity_trace hp5
  have t6 := analyze_instance_resources_trace hp6
  have t7 := analyze_secretsync_trace hp7
  have t8 := analyze_assets_trace hp8
  rw [t8, t7, t6, t5, t4, t3, t2,
    show (build_variables p1).trace = p1.trace from rfl, t1, t0]
  rfl

/-- A complete, successful backup environment: a well-formed instance record,
platform and secret-store extensions, one broker, and no optional
resources. -/
def c6_instance : JObj :=
  [("id", .str "/subscriptions/sub/resourceGroups/rg/providers/Microsoft.IoTOperations/instances/inst1"),
   ("properties", .obj
     [("schemaRegistryRef", .obj
       [("resourceId", .str "/subscriptions/sub/resourceGroups/rg/providers/Microsoft.DeviceRegistry/schemaRegistries/sr1")])]),
   ("extendedLocation", .obj
     [("name", .str "/subscriptions/sub/resourceGroups/rg/providers/Microsoft.ExtendedLocation/customLocations/CL1")])]

def c6_env : BackupEnv :=
  { c8_env with
    instance_record := c6_instance
    custom_location := [("properties", .obj [])]
    extension_map :=
      [(EXTENSION_TYPE_PLATFORM, [("name", .str "ext-platform")]),
       (EXTENSION_TYPE_SSC, [("name", .str "ext-ssc")])]
    brokers :=
      [[("type", .str "Microsoft.IoTOperations/instances/brokers"),
        ("id", .str "/subscriptions/sub/resourceGroups/rg/providers/Microsoft.IoTOperations/instances/inst1/brokers/default"),
        ("name", .str "default"),
        ("properties", .obj [])]] }

/-- The phase order executed by the source. -/
def c6_code_order : List AnalyzePhase :=
  [.extensions, .instanceMain, .instanceIdentity, .instanceResources,
   .secretSync, .assets]

/-- The phase order asserted by the spec (assets and secret-sync before the
identity federation phase). -/
def c6_spec_order : List AnalyzePhase :=
  [.extensions, .instanceMain, .instanceResources, .assets, .secretSync,
   .instanceIdentity]

/-- Counterexample to the spec ordering of claim C6: a successful backup
invocation whose phase trace is the source order, which differs from the
order the spec asserts. -/
theorem phase_order_counterexample :
    (analyze_cluster c6_env).map BackupState.trace = Except.ok c6_code_order ∧
    c6_code_order ≠ c6_spec_order :=
  ⟨rfl, by decide⟩

/-- The state produced by the successful run over `c6_env`. -/
def c6_st : BackupState :=
  match analyze_cluster c6_env with
  | .ok s => s
  | .error _ => init_state c6_env

/-- Witness for the amended claim C6 at the concrete environment. -/
theorem phase_order_amended_witness :
    analyze_cluster c6_env = Except.ok c6_st ∧ c6_st.trace = c6_code_order :=
  ⟨rfl, phase_order_amended c6_env c6_st rfl⟩

/-! Machinery for the dependency-sequencing claim (C1): evaluation of the
deployment `resourceId` reference built from an active deployment name, and
injectivity of that reference in the deployment number. -/

/-- The dependency reference the phases build from an active deployment
name via `get_resource_id_by_parts("Microsoft.Resources/deployments", name)`. -/
def deploymentRef (nm : String) : String :=
  get_resource_id_by_parts "Microsoft.Resources/deployments" [nm]

theorem remFirstLast_wrap (mid : List Char) :
    remFirstLast (String.mk ([',', ' ', '\''] ++ mid ++ ['\''])) '\''
      = String.mk ([',', ' '] ++ mid) := by
  have hfst : firstIdx '\'' ([',', ' ', '\''] ++ mid ++ ['\'']) = some 2 := rfl
  have hrev : ([',', ' ', '\''] ++ mid ++ ['\'']).reverse
      = '\'' :: (mid.reverse ++ ['\'', ' ', ',']) := by
    simp
  have hlast : firstIdx '\'' (([',', ' ', '\''] ++ mid ++ ['\'']).reverse) = some 0 := by
    rw [hrev]
    rfl
  have hlen : ([',', ' ', '\''] ++ mid ++ ['\'']).length = mid.length + 4 := by
    simp
  have hne : ¬ (2 = mid.length + 4 - 1 - 0) := by omega
  have htake : ([',', ' ', '\''] ++ mid ++ ['\'']).take 2 = [',', ' '] := rfl
  have hdrop3 : ([',', ' ', '\''] ++ mid ++ ['\'']).drop (2 + 1) = mid ++ ['\''] := rfl
  have harith : mid.length + 4 - 1 - 0 - 2 - 1 = mid.length := by omega
  have hdropEnd : ([',', ' ', '\''] ++ mid ++ ['\'']).drop (mid.length + 4 - 1 - 0 + 1)
      = [] := by
    apply List.drop_eq_nil_of_le
    omega
  unfold remFirstLast
  dsimp only []
  rw [hfst, hlast]
  dsimp only []
  rw [hlen, if_neg hne, htake, hdrop3, harith, hdropEnd, List.take_left]
  simp

theorem deploymentRef_eval (key : StateResourceKey) (n : Nat) :
    deploymentRef (deploymentNameStr key n)
      = "[resourceId('Microsoft.Resources/deployments', " ++ deploymentNameStr key n ++ ")]" := by
  unfold deploymentRef get_resource_id_by_parts
  dsimp only []
  have hfold : List.foldl (fun acc arg => acc ++ ", '" ++ arg ++ "'") ""
      [deploymentNameStr key n] = ", '" ++ deploymentNameStr key n ++ "'" := rfl
  rw [hfold]
  have hc : containsSub "concat(".data (", '" ++ deploymentNameStr key n ++ "'").data
      = true := rfl
  rw [if_pos hc]
  have hwrap : remFirstLast (", '" ++ deploymentNameStr key n ++ "'") '\''
      = String.mk ([',', ' '] ++ (deploymentNameStr key n).data) :=
    remFirstLast_wrap (deploymentNameStr key n).data
  rw [hwrap]
  apply string_eq_of_data_eq
  simp [String.data_append]

theorem deploymentRef_inj {k1 k2 : StateResourceKey} {a b : Nat}
    (h : deploymentRef (deploymentNameStr k1 a) = deploymentRef (deploymentNameStr k2 b)) :
    deploymentNameStr k1 a = deploymentNameStr k2 b := by
  rw [deploymentRef_eval, deploymentRef_eval] at h
  exact string_append_left_cancel (string_append_right_cancel h)

/-- Cross-category inequality of symbolic names when the difference shows up
only after the `s_` suffix of the shorter category value. -/
theorem symbolicName_ne_cross2 {k1 k2 : StateResourceKey} (a b : Nat)
    (p q r1 r2 : String) (h1 : k1.value ++ "s_" = p ++ r1) (h2 : k2.value ++ "s_" = q ++ r2)
    (hl : p.data.length = q.data.length) (hpq : p ≠ q) :
    symbolicName k1 a ≠ symbolicName k2 b := by
  intro h
  unfold symbolicName at h
  rw [h1, h2, string_append_assoc p r1 (natStr a),
    string_append_assoc q r2 (natStr b)] at h
  exact hpq (string_append_prefix_eq h hl)

/-- A symbolic name never equals a plain literal that differs within the
category value. -/
theorem symbolicName_ne_lit {k : StateResourceKey} (m : Nat) (s p q r1 r2 : String)
    (h1 : k.value = p ++ r1) (h2 : s = q ++ r2)
    (hl : p.data.length = q.data.length) (hpq : p ≠ q) :
    symbolicName k m ≠ s := by
  intro h
  unfold symbolicName at h
  rw [h1, h2, string_append_assoc p r1 "s_",
    string_append_assoc p (r1 ++ "s_") (natStr m)] at h
  exact hpq (string_append_prefix_eq h hl)

theorem add_deployment_chunks_active (key : StateResourceKey) (av : String)
    (dep : Option StrOrList) (par : Option JObj) :
    ∀ (chunks : List (List JObj)) (st : BackupState) (prev : List String),
      chunks ≠ [] →
      (lookupEntry st.active_deployment key).getD [] = prev →
      (add_deployment_chunks key av dep par chunks st).active_deployment
        = setEntry st.active_deployment key
            (prev ++ deploymentNames key prev.length chunks.length) := by
  intro chunks
  induction chunks with
  | nil => intro st prev hne; exact absurd rfl hne
  | cons chunk rest ih =>
      intro st prev _ hprev
      rw [show add_deployment_chunks key av dep par (chunk :: rest) st
          = add_deployment_chunks key av dep par rest
              { (add_deployment_by_key st key).2.2 with
                rcontainer_map := setEntry (add_deployment_by_key st key).2.2.rcontainer_map
                  (add_deployment_by_key st key).1
                  (.dep ((DeploymentContainer.make ("[" ++ (add_deployment_by_key st key).2.1 ++ "]")
                    par dep).add_resources (.key key) av chunk none [])) }
          from rfl]
      simp only [add_deployment_by_key, hprev]
      cases rest with
      | nil =>
          rw [show add_deployment_chunks key av dep par [] _ = _ from rfl]
          rfl
      | cons c2 r2 =>
          rw [ih _ (prev ++ [deploymentNameStr key (prev.length + 1)]) (List.cons_ne_nil _ _)
            (by simp [lookupEntry_setEntry_self])]
          simp only [setEntry_setEntry_same, List.length_append, List.length_singleton,
            List.length_cons, List.append_assoc, List.singleton_append]
          rfl

theorem add_deployment_active (st : BackupState) (key : StateResourceKey) (av : String)
    (data : List JObj) (dep : Option StrOrList) (par : Option JObj) (hne : data ≠ []) :
    (add_deployment st key av data dep par).active_deployment
      = setEntry st.active_deployment key
          ((lookupEntry st.active_deployment key).getD []
            ++ deploymentNames key ((lookupEntry st.active_deployment key).getD []).length
                (chunk_list data st.chunk_size).length) := by
  unfold add_deployment
  rw [if_neg (by simp [List.isEmpty_iff, hne])]
  exact add_deployment_chunks_active key av dep par _ st _
    (chunk_list_ne_nil data hne _) rfl

theorem add_deployment_chunks_rmap_lookup_ne (key : StateResourceKey) (av : String)
    (dep : Option StrOrList) (par : Option JObj) :
    ∀ (chunks : List (List JObj)) (st : BackupState) (s : String),
      (∀ n, s ≠ symbolicName key n) →
      lookupEntry (add_deployment_chunks key av dep par chunks st).rcontainer_map s
        = lookupEntry st.rcontainer_map s := by
  intro chunks
  induction chunks with
  | nil => intro st s _; rfl
  | cons chunk rest ih =>
      intro st s hs
      rw [show add_deployment_chunks key av dep par (chunk :: rest) st
          = add_deployment_chunks key av dep par rest
              { (add_deployment_by_key st key).2.2 with
                rcontainer_map := setEntry (add_deployment_by_key st key).2.2.rcontainer_map
                  (add_deployment_by_key st key).1
                  (.dep ((DeploymentContainer.make ("[" ++ (add_deployment_by_key st key).2.1 ++ "]")
                    par dep).add_resources (.key key) av chunk none [])) }
          from rfl, ih _ s hs]
      exact lookupEntry_setEntry_ne _ _ _ _
        (hs (((lookupEntry st.active_deployment key).getD []).length + 1))

theorem add_deployment_rmap_lookup_ne (st : BackupState) (key : StateResourceKey)
    (av : String) (data : List JObj) (dep : Option StrOrList) (par : Option JObj)
    (s : String) (hs : ∀ n, s ≠ symbolicName key n) :
    lookupEntry (add_deployment st key av data dep par).rcontainer_map s
      = lookupEntry st.rcontainer_map s := by
  unfold add_deployment
  by_cases he : data.isEmpty
  · rw [if_pos he]
  · rw [if_neg he]
    exact add_deployment_chunks_rmap_lookup_ne key av dep par _ st s hs

theorem add_deployment_chunks_lookup_dep (key : StateResourceKey) (av : String)
    (dep : Option StrOrList) (par : Option JObj) :
    ∀ (chunks : List (List JObj)) (st : BackupState) (s : String) (c : Container),
      lookupEntry (add_deployment_chunks key av dep par chunks st).rcontainer_map s
        = some c →
      lookupEntry st.rcontainer_map s = some c ∨
      ∃ dc : DeploymentContainer, c = .dep dc ∧ dc.depends_on = initDependsOn dep ∧
        dc.parameters = par := by
  intro chunks
  induction chunks with
  | nil => intro st s c h; exact Or.inl h
  | cons chunk rest ih =>
      intro st s c h
      rw [show add_deployment_chunks key av dep par (chunk :: rest) st
          = add_deployment_chunks key av dep par rest
              { (add_deployment_by_key st key).2.2 with
                rcontainer_map := setEntry (add_deployment_by_key st key).2.2.rcontainer_map
                  (add_deployment_by_key st key).1
                  (.dep ((DeploymentContainer.make ("[" ++ (add_deployment_by_key st key).2.1 ++ "]")
                    par dep).add_resources (.key key) av chunk none [])) }
          from rfl] at h
      rcases ih _ s c h with h2 | h2
      · by_cases hk : s = (add_deployment_by_key st key).1
        · rw [show (add_deployment_by_key st key).2.2.rcontainer_map = st.rcontainer_map
              from rfl, hk, lookupEntry_setEntry_self] at h2
          cases h2
          exact Or.inr ⟨_, rfl, rfl, rfl⟩
        · rw [show (add_deployment_by_key st key).2.2.rcontainer_map = st.rcontainer_map
              from rfl, lookupEntry_setEntry_ne _ _ _ _ hk] at h2
          exact Or.inl h2
      · exact Or.inr h2

theorem add_deployment_lookup_dep (st : BackupState) (key : StateResourceKey)
    (av : String) (data : List JObj) (dep : Option StrOrList) (par : Option JObj)
    (s : String) (c : Container)
    (hnone : lookupEntry st.rcontainer_map s = none)
    (hsome : lookupEntry (add_deployment st key av data dep par).rcontainer_map s
      = some c) :
    ∃ dc : DeploymentContainer, c = .dep dc ∧ dc.depends_on = initDependsOn dep ∧
      dc.parameters = par := by
  unfold add_deployment at hsome
  by_cases he : data.isEmpty
  · rw [if_pos he] at hsome
    rw [hnone] at hsome
    exact absurd hsome (by simp)
  · rw [if_neg he] at hsome
    rcases add_deployment_chunks_lookup_dep key av dep par _ st s c hsome with h2 | h2
    · rw [hnone] at h2
      exact absurd h2 (by simp)
    · exact h2

/-! The concrete symbolic-name disjointness facts used while tracing the
phases: every pair of categories touched in one phase generates disjoint
symbolic names, and no symbolic name collides with the broker resource
key. -/

theorem sym_listener_ne_authn (a b : Nat) :
    symbolicName .LISTENER a ≠ symbolicName .AUTHN b :=
  symbolicName_ne_cross2 a b "l" "a" "isteners_" "uthns_" (by decide) (by decide)
    (by decide) (by decide)

theorem sym_listener_ne_authz (a b : Nat) :
    symbolicName .LISTENER a ≠ symbolicName .AUTHZ b :=
  symbolicName_ne_cross2 a b "l" "a" "isteners_" "uthzs_" (by decide) (by decide)
    (by decide) (by decide)

theorem sym_listener_ne_dataflow (a b : Nat) :
    symbolicName .LISTENER a ≠ symbolicName .DATAFLOW b :=
  symbolicName_ne_cross2 a b "l" "d" "isteners_" "ataflows_" (by decide) (by decide)
    (by decide) (by decide)

theorem sym_listener_ne_profile (a b : Nat) :
    symbolicName .LISTENER a ≠ symbolicName .PROFILE b :=
  symbolicName_ne_cross2 a b "l" "d" "isteners_" "ataflowProfiles_" (by decide) (by decide)
    (by decide) (by decide)

theorem sym_listener_ne_endpoint (a b : Nat) :
    symbolicName .LISTENER a ≠ symbolicName .ENDPOINT b :=
  symbolicName_ne_cross2 a b "l" "d" "isteners_" "ataflowEndpoints_" (by decide) (by decide)
    (by decide) (by decide)

theorem sym_dataflow_ne_authn (a b : Nat) :
    symbolicName .DATAFLOW a ≠ symbolicName .AUTHN b :=
  symbolicName_ne_cross2 a b "d" "a" "ataflows_" "uthns_" (by decide) (by decide)
    (by decide) (by decide)

theorem sym_dataflow_ne_authz (a b : Nat) :
    symbolicName .DATAFLOW a ≠ symbolicName .AUTHZ b :=
  symbolicName_ne_cross2 a b "d" "a" "ataflows_" "uthzs_" (by decide) (by decide)
    (by decide) (by decide)

theorem sym_dataflow_ne_listener (a b : Nat) :
    symbolicName .DATAFLOW a ≠ symbolicName .LISTENER b :=
  symbolicName_ne_cross2 a b "d" "l" "ataflows_" "isteners_" (by decide) (by decide)
    (by decide) (by decide)

theorem sym_dataflow_ne_profile (a b : Nat) :
    symbolicName .DATAFLOW a ≠ symbolicName .PROFILE b :=
  symbolicName_ne_cross2 a b "dataflows" "dataflowP" "_" "rofiles_" (by decide) (by decide)
    (by decide) (by decide)

theorem sym_dataflow_ne_endpoint (a b : Nat) :
    symbolicName .DATAFLOW a ≠ symbolicName .ENDPOINT b :=
  symbolicName_ne_cross2 a b "dataflows" "dataflowE" "_" "ndpoints_" (by decide) (by decide)
    (by decide) (by decide)

theorem sym_asset_ne_aep (a b : Nat) :
    symbolicName .ASSET a ≠ symbolicName .ASSET_ENDPOINT_PROFILE b :=
  symbolicName_ne_cross2 a b "assets" "assetE" "_" "ndpointProfiles_" (by decide) (by decide)
    (by decide) (by decide)

theorem sym_secretsync_ne_spc (a b : Nat) :
    symbolicName .SSC_SECRETSYNC a ≠ symbolicName .SSC_SPC b :=
  symbolicName_ne_cross2 a b "secretS" "secretP" "yncs_" "roviderClasss_" (by decide)
    (by decide) (by decide) (by decide)

theorem sym_listener_ne_broker (a : Nat) : symbolicName .LISTENER a ≠ "broker" :=
  symbolicName_ne_lit a "broker" "l" "b" "istener" "roker" (by decide) (by decide)
    (by decide) (by decide)

theorem sym_dataflow_ne_broker (a : Nat) : symbolicName .DATAFLOW a ≠ "broker" :=
  symbolicName_ne_lit a "broker" "d" "b" "ataflow" "roker" (by decide) (by decide)
    (by decide) (by decide)

theorem dns_authn_ne_authz (a b : Nat) :
    deploymentNameStr .AUTHN a ≠ deploymentNameStr .AUTHZ b :=
  deploymentNameStr_ne_cross a b "authn" "authz" "" "" (by decide) (by decide)
    (by decide) (by decide)

theorem listener_dep_step_hit (key : StateResourceKey)
    (hk : key = StateResourceKey.AUTHN ∨ key = StateResourceKey.AUTHZ)
    (acc : List String) (m : Nat) (hm : 1 ≤ m) :
    listener_dep_step acc (key, deploymentNames key 0 m)
      = Except.ok (acc ++ [deploymentRef (deploymentNameStr key m)]) := by
  unfold listener_dep_step
  dsimp only []
  rw [if_pos hk, deploymentNames_getLast key m 0 hm]
  rw [show (0 : Nat) + m = m from by omega]
  rfl

theorem add_deployment_chunks_chunk_size (key : StateResourceKey) (av : String)
    (dep : Option StrOrList) (par : Option JObj) :
    ∀ (chunks : List (List JObj)) (st : BackupState),
      (add_deployment_chunks key av dep par chunks st).chunk_size = st.chunk_size := by
  intro chunks
  induction chunks with
  | nil => intro st; rfl
  | cons c r ih =>
      intro st
      rw [show add_deployment_chunks key av dep par (c :: r) st
          = add_deployment_chunks key av dep par r
              { (add_deployment_by_key st key).2.2 with
                rcontainer_map := setEntry (add_deployment_by_key st key).2.2.rcontainer_map
                  (add_deployment_by_key st key).1
                  (.dep ((DeploymentContainer.make ("[" ++ (add_deployment_by_key st key).2.1 ++ "]")
                    par dep).add_resources (.key key) av c none [])) }
          from rfl, ih]
      rfl

theorem add_deployment_chunk_size (st : BackupState) (key : StateResourceKey)
    (av : String) (data : List JObj) (dep : Option StrOrList) (par : Option JObj) :
    (add_deployment st key av data dep par).chunk_size = st.chunk_size := by
  unfold add_deployment
  by_cases he : data.isEmpty
  · rw [if_pos he]
  · rw [if_neg he]
    exact add_deployment_chunks_chunk_size key av dep par _ st

/-- The asset edge of the dependency-sequencing invariant, proved against
`_analyze_assets` run on a state with no active deployments and no
symbolically named containers. -/
theorem asset_edge (env : BackupEnv) (st st' : BackupState)
    (hact : st.active_deployment = [])
    (hfresh : ∀ (k : StateResourceKey) (n : Nat),
      lookupEntry st.rcontainer_map (symbolicName k n) = none)
    (h : analyze_assets env st = .ok st') :
    ∀ (n : Nat) (dc : DeploymentContainer),
      lookupEntry st'.rcontainer_map (symbolicName .ASSET n) = some (.dep dc) →
      dc.depends_on = some [deploymentRef (deploymentNameStr .ASSET_ENDPOINT_PROFILE
        (chunk_list env.asset_endpoints st.chunk_size).length)] := by
  intro n dc hlook
  unfold analyze_assets at h
  dsimp only [] at h
  split at h
  · rename_i hcond
    have hEne : env.asset_endpoints ≠ [] := by
      intro hh
      rw [hh] at hcond
      simp at hcond
    have hlenE : 1 ≤ (chunk_list env.asset_endpoints st.chunk_size).length := by
      have := chunk_list_ne_nil env.asset_endpoints hEne st.chunk_size
      cases hc : chunk_list env.asset_endpoints st.chunk_size with
      | nil => exact absurd hc this
      | cons a r => simp
    obtain ⟨names, hnames, h⟩ := except_bind_ok h
    obtain ⟨last, hlast, h⟩ := except_bind_ok h
    simp only [pure, Except.pure, Except.ok.injEq] at h
    rw [add_deployment_active _ _ _ _ _ _ hEne] at hnames
    simp only [logPhase] at hnames
    rw [hact] at hnames
    simp only [lookupEntry, Option.getD, List.length_nil, List.nil_append,
      lookupEntry_setEntry_self] at hnames
    have hnames2 := okOr_ok hnames
    cases hnames2
    rw [deploymentNames_getLast _ _ _ hlenE] at hlast
    have hlast2 := okOr_ok hlast
    cases hlast2
    rw [← h] at hlook
    have hnoneAEP : lookupEntry (add_deployment (logPhase st .assets)
        .ASSET_ENDPOINT_PROFILE REGISTRY_API_VERSION env.asset_endpoints
        (some (.str (get_resource_id_by_param "microsoft.iotoperations/instances"
          "instanceName")))
        (some (updateObj (build_parameter "customLocationName" "string" none none)
          (build_parameter "instanceName" "string" none none)))).rcontainer_map
        (symbolicName .ASSET n) = none := by
      rw [add_deployment_rmap_lookup_ne _ _ _ _ _ _ _ (fun m => sym_asset_ne_aep n m)]
      exact hfresh .ASSET n
    obtain ⟨dc', hdc', hdep, _⟩ :=
      add_deployment_lookup_dep _ _ _ _ _ _ _ _ hnoneAEP hlook
    cases hdc'
    rw [hdep]
    rw [show (0 : Nat) + (chunk_list env.asset_endpoints st.chunk_size).length
        = (chunk_list env.asset_endpoints st.chunk_size).length from by omega]
    rfl
  · simp only [pure, Except.pure, Except.ok.injEq] at h
    rw [← h] at hlook
    rw [add_deployment_rmap_lookup_ne _ _ _ _ _ _ _ (fun m => sym_asset_ne_aep n m)]
      at hlook
    rw [show (logPhase st .assets).rcontainer_map = st.rcontainer_map from rfl,
      hfresh .ASSET n] at hlook
    exact absurd hlook (by simp)

/-- The listener and dataflow edges of the dependency-sequencing invariant,
proved against `_analyze_instance_resources` run on a state with no active
deployments and no symbolically named containers. -/
theorem instance_resources_edges (env : BackupEnv) (st st' : BackupState)
    (hact : st.active_deployment = [])
    (hfresh : ∀ (k : StateResourceKey) (n : Nat),
      lookupEntry st.rcontainer_map (symbolicName k n) = none)
    (h : analyze_instance_resources env st = .ok st') :
    (∀ (n : Nat) (dc : DeploymentContainer),
      lookupEntry st'.rcontainer_map (symbolicName .LISTENER n) = some (.dep dc) →
      dc.depends_on = some (
        (if env.broker_authentications.isEmpty then [] else
          [deploymentRef (deploymentNameStr .AUTHN
            (chunk_list env.broker_authentications st.chunk_size).length)]) ++
        (if env.broker_authorizations.isEmpty then [] else
          [deploymentRef (deploymentNameStr .AUTHZ
            (chunk_list env.broker_authorizations st.chunk_size).length)]))) ∧
    (∀ (n : Nat) (dc : DeploymentContainer),
      lookupEntry st'.rcontainer_map (symbolicName .DATAFLOW n) = some (.dep dc) →
      dc.depends_on = some [deploymentRef (deploymentNameStr .PROFILE
        (chunk_list env.dataflow_profiles st.chunk_size).length)]) := by
  unfold analyze_instance_resources at h
  dsimp only [] at h
  obtain ⟨b1, hb1, h⟩ := except_bind_ok h
  obtain ⟨b2, hb2, h⟩ := except_bind_ok h
  obtain ⟨b3, hb3, h⟩ := except_bind_ok h
  obtain ⟨b4, hb4, h⟩ := except_bind_ok h
  obtain ⟨b5, hb5, h⟩ := except_bind_ok h
  obtain ⟨b6, hb6, h⟩ := except_bind_ok h
  obtain ⟨b7, hb7, h⟩ := except_bind_ok h
  obtain ⟨b8, hb8, h⟩ := except_bind_ok h
  have hb8v : b8 = (if env.broker_authentications.isEmpty then [] else
      [deploymentRef (deploymentNameStr .AUTHN
        (chunk_list env.broker_authentications st.chunk_size).length)]) ++
      (if env.broker_authorizations.isEmpty then [] else
      [deploymentRef (deploymentNameStr .AUTHZ
        (chunk_list env.broker_authorizations st.chunk_size).length)]) := by
    by_cases hA : env.broker_authentications = []
    · by_cases hZ : env.broker_authorizations = []
      · rw [hA, hZ, add_deployment_nil, add_deployment_nil] at hb8
        simp only [add_resource, logPhase] at hb8
        rw [hact] at hb8
        simp only [List.foldlM, pure, Except.pure, Except.ok.injEq] at hb8
        simp [hA, hZ, ← hb8]
      · have hmZ : 1 ≤ (chunk_list env.broker_authorizations st.chunk_size).length := by
          have := chunk_list_ne_nil env.broker_authorizations hZ st.chunk_size
          cases hc : chunk_list env.broker_authorizations st.chunk_size with
          | nil => exact absurd hc this
          | cons a r => simp
        rw [hA, add_deployment_nil] at hb8
        rw [add_deployment_active _ _ _ _ _ _ hZ] at hb8
        simp only [add_resource, logPhase] at hb8
        rw [hact] at hb8
        simp only [lookupEntry, Option.getD, List.length_nil, List.nil_append,
          setEntry] at hb8
        simp only [List.foldlM,
          listener_dep_step_hit .AUTHZ (Or.inr rfl) []
            ((chunk_list env.broker_authorizations st.chunk_size).length) hmZ,
          except_ok_bind, List.nil_append, pure, Except.pure, Except.ok.injEq] at hb8
        have hAe : env.broker_authentications.isEmpty = true := by
          rw [hA]
          rfl
        have hZe : env.broker_authorizations.isEmpty = false := by
          cases hx : env.broker_authorizations with
          | nil => exact absurd hx hZ
          | cons a r => rfl
        simp [hAe, hZe, ← hb8]
    · have hmA : 1 ≤ (chunk_list env.broker_authentications st.chunk_size).length := by
        have := chunk_list_ne_nil env.broker_authentications hA st.chunk_size
        cases hc : chunk_list env.broker_authentications st.chunk_size with
        | nil => exact absurd hc this
        | cons a r => simp
      have hAe : env.broker_authentications.isEmpty = false := by
        cases hx : env.broker_authentications with
        | nil => exact absurd hx hA
        | cons a r => rfl
      by_cases hZ : env.broker_authorizations = []
      · rw [hZ, add_deployment_nil] at hb8
        rw [add_deployment_active _ _ _ _ _ _ hA] at hb8
        simp only [add_resource, logPhase] at hb8
        rw [hact] at hb8
        simp only [lookupEntry, Option.getD, List.length_nil, List.nil_append,
          setEntry] at hb8
        simp only [List.foldlM,
          listener_dep_step_hit .AUTHN (Or.inl rfl) []
            ((chunk_list env.broker_authentications st.chunk_size).length) hmA,
          except_ok_bind, List.nil_append, pure, Except.pure, Except.ok.injEq] at hb8
        simp [hAe, hZ, ← hb8]
      · have hmZ : 1 ≤ (chunk_list env.broker_authorizations st.chunk_size).length := by
          have := chunk_list_ne_nil env.broker_authorizations hZ st.chunk_size
          cases hc : chunk_list env.broker_authorizations st.chunk_size with
          | nil => exact absurd hc this
          | cons a r => simp
        have hZe : env.broker_authorizations.isEmpty = false := by
          cases hx : env.broker_authorizations with
          | nil => exact absurd hx hZ
          | cons a r => rfl
        have hlk0 : ∀ (k : StateResourceKey),
            lookupEntry ([] : List (StateResourceKey × List String)) k = none := by
          intro k
          simp [lookupEntry]
        have hse0 : ∀ (k : StateResourceKey) (v : List String),
            setEntry ([] : List (StateResourceKey × List String)) k v = [(k, v)] := by
          intro k v
          simp [setEntry]
        have hlk2 : ∀ x : List String,
            lookupEntry [(StateResourceKey.AUTHN, x)] StateResourceKey.AUTHZ = none := by
          intro x
          simp [lookupEntry]
        have hse2 : ∀ (x y : List String),
            setEntry [(StateResourceKey.AUTHN, x)] StateResourceKey.AUTHZ y
              = [(StateResourceKey.AUTHN, x), (StateResourceKey.AUTHZ, y)] := by
          intro x y
          simp [setEntry]
        rw [add_deployment_active _ _ _ _ _ _ hZ] at hb8
        rw [add_deployment_chunk_size] at hb8
        rw [add_deployment_active _ _ _ _ _ _ hA] at hb8
        simp only [add_resource, logPhase] at hb8
        rw [hact] at hb8
        simp only [hlk0, hse0, Option.getD, List.length_nil, List.nil_append] at hb8
        simp only [hlk2, hse2, Option.getD, List.length_nil, List.nil_append] at hb8
        simp only [List.foldlM,
          listener_dep_step_hit .AUTHN (Or.inl rfl) []
            ((chunk_list env.broker_authentications st.chunk_size).length) hmA,
          except_ok_bind, List.nil_append,
          listener_dep_step_hit .AUTHZ (Or.inr rfl)
            [deploymentRef (deploymentNameStr .AUTHN
              (chunk_list env.broker_authentications st.chunk_size).length)]
            ((chunk_list env.broker_authorizations st.chunk_size).length) hmZ,
          pure, Except.pure, Except.ok.injEq] at hb8
        simp [hAe, hZe, ← hb8]
  split at h
  · constructor
    · intro n dc hlook
      simp only [pure, Except.pure, Except.ok.injEq] at h
      rw [← h] at hlook
      rw [add_deployment_rmap_lookup_ne _ .PROFILE _ _ _ _ _
        (fun m => sym_listener_ne_profile n m)] at hlook
      rw [add_deployment_rmap_lookup_ne _ .ENDPOINT _ _ _ _ _
        (fun m => sym_listener_ne_endpoint n m)] at hlook
      have happ := fun hn => add_deployment_lookup_dep _ _ _ _ _ _ _ _ hn hlook
      obtain ⟨dc', hdc', hdep, -⟩ := happ (by
        rw [add_deployment_rmap_lookup_ne _ .AUTHZ _ _ _ _ _
          (fun m => sym_listener_ne_authz n m)]
        rw [add_deployment_rmap_lookup_ne _ .AUTHN _ _ _ _ _
          (fun m => sym_listener_ne_authn n m)]
        simp only [add_resource, logPhase, KeyOrStr.toStr, StateResourceKey.value]
        rw [lookupEntry_setEntry_ne _ _ _ _ (sym_listener_ne_broker n)]
        exact hfresh .LISTENER n)
      injection hdc' with hdc2
      rw [hdc2, hdep, ← hb8v]
      rfl
    · intro n dc hlook
      simp only [pure, Except.pure, Except.ok.injEq] at h
      rw [← h] at hlook
      rw [add_deployment_rmap_lookup_ne _ .PROFILE _ _ _ _ _
        (fun m => sym_dataflow_ne_profile n m)] at hlook
      rw [add_deployment_rmap_lookup_ne _ .ENDPOINT _ _ _ _ _
        (fun m => sym_dataflow_ne_endpoint n m)] at hlook
      rw [add_deployment_rmap_lookup_ne _ .LISTENER _ _ _ _ _
        (fun m => sym_dataflow_ne_listener n m)] at hlook
      rw [add_deployment_rmap_lookup_ne _ .AUTHZ _ _ _ _ _
        (fun m => sym_dataflow_ne_authz n m)] at hlook
      rw [add_deployment_rmap_lookup_ne _ .AUTHN _ _ _ _ _
        (fun m => sym_dataflow_ne_authn n m)] at hlook
      simp only [add_resource, logPhase, KeyOrStr.toStr, StateResourceKey.value] at hlook
      rw [lookupEntry_setEntry_ne _ _ _ _ (sym_dataflow_ne_broker n),
        hfresh .DATAFLOW n] at hlook
      exact absurd hlook (by simp)
  · rename_i hcond
    have hPne : env.dataflow_profiles ≠ [] := by
      intro hh
      rw [hh] at hcond
      simp at hcond
    have hmP : 1 ≤ (chunk_list env.dataflow_profiles st.chunk_size).length := by
      have := chunk_list_ne_nil env.dataflow_profiles hPne st.chunk_size
      cases hc : chunk_list env.dataflow_profiles st.chunk_size with
      | nil => exact absurd hc this
      | cons a r => simp
    obtain ⟨dfs, hdfs, h⟩ := except_bind_ok h
    obtain ⟨pn, hpn, h⟩ := except_bind_ok h
    obtain ⟨lp, hlp, h⟩ := except_bind_ok h
    rw [add_deployment_active _ _ _ _ _ _ hPne, lookupEntry_setEntry_self] at hpn
    rw [add_deployment_active_other _ .ENDPOINT _ _ _ _ .PROFILE (by decide)] at hpn
    rw [add_deployment_active_other _ .LISTENER _ _ _ _ .PROFILE (by decide)] at hpn
    rw [add_deployment_active_other _ .AUTHZ _ _ _ _ .PROFILE (by decide)] at hpn
    rw [add_deployment_active_other _ .AUTHN _ _ _ _ .PROFILE (by decide)] at hpn
    rw [add_deployment_chunk_size, add_deployment_chunk_size, add_deployment_chunk_size,
      add_deployment_chunk_size] at hpn
    simp only [add_resource, logPhase] at hpn
    rw [hact] at hpn
    simp only [lookupEntry, Option.getD, List.length_nil, List.nil_append] at hpn
    have hpn2 := okOr_ok hpn
    injection hpn2 with hpn3
    subst hpn3
    rw [deploymentNames_getLast _ _ _ hmP] at hlp
    have hlp2 := okOr_ok hlp
    injection hlp2 with hlp3
    subst hlp3
    constructor
    · intro n dc hlook
      simp only [pure, Except.pure, Except.ok.injEq] at h
      rw [← h] at hlook
      rw [add_deployment_rmap_lookup_ne _ .DATAFLOW _ _ _ _ _
        (fun m => sym_listener_ne_dataflow n m)] at hlook
      rw [add_deployment_rmap_lookup_ne _ .PROFILE _ _ _ _ _
        (fun m => sym_listener_ne_profile n m)] at hlook
      rw [add_deployment_rmap_lookup_ne _ .ENDPOINT _ _ _ _ _
        (fun m => sym_listener_ne_endpoint n m)] at hlook
      have happ := fun hn => add_deployment_lookup_dep _ _ _ _ _ _ _ _ hn hlook
      obtain ⟨dc', hdc', hdep, -⟩ := happ (by
        rw [add_deployment_rmap_lookup_ne _ .AUTHZ _ _ _ _ _
          (fun m => sym_listener_ne_authz n m)]
        rw [add_deployment_rmap_lookup_ne _ .AUTHN _ _ _ _ _
          (fun m => sym_listener_ne_authn n m)]
        simp only [add_resource, logPhase, KeyOrStr.toStr, StateResourceKey.value]
        rw [lookupEntry_setEntry_ne _ _ _ _ (sym_listener_ne_broker n)]
        exact hfresh .LISTENER n)
      injection hdc' with hdc2
      rw [hdc2, hdep, ← hb8v]
      rfl
    · intro n dc hlook
      simp only [pure, Except.pure, Except.ok.injEq] at h
      rw [← h] at hlook
      have happ := fun hn => add_deployment_lookup_dep _ _ _ _ _ _ _ _ hn hlook
      obtain ⟨dc', hdc', hdep, -⟩ := happ (by
        rw [add_deployment_rmap_lookup_ne _ .PROFILE _ _ _ _ _
          (fun m => sym_dataflow_ne_profile n m)]
        rw [add_deployment_rmap_lookup_ne _ .ENDPOINT _ _ _ _ _
          (fun m => sym_dataflow_ne_endpoint n m)]
        rw [add_deployment_rmap_lookup_ne _ .LISTENER _ _ _ _ _
          (fun m => sym_dataflow_ne_listener n m)]
        rw [add_deployment_rmap_lookup_ne _ .AUTHZ _ _ _ _ _
          (fun m => sym_dataflow_ne_authz n m)]
        rw [add_deployment_rmap_lookup_ne _ .AUTHN _ _ _ _ _
          (fun m => sym_dataflow_ne_authn n m)]
        simp only [add_resource, logPhase, KeyOrStr.toStr, StateResourceKey.value]
        rw [lookupEntry_setEntry_ne _ _ _ _ (sym_dataflow_ne_broker n)]
        exact hfresh .DATAFLOW n)
      injection hdc' with hdc2
      rw [hdc2, hdep]
      rw [show (0 : Nat) + (chunk_list env.dataflow_profiles st.chunk_size).length
          = (chunk_list env.dataflow_profiles st.chunk_size).length from by omega]
      rfl

/-- The secret-sync edge of the dependency-sequencing invariant, proved
against `_analyze_secretsync` run on a state with no active deployments and
no symbolically named containers. -/
theorem secretsync_edge (env : BackupEnv) (st st' : BackupState)
    (hact : st.active_deployment = [])
    (hfresh : ∀ (k : StateResourceKey) (n : Nat),
      lookupEntry st.rcontainer_map (symbolicName k n) = none)
    (eid : String) (fspcs : List JObj)
    (heid : extLocIdOf st.instance_record = .ok eid)
    (hfspcs : extLocFilter eid env.ssc_spcs = .ok fspcs)
    (h : analyze_secretsync env st = .ok st') :
    ∀ (n : Nat) (dc : DeploymentContainer),
      lookupEntry st'.rcontainer_map (symbolicName .SSC_SECRETSYNC n) = some (.dep dc) →
      dc.depends_on = some [deploymentRef (deploymentNameStr .SSC_SPC
        (chunk_list fspcs st.chunk_size).length)] := by
  intro n dc hlook
  unfold analyze_secretsync at h
  dsimp only [] at h
  obtain ⟨e1, he1, h⟩ := except_bind_ok h
  have he1b : extLocIdOf st.instance_record = Except.ok e1 := he1
  rw [heid] at he1b
  injection he1b with he1c
  subst he1c
  obtain ⟨e2, he2, h⟩ := except_bind_ok h
  have he2b : extLocFilter eid env.ssc_spcs = Except.ok e2 := he2
  rw [hfspcs] at he2b
  injection he2b with he2c
  subst he2c
  obtain ⟨e3, he3, h⟩ := except_bind_ok h
  obtain ⟨e4, he4, h⟩ := except_bind_ok h
  obtain ⟨e5, he5, h⟩ := except_bind_ok h
  split at h
  · rename_i hcond
    have hSne : fspcs ≠ [] := by
      intro hh
      rw [hh] at hcond
      simp at hcond
    have hlenF : 1 ≤ (chunk_list fspcs st.chunk_size).length := by
      have := chunk_list_ne_nil fspcs hSne st.chunk_size
      cases hc : chunk_list fspcs st.chunk_size with
      | nil => exact absurd hc this
      | cons a r => simp
    obtain ⟨names, hnames, h⟩ := except_bind_ok h
    obtain ⟨last, hlast, h⟩ := except_bind_ok h
    simp only [pure, Except.pure, Except.ok.injEq] at h
    rw [add_deployment_active _ _ _ _ _ _ hSne] at hnames
    simp only [logPhase] at hnames
    rw [hact] at hnames
    simp only [lookupEntry, Option.getD, List.length_nil, List.nil_append,
      lookupEntry_setEntry_self] at hnames
    have hnames2 := okOr_ok hnames
    cases hnames2
    rw [deploymentNames_getLast _ _ _ hlenF] at hlast
    have hlast2 := okOr_ok hlast
    cases hlast2
    rw [← h] at hlook
    have hnoneSPC : lookupEntry (add_deployment
        { logPhase st .secretSync with
          instance_identities := (logPhase st .secretSync).instance_identities ++ e4 }
        .SSC_SPC env.ssc_api_version fspcs
        (some (.str (get_resource_id_by_param "microsoft.iotoperations/instances"
          "instanceName")))
        (some (updateObj (build_parameter "customLocationName" "string" none none)
          (build_parameter "instanceName" "string" none none)))).rcontainer_map
        (symbolicName .SSC_SECRETSYNC n) = none := by
      rw [add_deployment_rmap_lookup_ne _ _ _ _ _ _ _ (fun m => sym_secretsync_ne_spc n m)]
      exact hfresh .SSC_SECRETSYNC n
    obtain ⟨dc', hdc', hdep, _⟩ :=
      add_deployment_lookup_dep _ _ _ _ _ _ _ _ hnoneSPC hlook
    cases hdc'
    rw [hdep]
    rw [show (0 : Nat) + (chunk_list fspcs st.chunk_size).length
        = (chunk_list fspcs st.chunk_size).length from by omega]
    rfl
  · simp only [pure, Except.pure, Except.ok.injEq] at h
    rw [← h] at hlook
    rw [add_deployment_rmap_lookup_ne _ _ _ _ _ _ _
      (fun m => sym_secretsync_ne_spc n m)] at hlook
    rw [show ({ logPhase st .secretSync with
        instance_identities := (logPhase st .secretSync).instance_identities ++ e4 } :
        BackupState).rcontainer_map = st.rcontainer_map from rfl,
      hfresh .SSC_SECRETSYNC n] at hlook
    exact absurd hlook (by simp)

/-- Dependency sequencing (claim C1): for each depends-on edge of the
orchestration (listener on authn/authz, dataflow on profile, asset on
asset-endpoint-profile, secret-sync on secret-provider-class), every
deployment container of the dependent category renders a dependency list
that references the last registered deployment of the prerequisite
category and no earlier one, and an empty prerequisite category
contributes an empty dependency list for that edge. -/
theorem dependency_sequencing :
    (∀ (env : BackupEnv) (st st' : BackupState),
      st.active_deployment = [] →
      (∀ (k : StateResourceKey) (n : Nat),
        lookupEntry st.rcontainer_map (symbolicName k n) = none) →
      analyze_instance_resources env st = .ok st' →
      (∀ (n : Nat) (dc : DeploymentContainer),
        lookupEntry st'.rcontainer_map (symbolicName .LISTENER n) = some (.dep dc) →
        dc.depends_on = some (
          (if env.broker_authentications.isEmpty then [] else
            [deploymentRef (deploymentNameStr .AUTHN
              (chunk_list env.broker_authentications st.chunk_size).length)]) ++
          (if env.broker_authorizations.isEmpty then [] else
            [deploymentRef (deploymentNameStr .AUTHZ
              (chunk_list env.broker_authorizations st.chunk_size).length)])) ∧
        (∀ j, 1 ≤ j → j < (chunk_list env.broker_authentications st.chunk_size).length →
          deploymentRef (deploymentNameStr .AUTHN j) ∉
            (if env.broker_authentications.isEmpty then [] else
              [deploymentRef (deploymentNameStr .AUTHN
                (chunk_list env.broker_authentications st.chunk_size).length)]) ++
            (if env.broker_authorizations.isEmpty then [] else
              [deploymentRef (deploymentNameStr .AUTHZ
                (chunk_list env.broker_authorizations st.chunk_size).length)])) ∧
        (∀ j, 1 ≤ j → j < (chunk_list env.broker_authorizations st.chunk_size).length →
          deploymentRef (deploymentNameStr .AUTHZ j) ∉
            (if env.broker_authentications.isEmpty then [] else
              [deploymentRef (deploymentNameStr .AUTHN
                (chunk_list env.broker_authentications st.chunk_size).length)]) ++
            (if env.broker_authorizations.isEmpty then [] else
              [deploymentRef (deploymentNameStr .AUTHZ
                (chunk_list env.broker_authorizations st.chunk_size).length)]))) ∧
      (∀ (n : Nat) (dc : DeploymentContainer),
        lookupEntry st'.rcontainer_map (symbolicName .DATAFLOW n) = some (.dep dc) →
        dc.depends_on = some [deploymentRef (deploymentNameStr .PROFILE
          (chunk_list env.dataflow_profiles st.chunk_size).length)] ∧
        (∀ j, 1 ≤ j → j < (chunk_list env.dataflow_profiles st.chunk_size).length →
          deploymentRef (deploymentNameStr .PROFILE j) ∉
            [deploymentRef (deploymentNameStr .PROFILE
              (chunk_list env.dataflow_profiles st.chunk_size).length)]))) ∧
    (∀ (env : BackupEnv) (st st' : BackupState),
      st.active_deployment = [] →
      (∀ (k : StateResourceKey) (n : Nat),
        lookupEntry st.rcontainer_map (symbolicName k n) = none) →
      analyze_assets env st = .ok st' →
      ∀ (n : Nat) (dc : DeploymentContainer),
        lookupEntry st'.rcontainer_map (symbolicName .ASSET n) = some (.dep dc) →
        dc.depends_on = some [deploymentRef (deploymentNameStr .ASSET_ENDPOINT_PROFILE
          (chunk_list env.asset_endpoints st.chunk_size).length)] ∧
        (∀ j, 1 ≤ j → j < (chunk_list env.asset_endpoints st.chunk_size).length →
          deploymentRef (deploymentNameStr .ASSET_ENDPOINT_PROFILE j) ∉
            [deploymentRef (deploymentNameStr .ASSET_ENDPOINT_PROFILE
              (chunk_list env.asset_endpoints st.chunk_size).length)])) ∧
    (∀ (env : BackupEnv) (st st' : BackupState) (eid : String) (fspcs : List JObj),
      st.active_deployment = [] →
      (∀ (k : StateResourceKey) (n : Nat),
        lookupEntry st.rcontainer_map (symbolicName k n) = none) →
      extLocIdOf st.instance_record = .ok eid →
      extLocFilter eid env.ssc_spcs = .ok fspcs →
      analyze_secretsync env st = .ok st' →
      ∀ (n : Nat) (dc : DeploymentContainer),
        lookupEntry st'.rcontainer_map (symbolicName .SSC_SECRETSYNC n) = some (.dep dc) →
        dc.depends_on = some [deploymentRef (deploymentNameStr .SSC_SPC
          (chunk_list fspcs st.chunk_size).length)] ∧
        (∀ j, 1 ≤ j → j < (chunk_list fspcs st.chunk_size).length →
          deploymentRef (deploymentNameStr .SSC_SPC j) ∉
            [deploymentRef (deploymentNameStr .SSC_SPC
              (chunk_list fspcs st.chunk_size).length)])) := by
  refine ⟨?_, ?_, ?_⟩
  · intro env st st' hact hfresh h
    obtain ⟨hL, hD⟩ := instance_resources_edges env st st' hact hfresh h
    constructor
    · intro n dc hlook
      refine ⟨hL n dc hlook, ?_, ?_⟩
      · intro j h1 h2 hmem
        rcases List.mem_append.mp hmem with hm | hm
        · by_cases hA : env.broker_authentications.isEmpty
          · rw [if_pos hA] at hm
            simp at hm
          · rw [if_neg hA] at hm
            simp only [List.mem_singleton] at hm
            have := deploymentNameStr_inj_n .AUTHN (deploymentRef_inj hm)
            omega
        · by_cases hZ : env.broker_authorizations.isEmpty
          · rw [if_pos hZ] at hm
            simp at hm
          · rw [if_neg hZ] at hm
            simp only [List.mem_singleton] at hm
            exact dns_authn_ne_authz _ _ (deploymentRef_inj hm)
      · intro j h1 h2 hmem
        rcases List.mem_append.mp hmem with hm | hm
        · by_cases hA : env.broker_authentications.isEmpty
          · rw [if_pos hA] at hm
            simp at hm
          · rw [if_neg hA] at hm
            simp only [List.mem_singleton] at hm
            exact dns_authn_ne_authz _ _ (deploymentRef_inj hm).symm
        · by_cases hZ : env.broker_authorizations.isEmpty
          · rw [if_pos hZ] at hm
            simp at hm
          · rw [if_neg hZ] at hm
            simp only [List.mem_singleton] at hm
            have := deploymentNameStr_inj_n .AUTHZ (deploymentRef_inj hm)
            omega
    · intro n dc hlook
      refine ⟨hD n dc hlook, ?_⟩
      intro j h1 h2 hmem
      simp only [List.mem_singleton] at hmem
      have := deploymentNameStr_inj_n .PROFILE (deploymentRef_inj hmem)
      omega
  · intro env st st' hact hfresh h n dc hlook
    refine ⟨asset_edge env st st' hact hfresh h n dc hlook, ?_⟩
    intro j h1 h2 hmem
    simp only [List.mem_singleton] at hmem
    have := deploymentNameStr_inj_n .ASSET_ENDPOINT_PROFILE (deploymentRef_inj hmem)
    omega
  · intro env st st' eid fspcs hact hfresh heid hfspcs h n dc hlook
    refine ⟨secretsync_edge env st st' hact hfresh eid fspcs heid hfspcs h n dc hlook, ?_⟩
    intro j h1 h2 hmem
    simp only [List.mem_singleton] at hmem
    have := deploymentNameStr_inj_n .SSC_SPC (deploymentRef_inj hmem)
    omega

/-- Secret provider class whose extended location matches the instance of
`c6_instance` after lowering. -/
def c1_spc : JObj :=
  [("extendedLocation", .obj [("name", .str "/subscriptions/sub/resourcegroups/rg/providers/microsoft.extendedlocation/customlocations/cl1")]),
   ("properties", .obj [("clientId", .str "cid1")])]

/-- Secret sync whose extended location matches the instance. -/
def c1_sync : JObj :=
  [("extendedLocation", .obj [("name", .str "/subscriptions/sub/resourcegroups/rg/providers/microsoft.extendedlocation/customlocations/cl1")])]

/-- Environment populating every dependent category of the sequencing
claim; the authorization category is left empty to exercise the
empty-prerequisite case of the listener edge. -/
def c1_env : BackupEnv :=
  { c6_env with
    broker_authentications := [[("name", .str "a1")]]
    broker_listeners := [[("name", .str "l1")]]
    dataflow_profiles := [[("name", .str "p1")]]
    dataflows_by_profile := fun _ => [[("name", .str "df1")]]
    assets := [[("name", .str "as1")]]
    asset_endpoints := [[("name", .str "aep1")]]
    ssc_spcs := [c1_spc]
    ssc_secretsyncs := [c1_sync] }

/-- Result of the instance-resources phase over `c1_env`. -/
def c1_res : BackupState :=
  match analyze_instance_resources c1_env (init_state c1_env) with
  | .ok s => s
  | .error _ => init_state c1_env

/-- Result of the assets phase over `c1_env`. -/
def c1_assets_st : BackupState :=
  match analyze_assets c1_env (init_state c1_env) with
  | .ok s => s
  | .error _ => init_state c1_env

/-- Result of the secret-sync phase over `c1_env`. -/
def c1_ssc_st : BackupState :=
  match analyze_secretsync c1_env (init_state c1_env) with
  | .ok s => s
  | .error _ => init_state c1_env

/-- The single listener deployment container of the run. -/
def c1_listener_dc : DeploymentContainer :=
  match lookupEntry c1_res.rcontainer_map (symbolicName .LISTENER 1) with
  | some (.dep dc) => dc
  | _ => DeploymentContainer.make "" none none

/-- The single dataflow deployment container of the run. -/
def c1_dataflow_dc : DeploymentContainer :=
  match lookupEntry c1_res.rcontainer_map (symbolicName .DATAFLOW 1) with
  | some (.dep dc) => dc
  | _ => DeploymentContainer.make "" none none

/-- The single asset deployment container of the run. -/
def c1_asset_dc : DeploymentContainer :=
  match lookupEntry c1_assets_st.rcontainer_map (symbolicName .ASSET 1) with
  | some (.dep dc) => dc
  | _ => DeploymentContainer.make "" none none

/-- The single secret-sync deployment container of the run. -/
def c1_sync_dc : DeploymentContainer :=
  match lookupEntry c1_ssc_st.rcontainer_map (symbolicName .SSC_SECRETSYNC 1) with
  | some (.dep dc) => dc
  | _ => DeploymentContainer.make "" none none

/-- Witness for claim C1: over `c1_env` all four edges materialize, the
listener container depending only on the last authn deployment (the authz
category is empty), and each of the dataflow, asset and secret-sync
containers depending exactly on the last deployment of its prerequisite
category. -/
theorem dependency_sequencing_witness :
    c1_listener_dc.depends_on = some (
      (if c1_env.broker_authentications.isEmpty then [] else
        [deploymentRef (deploymentNameStr .AUTHN
          (chunk_list c1_env.broker_authentications (init_state c1_env).chunk_size).length)]) ++
      (if c1_env.broker_authorizations.isEmpty then [] else
        [deploymentRef (deploymentNameStr .AUTHZ
          (chunk_list c1_env.broker_authorizations (init_state c1_env).chunk_size).length)])) ∧
    c1_dataflow_dc.depends_on = some [deploymentRef (deploymentNameStr .PROFILE
      (chunk_list c1_env.dataflow_profiles (init_state c1_env).chunk_size).length)] ∧
    c1_asset_dc.depends_on = some [deploymentRef (deploymentNameStr .ASSET_ENDPOINT_PROFILE
      (chunk_list c1_env.asset_endpoints (init_state c1_env).chunk_size).length)] ∧
    c1_sync_dc.depends_on = some [deploymentRef (deploymentNameStr .SSC_SPC
      (chunk_list [c1_spc] (init_state c1_env).chunk_size).length)] :=
  ⟨((dependency_sequencing.1 c1_env (init_state c1_env) c1_res rfl (fun _ _ => rfl)
      rfl).1 1 c1_listener_dc rfl).1,
   ((dependency_sequencing.1 c1_env (init_state c1_env) c1_res rfl (fun _ _ => rfl)
      rfl).2 1 c1_dataflow_dc rfl).1,
   (dependency_sequencing.2.1 c1_env (init_state c1_env) c1_assets_st rfl
      (fun _ _ => rfl) rfl 1 c1_asset_dc rfl).1,
   (dependency_sequencing.2.2 c1_env (init_state c1_env) c1_ssc_st
      "/subscriptions/sub/resourcegroups/rg/providers/microsoft.extendedlocation/customlocations/cl1"
      [c1_spc] rfl (fun _ _ => rfl) rfl rfl rfl 1 c1_sync_dc rfl).1⟩

end Backup
